import Mathlib

/-!
# Verification of the SwissTravelPlanner core

A shallow embedding of the itinerary-construction engine of the
SwissTravelPlanner repository (`src/data_store.py`, `src/poi_selection.py`,
`src/route_planner.py`, `src/evaluator.py`) together with theorems settling
the specification claims about it.

Modelling conventions:
* Python floats are modelled as exact rationals (`ℚ`); `math.inf` becomes `⊤`
  in `WithTop ℚ`.
* Python dicts are modelled as association lists (`List (key × value)`) with
  `List.lookup` for `dict.get`; insertion-overwrite is modelled where needed.
* Fallible Python code (raising `ValueError`) returns `Except String α`.
* The injected `random.Random` source is modelled as a deterministic stream of
  naturals plus a position counter; `rng.choice xs` picks index
  `stream pos % xs.length`.
* Unicode NFKD-plus-ASCII folding (`unicodedata.normalize("NFKD", ·)` followed
  by `encode("ascii","ignore")`) is modelled as dropping non-ASCII characters;
  on ASCII input this matches the Python behaviour exactly.
-/

set_option maxRecDepth 20000
set_option maxHeartbeats 1000000

namespace SwissTravel

/-! ## String primitives

`str.lower` and `str.strip` are modelled character-wise (for the ASCII data
the planner handles this coincides with Python), and Python's stable
`list.sort` is modelled by a stable insertion sort: a stable sort's output is
uniquely determined by the key order and the input order, so any stable
implementation is extensionally the same function. -/

/-- Python `str.lower` (character-wise). -/
def sLower (s : String) : String := ⟨s.data.map Char.toLower⟩

/-- The whitespace characters removed by Python's `str.strip()`. -/
def isPySpace (c : Char) : Bool :=
  c = ' ' || c = '\t' || c = '\n' || c = '\r' || c = '\x0b' || c = '\x0c'

/-- Python `str.strip()`. -/
def sTrim (s : String) : String :=
  ⟨((s.data.dropWhile isPySpace).reverse.dropWhile isPySpace).reverse⟩

/-- Insert into a sorted list, after any element strictly below the new one,
keeping ties in their existing order (stability). -/
def insertSorted (le : α → α → Bool) (a : α) : List α → List α
  | [] => [a]
  | b :: t =>
    if le b a && !(le a b) then b :: insertSorted le a t
    else a :: b :: t

/-- Stable insertion sort (models Python `list.sort`, which is stable). -/
def insertionSort (le : α → α → Bool) : List α → List α
  | [] => []
  | a :: t => insertSorted le a (insertionSort le t)

/-! ## data_store.py -/

/-- `data_store.CATEGORIES`: the fixed category vocabulary, in order. -/
def CATEGORIES : List String := ["nature", "culture", "food", "sport"]

/-- `data_store.SEASONS`. -/
def SEASONS : List String := ["spring", "summer", "autumn", "winter"]

/-- `data_store.POI`.  `labels` is the set of categories whose flag is true
(`labels.get(category, False)` becomes list membership); `seasons` is the
ordered season list and the derived `season_order` dict (season ↦ index, the
seasons list is de-duplicated by `_parse_seasons`) is recovered by
`List.indexOf?`.  Presentation-only fields (`abstract`, `description`,
`photo`, `season_reason`, `metadata`) are omitted: no claim and no embedded
operation reads them. -/
structure POI where
  identifier : String
  name : String
  city : String
  needed_time : Option String
  seasons : List String
  labels : List String
deriving DecidableEq

instance : Inhabited POI := ⟨⟨"", "", "", none, [], []⟩⟩

/-- `POI.has_label`. -/
def POI.has_label (p : POI) (category : String) : Bool :=
  p.labels.contains category

/-- `POI.season_priority`: `None ↦ 0`, otherwise `season_order.get(season)`,
i.e. the index of the season in the POI's season list. -/
def POI.season_priority (p : POI) (season : Option String) : Option Nat :=
  match season with
  | none => some 0
  | some s => p.seasons.indexOf? s

/-- `data_store.TravelDataStore`: the per-city POI catalog.  The constructor
lower-cases the city keys, so the stored keys are already lower-case. -/
structure TravelDataStore where
  pois_by_city : List (String × List POI)

/-- `TravelDataStore.normalize_season`. -/
def normalize_season (value : Option String) : Except String String :=
  match value with
  | none => .error "Season value cannot be None."
  | some v =>
    let candidate := sLower (sTrim v)
    if SEASONS.contains candidate then .ok candidate
    else .error ("Unsupported season '" ++ v ++ "'.")

/-- `TravelDataStore.pois_for_city`: POIs for a city (case-insensitive),
optionally season-prioritised.  When a season is given, POIs listing that
season come first ordered by their season rank (stable sort, as Python's
`list.sort`), the rest are appended in catalog order. -/
def TravelDataStore.pois_for_city (store : TravelDataStore) (city : String)
    (season : Option String) : Except String (List POI) :=
  let candidates := (store.pois_by_city.lookup (sLower city)).getD []
  if candidates.isEmpty || season.isNone then .ok candidates
  else do
    let season_key ← normalize_season season
    let prioritized := candidates.filterMap fun poi =>
      (poi.season_priority (some season_key)).map fun priority => (priority, poi)
    let others := candidates.filter fun poi =>
      (poi.season_priority (some season_key)).isNone
    let sorted := insertionSort (fun a b => a.1 ≤ b.1) prioritized
    .ok ((sorted.map (·.2)) ++ others)

/-! ## poi_selection.py -/

/-- `poi_selection._STOPWORDS`. -/
def STOPWORDS : List String :=
  ["the", "of", "and", "on", "in", "at", "lake", "mountain", "mount", "top",
   "adventure", "tour", "experience", "view", "platform", "glacier", "swiss",
   "switzerland"]

/-- The one-token landmark names of `poi_selection._are_similar`. -/
def LANDMARK_TOKENS : List String := ["jungfraujoch", "lucerne", "geneva", "zermatt"]

/-- Characters matched by `_TOKEN_PATTERN = [a-z0-9]+`. -/
def isTokenChar (c : Char) : Bool :=
  (('a' ≤ c && c ≤ 'z') || ('0' ≤ c && c ≤ '9'))

/-- Maximal runs of token characters (the matches of `[a-z0-9]+`), built with
an accumulator holding the current run reversed. -/
def tokenRuns : List Char → List Char → List String
  | [], acc => if acc.isEmpty then [] else [String.mk acc.reverse]
  | c :: cs, acc =>
    if isTokenChar c then tokenRuns cs (c :: acc)
    else if acc.isEmpty then tokenRuns cs []
    else String.mk acc.reverse :: tokenRuns cs []

/-- `poi_selection._name_tokens`: ASCII-fold (see module comment), lower-case,
split into `[a-z0-9]+` runs, drop stop-words, collect as a set. -/
def name_tokens (name : String) : Finset String :=
  ((tokenRuns ((name.toList.filter (fun c => c.toNat < 128)).map Char.toLower) []).filter
    (fun t => !STOPWORDS.contains t)).toFinset

/-- `poi_selection._are_similar`: two POIs are similar when their name-token
sets overlap in ≥ 2 tokens, or in exactly one token that is a landmark name
(`next(iter(overlap)) in {...}` is, for a singleton set, the same as the
subset test used here). -/
def are_similar (poi_a poi_b : POI) : Bool :=
  let tokens_a := name_tokens poi_a.name
  let tokens_b := name_tokens poi_b.name
  if tokens_a = ∅ || tokens_b = ∅ then false
  else
    let overlap := tokens_a ∩ tokens_b
    if overlap = ∅ then false
    else
      decide (2 ≤ overlap.card) ||
        (decide (overlap.card = 1) && decide (overlap ⊆ LANDMARK_TOKENS.toFinset))

/-- `poi_selection._primary_label`: first vocabulary category the POI carries. -/
def primary_label (poi : POI) : Option String :=
  CATEGORIES.find? poi.has_label

/-- Python's `pat in s` substring test. -/
def containsSub (s pat : String) : Bool :=
  decide (pat.toList <:+: s.toList)

/-- `poi_selection._activity_time_units`: duration-bucket string to TUs. -/
def activity_time_units (poi : POI) : Nat :=
  let needed := sLower (poi.needed_time.getD "")
  if needed = "" then 2
  else if containsSub needed "4" && containsSub needed "8" then 8
  else if containsSub needed "2" && containsSub needed "4" then 4
  else if containsSub needed "1" && containsSub needed "2" then 2
  else if containsSub needed "less" || containsSub needed "<" then 1
  else 2

/-- `poi_selection._season_score`: 0 when no season requested, the season rank
when the POI lists the season, 5.0 otherwise. -/
def season_score (poi : POI) (season : Option String) : ℚ :=
  match season with
  | none => 0
  | some s =>
    match poi.season_priority (some s) with
    | none => 5
    | some priority => priority

/-- `poi_selection._is_in_season`. -/
def is_in_season (poi : POI) (season : Option String) : Bool :=
  match season with
  | none => true
  | some s => (poi.season_priority (some s)).isSome

/-- Python truthiness of the optional season string (`if season:`):
`None` and `""` are falsy. -/
def seasonTruthy : Option String → Bool
  | none => false
  | some s => !(s = "")

/-- `dict.get(key, 0.0)` on the preference-weight dict. -/
def weight_get (w : List (String × ℚ)) (k : String) : ℚ :=
  (w.lookup k).getD 0

/-- The positive-weight categories of `_filter_pois_by_preferences` (the set
comprehension `{category for category, weight in ... if weight > 0.0}`). -/
def positive_categories (w : List (String × ℚ)) : List String :=
  (w.filter (fun kv => 0 < kv.2)).map (·.1)

/-- The zero-weight categories: vocabulary categories not positively weighted. -/
def zero_categories (w : List (String × ℚ)) : List String :=
  CATEGORIES.filter (fun c => !(positive_categories w).contains c)

/-- The membership test applied by `_filter_pois_by_preferences`. -/
def eligibleB (w : List (String × ℚ)) (poi : POI) : Bool :=
  (positive_categories w).any poi.has_label &&
    !((zero_categories w).any poi.has_label)

/-- `poi_selection._filter_pois_by_preferences`. -/
def filter_pois_by_preferences (pois : List POI) (preference_weights : List (String × ℚ)) :
    Except String (List POI) :=
  if (positive_categories preference_weights).isEmpty then
    .error "Preference weights must contain at least one positive entry."
  else
    .ok (pois.filter (eligibleB preference_weights))

/-- `poi_selection.has_preferred_pois`. -/
def has_preferred_pois (pois : List POI) (preference_weights : List (String × ℚ))
    (season : Option String) : Except String Bool := do
  let filtered ← filter_pois_by_preferences pois preference_weights
  if !seasonTruthy season then
    return !filtered.isEmpty
  else
    return filtered.any (fun poi => is_in_season poi season)

/-- The injected random source: a deterministic stream plus a position. -/
structure Rng where
  stream : Nat → Nat
  pos : Nat

/-- `rng.choice(xs)`: one draw from the stream picks an element; the
default is never used on the non-empty lists the code passes. -/
def Rng.choice (rng : Rng) (xs : List α) (dflt : α) : α × Rng :=
  (xs.getD (rng.stream rng.pos % xs.length) dflt, ⟨rng.stream, rng.pos + 1⟩)

/-- A candidate combination of `select_pois_for_day`: the tuple
`(tuple(chosen), travel_tu + used_tu, pref_sum, season_sum)`. -/
structure Combo where
  pois : List POI
  total : Nat
  pref_sum : ℚ
  season_sum : ℚ
deriving DecidableEq

instance : Inhabited Combo := ⟨⟨[], 0, 0, 0⟩⟩

/-- `combo_key` of `select_pois_for_day`: lexicographic ranking tuple. -/
def combo_key (c : Combo) : Nat × Nat × ℚ × ℚ :=
  (if 6 ≤ c.total && c.total ≤ 8 then 1 else 0, c.total, c.pref_sum, -c.season_sum)

/-- Python tuple comparison `key > best_key` (strict lexicographic). -/
def key_gt (a b : Nat × Nat × ℚ × ℚ) : Bool :=
  decide (b.1 < a.1) ||
    (decide (a.1 = b.1) &&
      (decide (b.2.1 < a.2.1) ||
        (decide (a.2.1 = b.2.1) &&
          (decide (b.2.2.1 < a.2.2.1) ||
            (decide (a.2.2.1 = b.2.2.1) && decide (b.2.2.2 < a.2.2.2))))))

/-- The `raw_info` construction: annotate each eligible POI with its primary
label and activity TUs, skipping POIs without a primary label. -/
def eligible_info (eligible : List POI) : List (POI × String × Nat) :=
  eligible.filterMap fun poi =>
    (primary_label poi).map fun label => (poi, label, activity_time_units poi)

/-- The season narrowing of `select_pois_for_day`: restrict to in-season POIs
when a (truthy) season is given and any are in season, else keep everything. -/
def narrow_by_season (season : Option String) (raw_info : List (POI × String × Nat)) :
    List (POI × String × Nat) :=
  if seasonTruthy season then
    let season_info := raw_info.filter fun info => is_in_season info.1 season
    if season_info.isEmpty then raw_info else season_info
  else raw_info

/-- The recursive subset enumeration `dfs` of `select_pois_for_day`.  At each
element it either skips (TU overflow, or similarity with an already chosen
POI) or branches on taking the element.  Combos are emitted in the same order
as the Python appends (the taken combo first, then its extensions, then the
combos not using the element).  The Python guard `tu > remaining_tu - used_tu`
on ints coincides with this ℕ-subtraction guard because every activity TU is
≥ 1. -/
def dfs (preference_weights : List (String × ℚ)) (season : Option String)
    (travel_tu remaining_tu : Nat) :
    List (POI × String × Nat) → List POI → Nat → ℚ → ℚ → List Combo
  | [], _, _, _, _ => []
  | (poi, label, tu) :: rest, chosen, used_tu, pref_sum, season_sum =>
    if remaining_tu - used_tu < tu then
      dfs preference_weights season travel_tu remaining_tu rest chosen used_tu pref_sum season_sum
    else if chosen.any (fun existing => are_similar poi existing) then
      dfs preference_weights season travel_tu remaining_tu rest chosen used_tu pref_sum season_sum
    else
      { pois := chosen ++ [poi], total := travel_tu + (used_tu + tu),
        pref_sum := pref_sum + weight_get preference_weights label,
        season_sum := season_sum + season_score poi season } ::
        (dfs preference_weights season travel_tu remaining_tu rest (chosen ++ [poi])
            (used_tu + tu) (pref_sum + weight_get preference_weights label)
            (season_sum + season_score poi season) ++
          dfs preference_weights season travel_tu remaining_tu rest chosen used_tu
            pref_sum season_sum)

/-- The best-key scan of `select_pois_for_day`: fold over the combos keeping
the best key seen and all entries tied with it, in encounter order. -/
def best_combos : List Combo → Option ((Nat × Nat × ℚ × ℚ) × List Combo) → List Combo
  | [], acc => match acc with | none => [] | some (_, items) => items
  | c :: rest, acc =>
    match acc with
    | none => best_combos rest (some (combo_key c, [c]))
    | some (bk, items) =>
      if key_gt (combo_key c) bk then best_combos rest (some (combo_key c, [c]))
      else if combo_key c = bk then best_combos rest (some (bk, items ++ [c]))
      else best_combos rest (some (bk, items))

/-- The pure part of `poi_selection.select_pois_for_day` after the preference
filter.  The empty combo is always appended first (the Python guard
`travel_tu <= max_tu` holds after the early return), then the DFS results
when any activity budget remains (`activity_info` is non-empty at that point
by the earlier early return). -/
def select_core (eligible : List POI) (preference_weights : List (String × ℚ))
    (travel_tu : Nat) (rng : Rng) (season : Option String) : List POI × Rng :=
  if eligible.isEmpty then ([], rng)
  else
    let activity_info := narrow_by_season season (eligible_info eligible)
    if activity_info.isEmpty then ([], rng)
    else if 8 < travel_tu then ([], rng)
    else
      let remaining_tu := 8 - travel_tu
      let combos : List Combo :=
        { pois := [], total := travel_tu, pref_sum := 0, season_sum := 0 } ::
          (if 0 < remaining_tu then
            dfs preference_weights season travel_tu remaining_tu activity_info [] 0 0 0
          else [])
      let best_items := best_combos combos none
      let (chosen_combo, rng') := rng.choice best_items default
      (chosen_combo.pois, rng')

/-- `poi_selection.select_pois_for_day`: the preference filter (which may
raise) followed by the pure selection. -/
def select_pois_for_day (pois : List POI) (preference_weights : List (String × ℚ))
    (travel_tu : Nat) (rng : Rng) (season : Option String) :
    Except String (List POI × Rng) := do
  let eligible ← filter_pois_by_preferences pois preference_weights
  return select_core eligible preference_weights travel_tu rng season

/-! ### Statement-support definitions for the Day Selector claims -/

/-- The tuple type of `combo_key`. -/
abbrev Key := Nat × Nat × ℚ × ℚ

/-- Strict lexicographic order on ranking keys (the order Python's tuple `<`
denotes). -/
def key_lt (a b : Key) : Prop :=
  a.1 < b.1 ∨ a.1 = b.1 ∧
    (a.2.1 < b.2.1 ∨ a.2.1 = b.2.1 ∧
      (a.2.2.1 < b.2.2.1 ∨ a.2.2.1 = b.2.2.1 ∧ a.2.2.2 < b.2.2.2))

/-- Lexicographic `≤` on ranking keys. -/
def key_le (a b : Key) : Prop := ¬ key_lt b a

/-- Summed activity TUs of a set of POIs. -/
def tuSum (S : List POI) : Nat := (S.map activity_time_units).sum

/-- Summed preference weight of the POIs' primary categories. -/
def prefSum (w : List (String × ℚ)) (S : List POI) : ℚ :=
  (S.map (fun p => weight_get w ((primary_label p).getD ""))).sum

/-- Summed season score of a set of POIs. -/
def seasonSumOf (season : Option String) (S : List POI) : ℚ :=
  (S.map (fun p => season_score p season)).sum

/-- The candidate combo a subset `S` of POIs denotes, with the scores the DFS
would accumulate for it. -/
def subset_combo (w : List (String × ℚ)) (season : Option String) (travel_tu : Nat)
    (S : List POI) : Combo :=
  { pois := S, total := travel_tu + tuSum S, pref_sum := prefSum w S,
    season_sum := seasonSumOf season S }

/-- No two members of the list are similar (in either argument order;
`are_similar` is symmetric). -/
def PairwiseDissimilar (l : List POI) : Prop :=
  l.Pairwise fun a b => are_similar a b = false

/-- The similarity test the DFS applies to a candidate POI against the POIs
already chosen. -/
def okWith (chosen : List POI) (p : POI) : Bool :=
  chosen.any fun existing => are_similar p existing

/-- Summed activity TUs of a list of annotated POIs. -/
def infoTuSum (S : List (POI × String × Nat)) : Nat := (S.map (·.2.2)).sum

/-- Summed preference weights of a list of annotated POIs. -/
def infoPrefSum (w : List (String × ℚ)) (S : List (POI × String × Nat)) : ℚ :=
  (S.map (fun i => weight_get w i.2.1)).sum

/-- Summed season scores of a list of annotated POIs. -/
def infoSeasonSum (season : Option String) (S : List (POI × String × Nat)) : ℚ :=
  (S.map (fun i => season_score i.1 season)).sum

/-- What C1 asserts of one Day-Selector call: the call succeeds, returns the
empty set when travel alone exceeds the 8-TU ceiling, and otherwise returns a
pairwise-dissimilar subset of the season-narrowed eligible pool that fits the
ceiling and whose ranking key is maximal among all such subsets (including
the empty one); the tie among key-maximal subsets is broken by the injected
random source inside `select_core`. -/
def SelectSpec (pois : List POI) (w : List (String × ℚ)) (travel_tu : Nat)
    (rng : Rng) (season : Option String) : Prop :=
  ∃ chosen rng',
    select_pois_for_day pois w travel_tu rng season = .ok (chosen, rng') ∧
    (8 < travel_tu → chosen = []) ∧
    (travel_tu ≤ 8 →
      chosen.Sublist
        ((narrow_by_season season (eligible_info (pois.filter (eligibleB w)))).map (·.1)) ∧
      travel_tu + tuSum chosen ≤ 8 ∧
      chosen.Pairwise (fun a b => are_similar a b = false) ∧
      ∀ S : List POI,
        S.Sublist
          ((narrow_by_season season (eligible_info (pois.filter (eligibleB w)))).map (·.1)) →
        travel_tu + tuSum S ≤ 8 →
        S.Pairwise (fun a b => are_similar a b = false) →
        key_le (combo_key (subset_combo w season travel_tu S))
          (combo_key (subset_combo w season travel_tu chosen)))

/-! ## route_planner.py -/

/-- `route_planner.DAILY_TRAVEL_LIMIT_MINUTES`. -/
def DAILY_TRAVEL_LIMIT_MINUTES : ℚ := 240

/-- `route_planner.LONG_TRAVEL_THRESHOLD_MINUTES`. -/
def LONG_TRAVEL_THRESHOLD_MINUTES : ℚ := 180

/-- `route_planner.CITY_DISTANCE_TO_POI`. -/
def CITY_DISTANCE_TO_POI : List (String × String) :=
  [("Appenzell, Switzerland", "appenzell"),
   ("Bern, Switzerland", "bern"),
   ("Geneva, Switzerland", "geneva"),
   ("Interlaken, Switzerland", "interlaken"),
   ("Kandersteg, Switzerland", "kandersteg"),
   ("Lausanne, Switzerland", "lausanne"),
   ("Lucerne, Switzerland", "luzern"),
   ("Lugano, Switzerland", "lugano"),
   ("Montreux, Switzerland", "montreux"),
   ("Schwyz, Switzerland", "schwyz"),
   ("Sion, Switzerland", "sion"),
   ("St. Gallen, Switzerland", "st_gallen"),
   ("St. Moritz, Switzerland", "st_moritz"),
   ("Zermatt, Switzerland", "zermatt"),
   ("Zurich, Switzerland", "zurich")]

/-- `route_planner.EXTRA_CITY_ALIASES`. -/
def EXTRA_CITY_ALIASES : List (String × String) :=
  [("lucerne", "Lucerne, Switzerland"),
   ("luzern", "Lucerne, Switzerland"),
   ("lausanne", "Lausanne, Switzerland"),
   ("kandersteg", "Kandersteg, Switzerland"),
   ("sion", "Sion, Switzerland"),
   ("st gallen", "St. Gallen, Switzerland"),
   ("st-gallen", "St. Gallen, Switzerland"),
   ("st. gallen", "St. Gallen, Switzerland"),
   ("st_gallen", "St. Gallen, Switzerland"),
   ("st gallen, switzerland", "St. Gallen, Switzerland"),
   ("st moritz", "St. Moritz, Switzerland"),
   ("st-moritz", "St. Moritz, Switzerland"),
   ("st. moritz", "St. Moritz, Switzerland"),
   ("st_moritz", "St. Moritz, Switzerland"),
   ("st moritz, switzerland", "St. Moritz, Switzerland"),
   ("zurich", "Zurich, Switzerland"),
   ("zuerich", "Zurich, Switzerland"),
   ("zürich", "Zurich, Switzerland")]

/-- `route_planner.DayPlan`. -/
structure DayPlan where
  day : Nat
  distance_city : String
  poi_city : String
  display_city : String
  travel_from : Option String
  travel_minutes : ℚ
  pois : List POI
  note : Option String
deriving DecidableEq

instance : Inhabited DayPlan := ⟨⟨0, "", "", "", none, 0, [], none⟩⟩

/-- `route_planner._travel_time_units`. -/
def travel_time_units (minutes : ℚ) : Nat :=
  if minutes ≤ 0 then 0 else max 1 ⌈minutes / 60⌉₊

/-- One raw entry of the `google_city_distances.json` payloads consumed by
`RoutePlanner._load_distance_graph` (and modelled in C5): possibly-missing
numeric fields plus a status flag. -/
structure RawRecord where
  distance_km : Option ℚ
  duration_minutes : Option ℚ
  status : String
deriving DecidableEq

/-- The raw distances section: origin → destination → record. -/
abbrev RawGraph := List (String × List (String × RawRecord))

/-- `float(payload.get(key) or math.inf)`: both a missing value and a falsy
`0.0` become `+inf`. -/
def orInf : Option ℚ → WithTop ℚ
  | none => ⊤
  | some q => if q = 0 then ⊤ else (q : WithTop ℚ)

/-- One loaded edge payload of `RoutePlanner._load_distance_graph`. -/
structure Payload where
  distance_km : WithTop ℚ
  duration_minutes : WithTop ℚ
deriving DecidableEq

/-- `RoutePlanner._load_distance_graph`: note that the record's `status` flag
is not consulted. -/
def load_distance_graph (raw : RawGraph) : List (String × List (String × Payload)) :=
  raw.map fun od =>
    (od.1, od.2.map fun dp =>
      (dp.1, { distance_km := orInf dp.2.distance_km,
               duration_minutes := orInf dp.2.duration_minutes }))

/-- The two weight channels of `RoutePlanner._dijkstra`. -/
inductive WeightKey where
  | km
  | minutes
deriving DecidableEq

/-- `payload.get(weight_key)`. -/
def getWeight (wk : WeightKey) (p : Payload) : WithTop ℚ :=
  match wk with
  | .km => p.distance_km
  | .minutes => p.duration_minutes

/-- A heap entry `(accumulated weight, city)`; `heapq` orders tuples
lexicographically, strings by code point. -/
abbrev DijEntry := ℚ × String

/-- Strict tuple comparison used by the heap. -/
def entryLtB (a b : DijEntry) : Bool :=
  decide (a.1 < b.1) || (decide (a.1 = b.1) && decide (a.2 < b.2))

/-- The minimum entry of the heap (the entry `heappop` returns). -/
def minEntry : List DijEntry → Option DijEntry
  | [] => none
  | e :: t => some (t.foldl (fun m x => if entryLtB x m then x else m) e)

/-- Pop the minimum entry; the heap is modelled as a multiset of entries. -/
def popMin (heap : List DijEntry) : Option (DijEntry × List DijEntry) :=
  match minEntry heap with
  | none => none
  | some m => some (m, heap.erase m)

/-- The weighted adjacency of a city in a single-channel graph. -/
def adjOf (graph : List (String × List (String × WithTop ℚ))) (u : String) :
    List (String × WithTop ℚ) :=
  (graph.lookup u).getD []

/-- One relaxation pass over the outgoing edges of the popped city `u` at
distance `d` (the inner `for` loop of `RoutePlanner._dijkstra`): edges of
weight `None`/`inf` are skipped, improving edges update the tentative
distance and push a heap entry. -/
def relaxEdges (d : ℚ) :
    List (String × WithTop ℚ) → (String → WithTop ℚ) × List DijEntry →
    (String → WithTop ℚ) × List DijEntry
  | [], st => st
  | edge :: rest, st =>
    match edge.2 with
    | ⊤ => relaxEdges d rest st
    | (wq : ℚ) =>
      if ((d + wq : ℚ) : WithTop ℚ) < st.1 edge.1 then
        relaxEdges d rest
          (fun c => if c = edge.1 then ((d + wq : ℚ) : WithTop ℚ) else st.1 c,
            (d + wq, edge.1) :: st.2)
      else relaxEdges d rest st

/-- The main loop of `RoutePlanner._dijkstra` (lazy-deletion Dijkstra): pop
the minimum entry, skip it when stale, otherwise relax the city's edges.  The
fuel argument only bounds the iteration count; with non-negative weights the
heap provably empties within `edge count + 2` iterations, and the Python
loop, which runs until the heap is empty, computes the same table. -/
def dijkstraLoop (graph : List (String × List (String × WithTop ℚ))) :
    Nat → (String → WithTop ℚ) → List DijEntry → (String → WithTop ℚ)
  | 0, dist, _ => dist
  | fuel + 1, dist, heap =>
    match popMin heap with
    | none => dist
    | some ((d, u), rest) =>
      if dist u < (d : WithTop ℚ) then dijkstraLoop graph fuel dist rest
      else
        let st := relaxEdges d (adjOf graph u) (dist, rest)
        dijkstraLoop graph fuel st.1 st.2

/-- Total number of edges of a single-channel graph. -/
def graphEdgeCount (graph : List (String × List (String × WithTop ℚ))) : Nat :=
  (graph.map (fun kv => kv.2.length)).sum

/-- `RoutePlanner._dijkstra` on a single weight channel: distances start at
`inf` except the origin at `0`, the heap at `[(0, origin)]`. -/
def dijkstra (graph : List (String × List (String × WithTop ℚ))) (origin : String) :
    String → WithTop ℚ :=
  dijkstraLoop graph (graphEdgeCount graph + 2)
    (fun c => if c = origin then (0 : WithTop ℚ) else ⊤) [(0, origin)]

/-- Project a loaded two-channel graph onto one weight channel. -/
def channelGraph (graph : List (String × List (String × Payload))) (wk : WeightKey) :
    List (String × List (String × WithTop ℚ)) :=
  graph.map fun kv => (kv.1, kv.2.map fun dp => (dp.1, getWeight wk dp.2))

/-- The walk weights used to specify shortest paths: the cost of following
`origin :: steps`, `⊤` as soon as a hop is not a (finite) edge. -/
def edgeWeight (graph : List (String × List (String × WithTop ℚ))) (a b : String) :
    WithTop ℚ :=
  ((adjOf graph a).lookup b).getD ⊤

/-- Accumulated weight of a walk starting at `a` through `steps`. -/
def walkCost (graph : List (String × List (String × WithTop ℚ))) :
    String → List String → WithTop ℚ
  | _, [] => 0
  | a, b :: l => edgeWeight graph a b + walkCost graph b l

/-- Endpoint of a walk starting at `a` through `steps`. -/
def walkEnd : String → List String → String
  | a, [] => a
  | _, b :: l => walkEnd b l

/-- ASCII folding of `unicodedata.normalize("NFKD", ·)` followed by
`encode("ascii", "ignore")`, modelled as dropping non-ASCII characters. -/
def asciiFold (s : String) : String := ⟨s.data.filter (fun c => c.toNat < 128)⟩

/-- `RoutePlanner._normalise_name`. -/
def normalise_name (value : String) : String := sLower (sTrim (asciiFold value))

/-- Dict insertion with overwrite semantics on an association list. -/
def assocSet (m : List (String × α)) (k : String) (v : α) : List (String × α) :=
  (k, v) :: m.filter (fun kv => kv.1 ≠ k)

/-- Remove every occurrence of the (non-empty) pattern, as Python
`str.replace(pat, "")`; the fuel is the string length, which the scan never
exceeds. -/
def removeAllAux (pat : List Char) : Nat → List Char → List Char
  | 0, l => l
  | _ + 1, [] => []
  | fuel + 1, c :: cs =>
    if pat ≠ [] ∧ pat.IsPrefix (c :: cs) then
      removeAllAux pat fuel ((c :: cs).drop pat.length)
    else c :: removeAllAux pat fuel cs

/-- Python `s.replace(pat, "")` for non-empty `pat`. -/
def removeAll (s pat : String) : String :=
  ⟨removeAllAux pat.data s.data.length s.data⟩

/-- `RoutePlanner._build_aliases`: every distance-table row contributes its
POI name, its full name and its name without the country suffix; the extra
aliases are added last, later writes overwriting earlier ones as in a dict. -/
def build_aliases : List (String × String) :=
  let base := CITY_DISTANCE_TO_POI.foldl
    (fun (aliases : List (String × String)) dp =>
      let aliases := assocSet aliases (normalise_name dp.2) dp.1
      let aliases := assocSet aliases (normalise_name dp.1) dp.1
      assocSet aliases (normalise_name (removeAll dp.1 ", Switzerland")) dp.1)
    []
  EXTRA_CITY_ALIASES.foldl
    (fun aliases vd => assocSet aliases (normalise_name vd.1) vd.2) base

/-- `RoutePlanner._display_name`: empty for a missing name, else the part
before the first comma (`split(",")[0]`). -/
def display_name (distance_name : Option String) : String :=
  match distance_name with
  | none => ""
  | some s => if s = "" then "" else ⟨s.data.takeWhile (fun c => c ≠ ',')⟩

/-- The in-memory `RoutePlanner`: the catalog plus the loaded two-channel
distance graph (the derived alias table and shortest-path tables are
functions of these, see below). -/
structure RoutePlanner where
  datastore : TravelDataStore
  graph : List (String × List (String × Payload))

/-- `self._distance_cities`. -/
def RoutePlanner.distance_cities (rp : RoutePlanner) : List String :=
  rp.graph.map (·.1)

/-- `self._shortest_km` / `self._shortest_minutes` as one channel-indexed
table. -/
def RoutePlanner.shortest_paths (rp : RoutePlanner) (wk : WeightKey)
    (origin : String) : String → WithTop ℚ :=
  dijkstra (channelGraph rp.graph wk) origin

/-- `RoutePlanner._resolve_city`: returns (distance-graph name, POI-pool
name, display name) or an unknown-city error. -/
def RoutePlanner.resolve_city (_rp : RoutePlanner) (name : String) :
    Except String (String × String × String) :=
  match build_aliases.lookup (normalise_name name) with
  | none => .error ("Unknown city " ++ name ++ ".")
  | some distance_name =>
    .ok (distance_name, (CITY_DISTANCE_TO_POI.lookup distance_name).getD "",
      display_name (some distance_name))

/-- Python truthiness of the optional previous/travel-from city. -/
def optTruthy : Option String → Bool
  | none => false
  | some s => !(s = "")

/-- `self._display_name(x) if x else None`. -/
def displayIfTruthy (x : Option String) : Option String :=
  if optTruthy x then some (display_name x) else none

/-! ### plan_route -/

/-- The minimum-hop table of `plan_route`: `ceil(minutes/240)` per city,
infinity when the end city is unreachable in the duration channel. -/
def min_days_to_end_of (rp : RoutePlanner) (end_distance : String) (city : String) :
    WithTop Nat :=
  match rp.shortest_paths .minutes city end_distance with
  | ⊤ => ⊤
  | (q : ℚ) => (⌈q / DAILY_TRAVEL_LIMIT_MINUTES⌉₊ : Nat)

/-- Comparison of an integer moves budget against a possibly-infinite hop
count (`moves_budget < min_days_to_end.get(dest, inf)`). -/
def intLtTopNat (i : Int) (m : WithTop Nat) : Bool :=
  match m with
  | ⊤ => true
  | (k : Nat) => decide (i < (k : Int))

/-- The required dwell at the end city (`required_end_stay_days`). -/
def required_end_stay_days_of (same_start_end : Bool) (num_days : Int) : Nat :=
  if same_start_end then 1
  else if 15 ≤ num_days then 3
  else if 7 ≤ num_days then 2
  else 1

/-- `target_stay_days`: 1 for trips of at most 10 days, else
`min(2, max(1, ceil(num_days / 10)))` (`num_days` is positive here, so the
integer ceiling is `(num_days + 9) / 10`). -/
def target_stay_days_of (num_days : Nat) : Nat :=
  if num_days ≤ 10 then 1 else min 2 (max 1 ((num_days + 9) / 10))

/-- A next-city candidate's sort key: the Python tuple
`((visits, backtrack, dist_component, duration), dest, duration)`, where
`dist_component` is `±distance_to_end` (so it may be `±inf`, modelled in
`WithBot (WithTop ℚ)`). -/
abbrev Cand := (Nat × Nat × WithBot (WithTop ℚ) × ℚ) × String × ℚ

instance : Inhabited Cand := ⟨((0, 0, ⊥, 0), "", 0)⟩

/-- `-dist_to_end_value` (`-inf` when unreachable). -/
def negW : WithTop ℚ → WithBot (WithTop ℚ)
  | ⊤ => ⊥
  | (q : ℚ) => (((-q : ℚ) : WithTop ℚ) : WithBot (WithTop ℚ))

/-- `+dist_to_end_value`. -/
def posW (x : WithTop ℚ) : WithBot (WithTop ℚ) := (x : WithBot (WithTop ℚ))

/-- Python tuple `≤` on candidate entries (full lexicographic comparison, as
`bucket.sort()` uses). -/
def candLe (a b : Cand) : Bool :=
  decide (a.1.1 < b.1.1) || (decide (a.1.1 = b.1.1) &&
    (decide (a.1.2.1 < b.1.2.1) || (decide (a.1.2.1 = b.1.2.1) &&
      (decide (a.1.2.2.1 < b.1.2.2.1) || (decide (a.1.2.2.1 = b.1.2.2.1) &&
        (decide (a.1.2.2.2 < b.1.2.2.2) || (decide (a.1.2.2.2 = b.1.2.2.2) &&
          (decide (a.2.1 < b.2.1) || (decide (a.2.1 = b.2.1) &&
            decide (a.2.2 ≤ b.2.2))))))))))

/-- Walk the duration thresholds in order and draw from the first non-empty
bucket: sort it, keep the entries tied with the least score, pick one with
the injected random source. -/
def pick_bucket (rng : Rng) (tagged : List (ℚ × Cand)) : List ℚ → Option (String × ℚ) × Rng
  | [] => (none, rng)
  | th :: rest =>
    let bucket := (tagged.filter (fun tc => tc.1 = th)).map (·.2)
    if bucket.isEmpty then pick_bucket rng tagged rest
    else
      let sorted := insertionSort candLe bucket
      let best_score := (sorted.headD default).1
      let best := sorted.filter (fun c => c.1 = best_score)
      let (chosen, rng') := rng.choice best default
      (some (chosen.2.1, chosen.2.2), rng')

/-- The tail of `RoutePlanner._choose_next_city`'s loop body once the
feasibility filters have passed: the distance-to-end skip, the sort key and
the bucket assignment (the first threshold at or above the duration). -/
def cand_finish (previous : Option String) (remaining_days_after_move : Int)
    (visit_counts : List (String × Nat)) (distance_to_end : String → WithTop ℚ)
    (end_city dest : String) (duration : ℚ) : Option (ℚ × Cand) :=
  let dist_to_end_value := distance_to_end dest
  if dest ≠ end_city ∧ dist_to_end_value = ⊤ then none
  else
    let visits := (visit_counts.lookup dest).getD 0
    let backtrack : Nat := if optTruthy previous ∧ previous = some dest then 1 else 0
    let dist_component :=
      if 3 < remaining_days_after_move then negW dist_to_end_value
      else posW dist_to_end_value
    let score := (visits, backtrack, dist_component, duration)
    match [(60 : ℚ), 120, 180, DAILY_TRAVEL_LIMIT_MINUTES].find?
        (fun th => duration ≤ th) with
    | some th => some (th, (score, dest, duration))
    | none => none

/-- The candidate filter of `RoutePlanner._choose_next_city` for one
adjacency entry: `none` when the entry is skipped, otherwise the tagged
candidate (bucket threshold, sort key, destination, duration). -/
def cand_of_edge (rp : RoutePlanner) (current : String) (previous : Option String)
    (day_index num_days : Nat) (end_city : String) (remaining_days_after_move : Int)
    (visit_counts : List (String × Nat)) (min_days_to_end : String → WithTop Nat)
    (distance_to_end : String → WithTop ℚ) (visited : List String)
    (available_pois : List (String × List POI)) (preference_weights : List (String × ℚ))
    (season : Option String) (required_end_stay_days : Nat)
    (dest : String) (payload : Payload) : Except String (Option (ℚ × Cand)) :=
  if dest = current then .ok none
  else
    match payload.duration_minutes with
    | ⊤ => .ok none
    | (duration : ℚ) =>
      if DAILY_TRAVEL_LIMIT_MINUTES < duration then .ok none
      else if visited.contains dest ∧ dest ≠ end_city then .ok none
      else
        let dest_poi_city := (CITY_DISTANCE_TO_POI.lookup dest).getD ""
        if dest_poi_city = "" then .ok none
        else
          match has_preferred_pois ((available_pois.lookup dest_poi_city).getD [])
              preference_weights season with
          | .error m => .error m
          | .ok hp =>
            if ¬ hp then .ok none
            else if dest = end_city then
              if (day_index : Int) ≠ (num_days : Int) - (required_end_stay_days : Int)
                then .ok none
              else if remaining_days_after_move ≠ max 0 ((required_end_stay_days : Int) - 1)
                then .ok none
              else .ok (cand_finish previous remaining_days_after_move visit_counts
                distance_to_end end_city dest duration)
            else
              if intLtTopNat (remaining_days_after_move -
                  (max 0 ((required_end_stay_days : Int) - 1))) (min_days_to_end dest)
                then .ok none
              else .ok (cand_finish previous remaining_days_after_move visit_counts
                distance_to_end end_city dest duration)

/-- The candidate-collecting loop of `RoutePlanner._choose_next_city` over
the current city's adjacency entries, short-circuiting on a raised
preference-filter error. -/
def tagged_cands (rp : RoutePlanner) (current : String) (previous : Option String)
    (day_index num_days : Nat) (end_city : String) (remaining_days_after_move : Int)
    (visit_counts : List (String × Nat)) (min_days_to_end : String → WithTop Nat)
    (distance_to_end : String → WithTop ℚ) (visited : List String)
    (available_pois : List (String × List POI)) (preference_weights : List (String × ℚ))
    (season : Option String) (required_end_stay_days : Nat) :
    List (String × Payload) → List (ℚ × Cand) → Except String (List (ℚ × Cand))
  | [], acc => .ok acc
  | dp :: rest, acc =>
    match cand_of_edge rp current previous day_index num_days end_city
        remaining_days_after_move visit_counts min_days_to_end distance_to_end
        visited available_pois preference_weights season required_end_stay_days
        dp.1 dp.2 with
    | .error m => .error m
    | .ok none => tagged_cands rp current previous day_index num_days end_city
        remaining_days_after_move visit_counts min_days_to_end distance_to_end
        visited available_pois preference_weights season required_end_stay_days
        rest acc
    | .ok (some tc) => tagged_cands rp current previous day_index num_days end_city
        remaining_days_after_move visit_counts min_days_to_end distance_to_end
        visited available_pois preference_weights season required_end_stay_days
        rest (acc ++ [tc])

/-- `RoutePlanner._choose_next_city`. -/
def RoutePlanner.choose_next_city (rp : RoutePlanner) (current : String)
    (previous : Option String) (day_index num_days : Nat) (end_city : String)
    (remaining_days : Nat) (visit_counts : List (String × Nat))
    (min_days_to_end : String → WithTop Nat) (distance_to_end : String → WithTop ℚ)
    (visited : List String) (available_pois : List (String × List POI))
    (preference_weights : List (String × ℚ)) (season : Option String) (rng : Rng)
    (required_end_stay_days : Nat) : Except String (Option (String × ℚ) × Rng) :=
  match tagged_cands rp current previous day_index num_days end_city
      ((remaining_days : Int) - 1) visit_counts min_days_to_end distance_to_end
      visited available_pois preference_weights season required_end_stay_days
      ((rp.graph.lookup current).getD []) [] with
  | .error m => .error m
  | .ok tagged =>
    .ok (pick_bucket rng tagged [(60 : ℚ), 120, 180, DAILY_TRAVEL_LIMIT_MINUTES])

/-- `"; ".join(parts)`. -/
def joinSemi : List String → String
  | [] => ""
  | [s] => s
  | s :: rest => s ++ "; " ++ joinSemi rest

/-- `"; ".join(note_parts) if note_parts else None`. -/
def joinNote (parts : List String) : Option String :=
  if parts.isEmpty then none else some (joinSemi parts)

/-- Drop the POIs whose identifier was just selected from a city's pool. -/
def removeSelected (pool chosen : List POI) : List POI :=
  pool.filter (fun poi => ¬ (chosen.map POI.identifier).contains poi.identifier)

/-- The state carried between iterations of the `plan_route` day loop.
`extra_stay_used` holds the cities whose flag is `True`; `stay_reasons` is
the loop-local Python variable of the same name, which survives into the
next iteration. -/
structure PlanState where
  visit_counts : List (String × Nat)
  extra_stay_used : List String
  visited_cities : List String
  available_pois : List (String × List POI)
  current_distance_city : String
  current_poi_city : String
  previous_distance_city : Option String
  travel_from_distance : Option String
  travel_minutes_prev : ℚ
  stay_reasons : List String
  rng : Rng

/-- The per-call parameters of the `plan_route` day loop. -/
structure PlanEnv where
  rp : RoutePlanner
  num_days : Nat
  end_distance : String
  same_start_end : Bool
  min_days_to_end : String → WithTop Nat
  distance_to_end : String → WithTop ℚ
  required_end_stay_days : Nat
  target_stay_days : Nat
  preference_weights : List (String × ℚ)
  season : Option String

/-- The stay-trigger evaluation of `plan_route` before the POI-availability
and low-TU overrides: returns `(should_stay, stay_reasons)`.  In the
end-city branch Python leaves `stay_reasons` at its carried value. -/
def decide_stay_core (env : PlanEnv) (current : String)
    (visit_counts : List (String × Nat)) (remaining_days : Nat)
    (extra_stay_used : List String) (contains_sport : Bool)
    (travel_from_distance : Option String) (travel_minutes_prev : ℚ)
    (carried_stay_reasons : List String) : Bool × List String :=
  if current = env.end_distance then
    if env.same_start_end then (false, carried_stay_reasons)
    else
      (decide ((visit_counts.lookup current).getD 0 < env.required_end_stay_days),
        carried_stay_reasons)
  else
    if remaining_days ≤ 1 then (false, [])
    else
      let event_reasons :=
        if ¬ extra_stay_used.contains current then
          (if contains_sport then ["sport-focused day"] else []) ++
            (if optTruthy travel_from_distance ∧
                LONG_TRAVEL_THRESHOLD_MINUTES ≤ travel_minutes_prev then
              ["long travel day"] else [])
        else []
      let target_stay := decide (10 < env.num_days) &&
        decide ((visit_counts.lookup current).getD 0 < env.target_stay_days)
      let sr : Bool × List String :=
        if ¬ event_reasons.isEmpty then (true, event_reasons)
        else if target_stay then
          (true, ["target stay " ++ toString env.target_stay_days ++ " days"])
        else (false, [])
      if sr.1 && intLtTopNat
          (max 0 (((remaining_days : Int) - 1) - ((env.required_end_stay_days : Int) - 1)))
          (env.min_days_to_end current) then
        (false, [])
      else sr

/-- The stay-trigger evaluation including the note/flag side effects of the
`if should_stay and stay_reasons:` block: returns
`(should_stay, stay_reasons, extra_stay_used, note_parts)`. -/
def decide_stay (env : PlanEnv) (current : String)
    (visit_counts : List (String × Nat)) (remaining_days : Nat)
    (extra_stay_used : List String) (contains_sport : Bool)
    (travel_from_distance : Option String) (travel_minutes_prev : ℚ)
    (carried_stay_reasons : List String) :
    Bool × List String × List String × List String :=
  let sr := decide_stay_core env current visit_counts remaining_days extra_stay_used
    contains_sport travel_from_distance travel_minutes_prev carried_stay_reasons
  if sr.1 ∧ ¬ sr.2.isEmpty then
    (sr.1, sr.2,
      (if sr.2.contains "sport-focused day" ∨ sr.2.contains "long travel day" then
        current :: extra_stay_used
      else extra_stay_used),
      sr.2)
  else (sr.1, sr.2, extra_stay_used, [])

/-- The complete stay decision of one `plan_route` day (the stay-trigger
evaluation, the POI-availability recheck against the current city's remaining
pool, and the low-TU override): returns
`(should_stay, stay_reasons, extra_stay_used, note_parts)`, where
`stay_reasons` is the value carried into the next iteration. -/
def stay_decision (env : PlanEnv) (current : String)
    (visit_counts : List (String × Nat)) (remaining_days : Nat)
    (extra_stay_used : List String) (contains_sport : Bool)
    (travel_from_distance : Option String) (travel_minutes_prev : ℚ)
    (carried_stay_reasons : List String) (pool : List POI) (total_daily_tu : Nat) :
    Except String (Bool × List String × List String × List String) := do
  let dsr := decide_stay env current visit_counts remaining_days extra_stay_used
    contains_sport travel_from_distance travel_minutes_prev carried_stay_reasons
  let ssr ←
    if dsr.1 then do
      let hp ← has_preferred_pois pool env.preference_weights env.season
      if ¬ hp then pure (false, ([] : List String)) else pure (dsr.1, dsr.2.1)
    else pure (dsr.1, dsr.2.1)
  let low_tu_force_move := decide (total_daily_tu < 6) && decide (0 < remaining_days)
  return (ssr.1 && !low_tu_force_move,
    (if ssr.1 && low_tu_force_move then [] else ssr.2),
    dsr.2.2.1, dsr.2.2.2)

/-- One iteration of the `plan_route` day loop: the emitted day plan plus
the next state, or `none` when the loop breaks on the final day.  Dict
indexing such as `available_pois[...]` and `self._distance_to_poi[...]` is
modelled with an empty/default fallback; in `plan_route` those keys are
always present once the distance graph covers the alias table, which the
claims assume. -/
def plan_route_day (env : PlanEnv) (day_index : Nat) (st : PlanState) :
    Except String (DayPlan × Option PlanState) :=
  let visit_counts := assocSet st.visit_counts st.current_distance_city
    (((st.visit_counts.lookup st.current_distance_city).getD 0) + 1)
  let visited_cities := st.current_distance_city :: st.visited_cities
  let remaining_days := env.num_days - day_index
  let travel_tu := travel_time_units st.travel_minutes_prev
  match select_pois_for_day ((st.available_pois.lookup st.current_poi_city).getD [])
      env.preference_weights travel_tu st.rng env.season with
  | .error m => .error m
  | .ok (pois, rng) =>
    let activity_tu_sum := (pois.map activity_time_units).sum
    let total_daily_tu := travel_tu + activity_tu_sum
    let available_pois :=
      if pois.isEmpty then st.available_pois
      else assocSet st.available_pois st.current_poi_city
        (removeSelected ((st.available_pois.lookup st.current_poi_city).getD []) pois)
    let contains_sport := pois.any (fun poi => poi.has_label "sport")
    let day_plan : DayPlan :=
      { day := day_index
        distance_city := st.current_distance_city
        poi_city := st.current_poi_city
        display_city := display_name (some st.current_distance_city)
        travel_from := displayIfTruthy st.travel_from_distance
        travel_minutes := st.travel_minutes_prev
        pois := pois
        note := none }
    if day_index = env.num_days then
      if st.current_distance_city ≠ env.end_distance then
        .error "Itinerary did not reach the destination on the final day."
      else .ok ({ day_plan with note := some "final day at destination" }, none)
    else
      match stay_decision env st.current_distance_city visit_counts remaining_days
          st.extra_stay_used contains_sport st.travel_from_distance
          st.travel_minutes_prev st.stay_reasons
          ((available_pois.lookup st.current_poi_city).getD []) total_daily_tu with
      | .error m => .error m
      | .ok sd =>
        let should_stay := sd.1
        let stay_reasons := sd.2.1
        let extra_stay_used := sd.2.2.1
        let note_parts := sd.2.2.2
        let low_tu_force_move := decide (total_daily_tu < 6) && decide (0 < remaining_days)
        if should_stay then
          .ok ({ day_plan with note := joinNote note_parts },
            some { visit_counts, extra_stay_used, visited_cities, available_pois,
                   current_distance_city := st.current_distance_city,
                   current_poi_city := st.current_poi_city,
                   previous_distance_city := st.previous_distance_city,
                   travel_from_distance := some st.current_distance_city,
                   travel_minutes_prev := 0, stay_reasons, rng })
        else
          match env.rp.choose_next_city st.current_distance_city
              st.previous_distance_city day_index env.num_days env.end_distance
              remaining_days visit_counts env.min_days_to_end env.distance_to_end
              visited_cities available_pois env.preference_weights env.season rng
              env.required_end_stay_days with
          | .error m => .error m
          | .ok cr =>
            match cr.1 with
            | none => .error "Unable to find a feasible next city under the constraints."
            | some (next_city, travel_minutes) =>
              let rng := cr.2
              if low_tu_force_move then
                let origin_city := st.current_distance_city
                let dest_poi_city := (CITY_DISTANCE_TO_POI.lookup next_city).getD ""
                let visit_counts := assocSet visit_counts origin_city
                  (((visit_counts.lookup origin_city).getD 1) - 1)
                let visit_counts := assocSet visit_counts next_city
                  (((visit_counts.lookup next_city).getD 0) + 1)
                let travel_tu_now := travel_time_units travel_minutes
                match select_pois_for_day ((available_pois.lookup dest_poi_city).getD [])
                    env.preference_weights travel_tu_now rng env.season with
                | .error m => .error m
                | .ok (dest_pois, rng) =>
                  let available_pois :=
                    if dest_pois.isEmpty then available_pois
                    else assocSet available_pois dest_poi_city
                      (removeSelected ((available_pois.lookup dest_poi_city).getD [])
                        dest_pois)
                  let note_parts := note_parts ++ ["moved due to low TU"]
                  .ok ({ day_plan with
                      distance_city := next_city
                      poi_city := dest_poi_city
                      display_city := display_name (some next_city)
                      travel_from := some (display_name (some origin_city))
                      travel_minutes := travel_minutes
                      pois := dest_pois
                      note := joinNote note_parts },
                    some { visit_counts, extra_stay_used, visited_cities, available_pois,
                           current_distance_city := next_city,
                           current_poi_city := dest_poi_city,
                           previous_distance_city := some next_city,
                           travel_from_distance := some next_city,
                           travel_minutes_prev := 0, stay_reasons, rng })
              else
                .ok ({ day_plan with note := joinNote note_parts },
                  some { visit_counts, extra_stay_used, visited_cities, available_pois,
                         current_distance_city := next_city,
                         current_poi_city := (CITY_DISTANCE_TO_POI.lookup next_city).getD "",
                         previous_distance_city := some st.current_distance_city,
                         travel_from_distance := some st.current_distance_city,
                         travel_minutes_prev := travel_minutes, stay_reasons, rng })

/-- The `for day_index in range(1, num_days + 1)` loop; the fuel equals the
number of remaining iterations and the zero case is unreachable from
`plan_route`, which supplies `num_days` units for days `1..num_days`. -/
def plan_route_days (env : PlanEnv) : Nat → Nat → PlanState → Except String (List DayPlan)
  | 0, _, _ => .error "out of fuel"
  | fuel + 1, day_index, st =>
    match plan_route_day env day_index st with
    | .error m => .error m
    | .ok (dp, none) => .ok [dp]
    | .ok (dp, some st') =>
      match plan_route_days env fuel (day_index + 1) st' with
      | .error m => .error m
      | .ok rest => .ok (dp :: rest)

/-- `RoutePlanner.plan_route`. -/
def RoutePlanner.plan_route (rp : RoutePlanner) (start_city end_city : String)
    (num_days : Int) (preference_weights : List (String × ℚ)) (season : Option String)
    (rng : Rng) : Except String (List DayPlan) := do
  if num_days ≤ 0 then throw "Number of travel days must be positive."
  let (start_distance, start_poi_city, start_display) ← rp.resolve_city start_city
  let (end_distance, _end_poi_city, end_display) ← rp.resolve_city end_city
  let same_start_end := start_distance = end_distance
  if rp.shortest_paths .km start_distance end_distance = ⊤ then
    throw ("No travel path between " ++ start_display ++ " and " ++ end_display ++ ".")
  if start_distance ≠ end_distance ∧ num_days < 2 then
    throw "At least two days are required to travel between different cities."
  let min_days_to_end : String → WithTop Nat := fun city =>
    if rp.distance_cities.contains city then min_days_to_end_of rp end_distance city
    else ⊤
  let required_end_stay_days := required_end_stay_days_of same_start_end num_days
  if intLtTopNat (max 0 (num_days - required_end_stay_days))
      (min_days_to_end start_distance) then
    throw "Not enough days to reach the destination under the travel limit."
  let distance_to_end : String → WithTop ℚ := fun city =>
    if rp.distance_cities.contains city then rp.shortest_paths .km city end_distance
    else ⊤
  let available_pois ← CITY_DISTANCE_TO_POI.mapM
    (fun dp => do
      let ps ← rp.datastore.pois_for_city dp.2 season
      return (dp.2, ps))
  let nd := num_days.toNat
  let env : PlanEnv :=
    { rp, num_days := nd, end_distance, same_start_end, min_days_to_end,
      distance_to_end, required_end_stay_days,
      target_stay_days := target_stay_days_of nd, preference_weights, season }
  plan_route_days env nd 1
    { visit_counts := [], extra_stay_used := [], visited_cities := [],
      available_pois, current_distance_city := start_distance,
      current_poi_city := start_poi_city, previous_distance_city := none,
      travel_from_distance := none, travel_minutes_prev := 0,
      stay_reasons := [], rng }

/-! ## evaluator.py -/

/-- `sep.join(parts)`. -/
def joinSep (sep : String) : List String → String
  | [] => ""
  | [s] => s
  | s :: rest => s ++ sep ++ joinSep sep rest

/-- Boolean string `≤` (code-point lexicographic, as Python `sorted` uses). -/
def strLeB (a b : String) : Bool := decide (a < b) || decide (a = b)

/-- `evaluator.ScoreBreakdown`. -/
structure ScoreBreakdown where
  total : ℚ
  components : List (String × ℚ)
  hard_violations : List String

/-- `evaluator._normalize_city_name`. -/
def normalize_city_name (value : String) : String :=
  removeAll (sLower (sTrim value)) ", switzerland"

/-- `evaluator._load_distance_graph`: the duration channel only, and — unlike
the route planner's loader — `None` alone maps to infinity (`float(val) if
val is not None else math.inf`); a stored `0` stays `0`. -/
def load_distance_graph_eval (raw : RawGraph) : List (String × List (String × WithTop ℚ)) :=
  raw.map fun od =>
    (od.1, od.2.map fun dp =>
      (dp.1, match dp.2.duration_minutes with
             | none => (⊤ : WithTop ℚ)
             | some q => (q : WithTop ℚ)))

/-- Append a closed block to the per-city block lists, preserving dict
insertion order (`blocks.setdefault(prev, []).append(...)`). -/
def addBlock (blocks : List (String × List (Nat × Nat))) (city : String) (b : Nat × Nat) :
    List (String × List (Nat × Nat)) :=
  match blocks.lookup city with
  | none => blocks ++ [(city, [b])]
  | some _ => blocks.map (fun kv => if kv.1 = city then (kv.1, kv.2 ++ [b]) else kv)

/-- The block-building loop of `evaluator._check_no_revisit`; `n` is the total
number of days, `idx` the 1-based index of the next day plan. -/
def blocksLoop (n : Nat) : List (String × List (Nat × Nat)) → Option String → Nat → Nat →
    List DayPlan → List (String × List (Nat × Nat))
  | blocks, prev, block_start, _, [] =>
    match prev with
    | none => blocks
    | some p => addBlock blocks p (block_start, n)
  | blocks, prev, block_start, idx, dp :: rest =>
    let cur := dp.distance_city
    match prev with
    | none => blocksLoop n blocks (some cur) block_start (idx + 1) rest
    | some p =>
      if cur ≠ p then
        blocksLoop n (addBlock blocks p (block_start, idx - 1)) (some cur) idx (idx + 1) rest
      else
        blocksLoop n blocks (some p) block_start (idx + 1) rest

/-- `evaluator._check_no_revisit`. -/
def check_no_revisit (day_plans : List DayPlan) (start_city end_city : String) :
    List String :=
  let blocks := blocksLoop day_plans.length [] none 1 1 day_plans
  let start_norm := normalize_city_name start_city
  let end_norm := normalize_city_name end_city
  let loop_trip := start_norm = end_norm
  blocks.foldl
    (fun violations cb =>
      if cb.2.length ≤ 1 then violations
      else
        let city_norm := normalize_city_name cb.1
        if loop_trip ∧ city_norm = start_norm ∧ cb.2.length = 2 ∧
            (cb.2.headD (0, 0)).1 = 1 ∧ ((cb.2.getLast?).getD (0, 0)).2 = day_plans.length then
          violations
        else violations ++ [cb.1])
    []

/-- The travel-plus-activity TU total the evaluator computes for one day. -/
def dayTU (dp : DayPlan) : Nat :=
  travel_time_units dp.travel_minutes + (dp.pois.map activity_time_units).sum

/-- `evaluator.evaluate_itinerary`.  `math.sqrt` and `math.exp` are external
real-valued functions and are taken as parameters `sqrtFn`/`expFn`; the
distance graph is passed already loaded (the file-system boundary).  The
caller-side guarantee `mtu > 0` avoids Python's `ZeroDivisionError` in the
TU-utilization component. -/
def evaluate_itinerary (sqrtFn expFn : ℚ → ℚ)
    (graph : List (String × List (String × WithTop ℚ)))
    (day_plans : List DayPlan) (start_city end_city : String)
    (interests : List (String × ℚ)) (mtu : Int) (season : String) : ScoreBreakdown :=
  if day_plans.isEmpty then ⟨0, [], ["empty itinerary"]⟩
  else
    let days := day_plans.length
    let first_city := (day_plans.headD default).distance_city
    let last_city := ((day_plans.getLast?).getD default).distance_city
    let violations : List String :=
      (if normalize_city_name first_city ≠ normalize_city_name start_city then
        ["day 1 not in start city"] else []) ++
      (if normalize_city_name last_city ≠ normalize_city_name end_city then
        ["last day not in end city"] else [])
    let revisit_violations := check_no_revisit day_plans start_city end_city
    let violations := violations ++
      (if ¬ revisit_violations.isEmpty then
        ["revisited cities: " ++
          joinSep ", " (insertionSort strLeB revisit_violations.eraseDups)]
      else [])
    let violations := violations ++ day_plans.foldl
      (fun acc dp =>
        acc ++
          dp.pois.filterMap (fun poi =>
            if ¬ is_in_season poi (some season) then
              some ("POI out of season: " ++ poi.name)
            else none) ++
          (if mtu < (dayTU dp : Int) then
            ["day TU exceeds MTU: " ++ dp.display_city ++ " TU=" ++ toString (dayTU dp) ++
              " MTU=" ++ toString mtu]
          else []))
      []
    if ¬ violations.isEmpty then ⟨0, [], violations⟩
    else
      let all_pois := day_plans.flatMap (·.pois)
      let N := all_pois.length
      let desired_total : ℚ := (CATEGORIES.map (fun k => (interests.lookup k).getD 0)).sum
      let target : String → ℚ := fun k =>
        if desired_total ≤ 0 then 1 / (CATEGORIES.length : ℚ)
        else ((interests.lookup k).getD 0) / desired_total
      let counts : String → Nat := fun k =>
        (all_pois.filter (fun poi => primary_label poi = some k)).length
      let s_interest : ℚ :=
        if N ≤ 0 then 0
        else
          ((CATEGORIES.map (fun c =>
            let p_hat : ℚ := (counts c : ℚ) / (N : ℚ)
            let denom : ℚ := max (target c) (1 / (N : ℚ))
            max 0 (1 - |p_hat - target c| / denom))).sum) / (CATEGORIES.length : ℚ)
      let unique_cities := (day_plans.map (·.distance_city)).eraseDups
      let U := unique_cities.length
      let target_cities := 1 + min days 8
      let cdenom := max 1 (target_cities - 1)
      let s_city : ℚ := min 1 (((U - 1 : Nat) : ℚ) / (cdenom : ℚ))
      let start_key := first_city
      let sp := dijkstra graph start_key
      let other_cities := unique_cities.filter
        (fun c => normalize_city_name c ≠ normalize_city_name start_city)
      let candidates := start_key ::
        (graph.map (·.1) ++ graph.flatMap (fun kv => kv.2.map (·.1)))
      let finite_dists := candidates.filterMap (fun c =>
        match sp c with
        | ⊤ => none
        | (q : ℚ) => some q)
      let M_max : ℚ := match finite_dists with
        | [] => 1
        | q :: rest => rest.foldl max q
      let cover_vals := other_cities.filterMap (fun c =>
        match sp c with
        | ⊤ => none
        | (minutes : ℚ) =>
          if M_max ≤ 0 then none
          else some (sqrtFn (max 0 (min 1 (minutes / M_max)))))
      let s_cover : ℚ :=
        if cover_vals.isEmpty then 0 else cover_vals.sum / (cover_vals.length : ℚ)
      let util_scores := day_plans.map (fun dp =>
        max 0 (1 - |((dayTU dp : Int) : ℚ) - (mtu : ℚ)| / (mtu : ℚ)))
      let s_tu : ℚ :=
        if util_scores.isEmpty then 0 else util_scores.sum / (util_scores.length : ℚ)
      let long_scores := day_plans.map (fun dp =>
        if dp.travel_minutes ≤ 120 then (1 : ℚ)
        else expFn (-(((dp.travel_minutes - 120) / 30) ^ 2)))
      let s_long : ℚ :=
        if long_scores.isEmpty then 0 else long_scores.sum / (long_scores.length : ℚ)
      let components : List (String × ℚ) :=
        [("interest_matching", s_interest), ("city_visit_efficiency", s_city),
         ("geographic_coverage", s_cover), ("tu_utilization", s_tu),
         ("long_travel_penalty", s_long)]
      let total : ℚ := 100 *
        ((35 : ℚ) / 100 * s_interest + (20 : ℚ) / 100 * s_tu + (15 : ℚ) / 100 * s_city +
          (15 : ℚ) / 100 * s_cover + (15 : ℚ) / 100 * s_long)
      ⟨total, components, []⟩

/-! ### Concrete inputs used by counterexamples and witnesses -/

/-- A POI carrying a positively-weighted and a negatively-weighted category. -/
def poiC6 : POI := ⟨"x", "X", "z", none, [], ["nature", "culture"]⟩

/-- A weight vector with a strictly negative (not zero, not unmentioned)
entry for a vocabulary category. -/
def wC6 : List (String × ℚ) := [("nature", 1), ("culture", -1)]

/-- Two dissimilar nature POIs of 4 TUs each. -/
def poiA : POI := ⟨"a", "Alpha Museum", "zurich", some "2-4 hours", ["summer"], ["nature"]⟩

/-- See `poiA`. -/
def poiB : POI := ⟨"b", "Beta Gardens", "zurich", some "2-4 hours", ["summer"], ["nature"]⟩

/-- A winter-only nature POI. -/
def poiC : POI := ⟨"c", "Gamma Falls", "zurich", some "2-4 hours", ["winter"], ["nature"]⟩

/-- A POI with an empty season list. -/
def poiD : POI := ⟨"d", "Delta Abbey", "zurich", some "1-2 hours", [], ["culture"]⟩

/-- A nature-only preference vector. -/
def wNat : List (String × ℚ) := [("nature", 1)]

/-- A fixed injected random source. -/
def rng0 : Rng := ⟨fun _ => 0, 0⟩

/-- A small concrete catalog for witnesses. -/
def storeEx : TravelDataStore := ⟨[("zurich", [poiC, poiA, poiD, poiB])]⟩

/-- A two-city, all-OK raw distance section. -/
def rawEx : RawGraph :=
  [("Zurich, Switzerland", [("Bern, Switzerland", ⟨some 100, some 75, "OK"⟩)]),
   ("Bern, Switzerland", [("Zurich, Switzerland", ⟨some 100, some 75, "OK"⟩)])]

/-- A concrete planner over `storeEx` and `rawEx`. -/
def rpEx : RoutePlanner := ⟨storeEx, load_distance_graph rawEx⟩

/-- A raw section whose only edge carries finite values but a failed status
flag. -/
def rawC5 : RawGraph :=
  [("Zurich, Switzerland", [("Bern, Switzerland", ⟨some 5, some 7, "FAILED"⟩)]),
   ("Bern, Switzerland", [])]

/-- `rawC5` with the failed record's weights actually treated as missing, as
the claim says they are. -/
def rawC5removed : RawGraph :=
  [("Zurich, Switzerland", [("Bern, Switzerland", ⟨none, none, "FAILED"⟩)]),
   ("Bern, Switzerland", [])]

/-- A 4-TU summer nature POI in Bern. -/
def poiE : POI := ⟨"e", "Epsilon Ridge", "bern", some "2-4 hours", ["summer"], ["nature"]⟩

/-- A catalog giving both route endpoints eligible POIs. -/
def storeEx2 : TravelDataStore := ⟨[("zurich", [poiA, poiB]), ("bern", [poiE])]⟩

/-- A planner over `storeEx2` and `rawEx`. -/
def rpEx2 : RoutePlanner := ⟨storeEx2, load_distance_graph rawEx⟩

/-- The itinerary `rpEx2.plan_route "zurich" "bern" 2 wNat none rng0` emits. -/
def plansEx : List DayPlan :=
  [{ day := 1, distance_city := "Zurich, Switzerland", poi_city := "zurich",
     display_city := "Zurich", travel_from := none, travel_minutes := 0,
     pois := [poiA, poiB], note := none },
   { day := 2, distance_city := "Bern, Switzerland", poi_city := "bern",
     display_city := "Bern", travel_from := some "Zurich", travel_minutes := 75,
     pois := [poiE], note := some "final day at destination" }]

/-- A loop-environment for exercising the stay decision in isolation. -/
def envC7 : PlanEnv :=
  { rp := rpEx, num_days := 5, end_distance := "Bern, Switzerland",
    same_start_end := false, min_days_to_end := fun _ => ((0 : Nat) : WithTop Nat),
    distance_to_end := fun _ => (0 : WithTop ℚ), required_end_stay_days := 1,
    target_stay_days := 1, preference_weights := wNat, season := none }

/-! ### Claim-statement predicates -/

/-- The (amended) eligibility contract of the Day-Selector filter: the filter
keeps exactly the POIs that carry a positively weighted category and carry no
vocabulary category whose weight is non-positive or unmentioned. -/
def EligibilityOk (pois : List POI) (w : List (String × ℚ)) : Prop :=
  filter_pois_by_preferences pois w = .ok (pois.filter (eligibleB w)) ∧
  ((w.map Prod.fst).Nodup → ∀ p : POI,
    (eligibleB w p = true ↔
      ((∃ l, p.has_label l = true ∧ 0 < weight_get w l) ∧
        ¬ ∃ c ∈ CATEGORIES, weight_get w c ≤ 0 ∧ p.has_label c = true)))

/-- The input-validation contract: with no positive weight entry the filter,
the Day Selector and `has_preferred_pois` all raise. -/
def EligibilityError (pois : List POI) (w : List (String × ℚ)) (travel_tu : Nat)
    (rng : Rng) (season : Option String) : Prop :=
  (∃ msg, filter_pois_by_preferences pois w = .error msg) ∧
  (∃ msg, select_pois_for_day pois w travel_tu rng season = .error msg) ∧
  (∃ msg, has_preferred_pois pois w season = .error msg)

/-- What C4 asserts of a failing call: `plan_route` raises (and hence emits
no day). -/
def PlanRouteFails (rp : RoutePlanner) (s e : String) (n : Int)
    (w : List (String × ℚ)) (season : Option String) (rng : Rng) : Prop :=
  ∃ msg, rp.plan_route s e n w season rng = Except.error msg

/-- The stay-trigger disjunction as the claim words it, with a strict
180-minute comparison ("the incoming travel leg exceeded 180 minutes"). -/
def StayTriggerStrict (env : PlanEnv) (current : String)
    (visit_counts : List (String × Nat)) (extra_stay_used : List String)
    (contains_sport : Bool) (travel_from_distance : Option String)
    (travel_minutes_prev : ℚ) : Prop :=
  (¬ extra_stay_used.contains current ∧
    (contains_sport = true ∨
      (optTruthy travel_from_distance = true ∧ 180 < travel_minutes_prev))) ∨
  (10 < env.num_days ∧ (visit_counts.lookup current).getD 0 < env.target_stay_days)

/-- The stay-trigger disjunction as the code computes it: the long-travel
trigger already fires at exactly 180 minutes. -/
def StayTriggerGe (env : PlanEnv) (current : String)
    (visit_counts : List (String × Nat)) (extra_stay_used : List String)
    (contains_sport : Bool) (travel_from_distance : Option String)
    (travel_minutes_prev : ℚ) : Prop :=
  (¬ extra_stay_used.contains current ∧
    (contains_sport = true ∨
      (optTruthy travel_from_distance = true ∧ 180 ≤ travel_minutes_prev))) ∨
  (10 < env.num_days ∧ (visit_counts.lookup current).getD 0 < env.target_stay_days)

/-- "Staying still leaves enough remaining days to reach the end city under
its dwell requirement". -/
def StayFeasible (env : PlanEnv) (current : String) (remaining_days : Nat) : Prop :=
  ¬ intLtTopNat
      (max 0 (((remaining_days : Int) - 1) - ((env.required_end_stay_days : Int) - 1)))
      (env.min_days_to_end current) = true

/-- Finite-weight non-negativity of a single-channel graph. -/
def NonnegGraph (g : List (String × List (String × WithTop ℚ))) : Prop :=
  ∀ kv ∈ g, ∀ e ∈ kv.2, ∀ q : ℚ, e.2 = (q : WithTop ℚ) → 0 ≤ q

/-- The stored value a raw distance record carries on one weight channel. -/
def rawVal : WeightKey → RawRecord → Option ℚ
  | .km, r => r.distance_km
  | .minutes, r => r.duration_minutes

/-- The origin names of the rows are pairwise distinct (a Python dict). -/
def NodupKeys (g : List (String × List (String × WithTop ℚ))) : Prop :=
  (g.map (·.1)).Nodup

/-- Each row's destination names are pairwise distinct (a Python dict). -/
def NodupAdj (g : List (String × List (String × WithTop ℚ))) : Prop :=
  ∀ kv ∈ g, (kv.2.map (·.1)).Nodup

/-- Remaining relaxation work: the out-degrees of the unprocessed graph keys. -/
def edgesOutOf (g : List (String × List (String × WithTop ℚ))) (P : List String) : Nat :=
  (((g.map (·.1)).dedup.filter (fun v => !(P.contains v))).map
    (fun v => (adjOf g v).length)).sum

/-- The Dijkstra loop invariant over the tentative distances, the heap and
the ghost list `P` of processed cities: (1) every finite tentative distance
is attained by a walk; (2) tentative distances dominate the heap entries they
stem from; (3) every city with a finite tentative distance is processed or
has a heap entry at exactly its tentative distance; (4) processed cities are
fully relaxed; (5) processed cities' distances are below every heap entry;
(6) the origin's distance never exceeds zero. -/
def DijInv (g : List (String × List (String × WithTop ℚ))) (origin : String)
    (dist : String → WithTop ℚ) (heap : List DijEntry) (P : List String) : Prop :=
  (∀ v (q : ℚ), dist v = (q : WithTop ℚ) →
    ∃ steps, walkEnd origin steps = v ∧ walkCost g origin steps = (q : WithTop ℚ)) ∧
  (∀ e ∈ heap, dist e.2 ≤ (e.1 : WithTop ℚ)) ∧
  (∀ v, dist v ≠ ⊤ → v ∈ P ∨ ∃ e ∈ heap, e.2 = v ∧ (e.1 : WithTop ℚ) = dist v) ∧
  (∀ u ∈ P, ∀ ed ∈ adjOf g u, dist ed.1 ≤ dist u + ed.2) ∧
  (∀ u ∈ P, ∀ e ∈ heap, dist u ≤ (e.1 : WithTop ℚ)) ∧
  dist origin ≤ 0

/-- The km channel of the loaded `rawC5` graph, written out. -/
def graphC5 : List (String × List (String × WithTop ℚ)) :=
  [("Zurich, Switzerland", [("Bern, Switzerland", ((5 : ℚ) : WithTop ℚ))]),
   ("Bern, Switzerland", [])]

/-- The km channel of the loaded `rawC5removed` graph, written out. -/
def graphC5removed : List (String × List (String × WithTop ℚ)) :=
  [("Zurich, Switzerland", [("Bern, Switzerland", (⊤ : WithTop ℚ))]),
   ("Bern, Switzerland", [])]

/-- The maximal runs (contiguous blocks of equal cities) of a day sequence,
with 1-based inclusive day ranges: the current run's city `c` started on day
`s`, and `idx` is the day index of the next list element.  This is the
specification-level notion of "contiguous block of days" that
`_check_no_revisit`'s block dictionary is compared against. -/
def runsAux : String → Nat → Nat → List String → List (String × (Nat × Nat))
  | c, s, idx, [] => [(c, (s, idx - 1))]
  | c, s, idx, x :: xs =>
    if x = c then runsAux c s (idx + 1) xs
    else (c, (s, idx - 1)) :: runsAux x idx (idx + 1) xs

/-- The run decomposition of a city sequence (1-based days). -/
def runsOf : List String → List (String × (Nat × Nat))
  | [] => []
  | x :: xs => runsAux x 1 2 xs

/-- The spec's revisit rule, stated over the run decomposition: no city may
own more than one run, except that on a loop trip the start city may own
exactly two, one beginning on day 1 and one ending on the last day. -/
def noRevisitSpec (day_plans : List DayPlan) (start_city end_city : String) : Prop :=
  ∀ city,
    1 < ((runsOf (day_plans.map (·.distance_city))).filter
      (fun r => r.1 = city)).length →
    normalize_city_name start_city = normalize_city_name end_city ∧
    normalize_city_name city = normalize_city_name start_city ∧
    ((runsOf (day_plans.map (·.distance_city))).filter
      (fun r => r.1 = city)).length = 2 ∧
    (((runsOf (day_plans.map (·.distance_city))).filter
      (fun r => r.1 = city)).headD ("", (0, 0))).2.1 = 1 ∧
    ((((runsOf (day_plans.map (·.distance_city))).filter
      (fun r => r.1 = city)).getLast?).getD ("", (0, 0))).2.2 = day_plans.length

/-- The hard-constraint violation list `evaluate_itinerary` accumulates on a
non-empty itinerary (the local `violations` variable as of the `if violations`
check), written as a standalone function of the inputs it reads. -/
def hardViolations (day_plans : List DayPlan) (start_city end_city : String)
    (mtu : Int) (season : String) : List String :=
  (if normalize_city_name (day_plans.headD default).distance_city ≠
      normalize_city_name start_city then
    ["day 1 not in start city"] else []) ++
  (if normalize_city_name ((day_plans.getLast?).getD default).distance_city ≠
      normalize_city_name end_city then
    ["last day not in end city"] else []) ++
  (if ¬ (check_no_revisit day_plans start_city end_city).isEmpty then
    ["revisited cities: " ++
      joinSep ", " (insertionSort strLeB
        (check_no_revisit day_plans start_city end_city).eraseDups)]
  else []) ++
  day_plans.foldl
    (fun acc dp =>
      acc ++
        dp.pois.filterMap (fun poi =>
          if ¬ is_in_season poi (some season) then
            some ("POI out of season: " ++ poi.name)
          else none) ++
        (if mtu < (dayTU dp : Int) then
          ["day TU exceeds MTU: " ++ dp.display_city ++ " TU=" ++ toString (dayTU dp) ++
            " MTU=" ++ toString mtu]
        else []))
    []

/-- The soft-component branch of `evaluate_itinerary` (the code after the
`if violations` early return), as a standalone function. -/
def evalValid (sqrtFn expFn : ℚ → ℚ)
    (graph : List (String × List (String × WithTop ℚ)))
    (day_plans : List DayPlan) (start_city : String)
    (interests : List (String × ℚ)) (mtu : Int) : ScoreBreakdown :=
  let days := day_plans.length
  let first_city := (day_plans.headD default).distance_city
  let all_pois := day_plans.flatMap (·.pois)
  let N := all_pois.length
  let desired_total : ℚ := (CATEGORIES.map (fun k => (interests.lookup k).getD 0)).sum
  let target : String → ℚ := fun k =>
    if desired_total ≤ 0 then 1 / (CATEGORIES.length : ℚ)
    else ((interests.lookup k).getD 0) / desired_total
  let counts : String → Nat := fun k =>
    (all_pois.filter (fun poi => primary_label poi = some k)).length
  let s_interest : ℚ :=
    if N ≤ 0 then 0
    else
      ((CATEGORIES.map (fun c =>
        let p_hat : ℚ := (counts c : ℚ) / (N : ℚ)
        let denom : ℚ := max (target c) (1 / (N : ℚ))
        max 0 (1 - |p_hat - target c| / denom))).sum) / (CATEGORIES.length : ℚ)
  let unique_cities := (day_plans.map (·.distance_city)).eraseDups
  let U := unique_cities.length
  let target_cities := 1 + min days 8
  let cdenom := max 1 (target_cities - 1)
  let s_city : ℚ := min 1 (((U - 1 : Nat) : ℚ) / (cdenom : ℚ))
  let start_key := first_city
  let sp := dijkstra graph start_key
  let other_cities := unique_cities.filter
    (fun c => normalize_city_name c ≠ normalize_city_name start_city)
  let candidates := start_key ::
    (graph.map (·.1) ++ graph.flatMap (fun kv => kv.2.map (·.1)))
  let finite_dists := candidates.filterMap (fun c =>
    match sp c with
    | ⊤ => none
    | (q : ℚ) => some q)
  let M_max : ℚ := match finite_dists with
    | [] => 1
    | q :: rest => rest.foldl max q
  let cover_vals := other_cities.filterMap (fun c =>
    match sp c with
    | ⊤ => none
    | (minutes : ℚ) =>
      if M_max ≤ 0 then none
      else some (sqrtFn (max 0 (min 1 (minutes / M_max)))))
  let s_cover : ℚ :=
    if cover_vals.isEmpty then 0 else cover_vals.sum / (cover_vals.length : ℚ)
  let util_scores := day_plans.map (fun dp =>
    max 0 (1 - |((dayTU dp : Int) : ℚ) - (mtu : ℚ)| / (mtu : ℚ)))
  let s_tu : ℚ :=
    if util_scores.isEmpty then 0 else util_scores.sum / (util_scores.length : ℚ)
  let long_scores := day_plans.map (fun dp =>
    if dp.travel_minutes ≤ 120 then (1 : ℚ)
    else expFn (-(((dp.travel_minutes - 120) / 30) ^ 2)))
  let s_long : ℚ :=
    if long_scores.isEmpty then 0 else long_scores.sum / (long_scores.length : ℚ)
  let components : List (String × ℚ) :=
    [("interest_matching", s_interest), ("city_visit_efficiency", s_city),
     ("geographic_coverage", s_cover), ("tu_utilization", s_tu),
     ("long_travel_penalty", s_long)]
  let total : ℚ := 100 *
    ((35 : ℚ) / 100 * s_interest + (20 : ℚ) / 100 * s_tu + (15 : ℚ) / 100 * s_city +
      (15 : ℚ) / 100 * s_cover + (15 : ℚ) / 100 * s_long)
  ⟨total, components, []⟩

/-- A one-day itinerary staying at Zurich, used to instantiate the evaluator
theorems. -/
def dayC3 : DayPlan :=
  { day := 1, distance_city := "Zurich, Switzerland", poi_city := "zurich",
    display_city := "Zurich", travel_from := none, travel_minutes := 0,
    pois := [], note := none }

/-! ## Theorems -/

/-! ### Order lemmas for ranking keys -/

theorem key_gt_iff {a b : Key} : key_gt a b = true ↔ key_lt b a := by
  simp only [key_gt, key_lt, Bool.or_eq_true, Bool.and_eq_true, decide_eq_true_iff]
  tauto

theorem key_gt_eq_false_iff {a b : Key} : key_gt a b = false ↔ key_le a b := by
  rw [key_le, ← key_gt_iff, Bool.eq_false_iff]

theorem key_lt_irrefl (a : Key) : ¬ key_lt a a := by
  simp only [key_lt, lt_self_iff_false, false_or, true_and]
  tauto

theorem key_lt_trans {a b c : Key} (hab : key_lt a b) (hbc : key_lt b c) :
    key_lt a c := by
  obtain ⟨a1, a2, a3, a4⟩ := a
  obtain ⟨b1, b2, b3, b4⟩ := b
  obtain ⟨c1, c2, c3, c4⟩ := c
  simp only [key_lt] at *
  rcases hab with h | ⟨rfl, h | ⟨rfl, h | ⟨rfl, h⟩⟩⟩ <;>
    rcases hbc with h' | ⟨rfl, h' | ⟨rfl, h' | ⟨rfl, h'⟩⟩⟩ <;>
    first
      | (exact Or.inl (lt_trans h h'))
      | (exact Or.inl h)
      | (exact Or.inl h')
      | (refine Or.inr ⟨rfl, ?_⟩ ;
          first
            | (exact Or.inl (lt_trans h h'))
            | (exact Or.inl h)
            | (exact Or.inl h')
            | (refine Or.inr ⟨rfl, ?_⟩ ;
                first
                  | (exact Or.inl (lt_trans h h'))
                  | (exact Or.inl h)
                  | (exact Or.inl h')
                  | (exact Or.inr ⟨rfl, lt_trans h h'⟩)
                  | (exact Or.inr ⟨rfl, h⟩)
                  | (exact Or.inr ⟨rfl, h'⟩)))

theorem key_lt_trichotomy (a b : Key) : key_lt a b ∨ a = b ∨ key_lt b a := by
  obtain ⟨a1, a2, a3, a4⟩ := a
  obtain ⟨b1, b2, b3, b4⟩ := b
  simp only [key_lt, Prod.mk.injEq]
  rcases lt_trichotomy a1 b1 with h | h | h
  · exact Or.inl (Or.inl h)
  · subst h
    rcases lt_trichotomy a2 b2 with h | h | h
    · exact Or.inl (Or.inr ⟨rfl, Or.inl h⟩)
    · subst h
      rcases lt_trichotomy a3 b3 with h | h | h
      · exact Or.inl (Or.inr ⟨rfl, Or.inr ⟨rfl, Or.inl h⟩⟩)
      · subst h
        rcases lt_trichotomy a4 b4 with h | h | h
        · exact Or.inl (Or.inr ⟨rfl, Or.inr ⟨rfl, Or.inr ⟨rfl, h⟩⟩⟩)
        · subst h
          exact Or.inr (Or.inl ⟨rfl, rfl, rfl, rfl⟩)
        · exact Or.inr (Or.inr (Or.inr ⟨rfl, Or.inr ⟨rfl, Or.inr ⟨rfl, h⟩⟩⟩))
      · exact Or.inr (Or.inr (Or.inr ⟨rfl, Or.inr ⟨rfl, Or.inl h⟩⟩))
    · exact Or.inr (Or.inr (Or.inr ⟨rfl, Or.inl h⟩))
  · exact Or.inr (Or.inr (Or.inl h))

theorem key_le_trans {a b c : Key} (hab : key_le a b) (hbc : key_le b c) :
    key_le a c := by
  intro hca
  rcases key_lt_trichotomy a b with hab' | rfl | hba
  · exact hbc (key_lt_trans hca hab')
  · exact hbc hca
  · exact hab hba

theorem key_le_refl (a : Key) : key_le a a := key_lt_irrefl a

/-! ### Insertion-sort lemmas -/

theorem insertSorted_perm (le : α → α → Bool) (a : α) (l : List α) :
    (insertSorted le a l).Perm (a :: l) := by
  induction l with
  | nil => rfl
  | cons b t ih =>
    unfold insertSorted
    split
    · exact ((ih.cons b).trans (List.Perm.swap a b t))
    · exact List.Perm.refl _

theorem insertionSort_perm (le : α → α → Bool) (l : List α) :
    (insertionSort le l).Perm l := by
  induction l with
  | nil => rfl
  | cons a t ih =>
    exact (insertSorted_perm le a (insertionSort le t)).trans (ih.cons a)

theorem insertSorted_pairwise (le : α → α → Bool)
    (htrans : ∀ x y z, le x y = true → le y z = true → le x z = true)
    (htot : ∀ x y, le x y = true ∨ le y x = true)
    (a : α) (l : List α) (hl : l.Pairwise (le · · = true)) :
    (insertSorted le a l).Pairwise (le · · = true) := by
  induction l with
  | nil => simp [insertSorted]
  | cons b t ih =>
    unfold insertSorted
    split
    · rename_i hcond
      rw [Bool.and_eq_true, Bool.not_eq_true'] at hcond
      refine List.Pairwise.cons ?_ (ih hl.tail)
      intro x hx
      rcases List.mem_cons.mp (((insertSorted_perm le a t).mem_iff).mp hx) with rfl | hxt
      · exact hcond.1
      · exact List.rel_of_pairwise_cons hl hxt
    · rename_i hcond
      rw [Bool.and_eq_true, Bool.not_eq_true'] at hcond
      have hab : le a b = true := by
        cases h' : le a b
        · rcases htot a b with h | h
          · rw [h'] at h
            exact absurd h (by simp)
          · exact absurd ⟨h, h'⟩ hcond
        · rfl
      refine List.Pairwise.cons ?_ hl
      intro x hx
      rcases List.mem_cons.mp hx with rfl | hxt
      · exact hab
      · exact htrans a b x hab (List.rel_of_pairwise_cons hl hxt)

theorem insertionSort_pairwise (le : α → α → Bool)
    (htrans : ∀ x y z, le x y = true → le y z = true → le x z = true)
    (htot : ∀ x y, le x y = true ∨ le y x = true)
    (l : List α) : (insertionSort le l).Pairwise (le · · = true) := by
  induction l with
  | nil => simp [insertionSort]
  | cons a t ih => exact insertSorted_pairwise le htrans htot a _ ih

/-! ### POI catalog lemmas (C8, C10) -/

theorem normalize_season_of_mem {s : String} (hs : s ∈ SEASONS) :
    normalize_season (some s) = .ok s := by
  simp only [SEASONS, List.mem_cons, List.not_mem_nil, or_false] at hs
  rcases hs with rfl | rfl | rfl | rfl <;> rfl

theorem map_snd_filterMap_priority (f : POI → Option Nat) (l : List POI) :
    (l.filterMap (fun poi => (f poi).map (fun priority => (priority, poi)))).map (·.2)
      = l.filter (fun poi => (f poi).isSome) := by
  induction l with
  | nil => rfl
  | cons a t ih =>
    cases h : f a <;> simp [List.filterMap_cons, h, List.filter_cons, ih]

theorem findIdx?_isSome (p : α → Bool) (l : List α) :
    ∀ i, (List.findIdx? p l i).isSome = l.any p := by
  induction l with
  | nil => intro i; rfl
  | cons a t ih =>
    intro i
    rw [List.findIdx?_cons]
    cases h : p a <;> simp [h, ih]

theorem season_priority_isSome_iff (p : POI) (s : String) :
    (p.season_priority (some s)).isSome = true ↔ s ∈ p.seasons := by
  show (p.seasons.indexOf? s).isSome = true ↔ s ∈ p.seasons
  rw [List.indexOf?, findIdx?_isSome]
  simp [List.any_eq_true]

/-- C10: season filtering in `pois_for_city` only reorders (the result is a
permutation of the stored catalog entry for the city), and an unknown city
yields the empty list. -/
theorem pois_for_city_catalog_multiset (store : TravelDataStore) (city : String)
    (season : Option String) (hseason : ∀ s ∈ season, s ∈ SEASONS) :
    (∃ result, store.pois_for_city city season = .ok result ∧
      result.Perm ((store.pois_by_city.lookup (sLower city)).getD [])) ∧
    (store.pois_by_city.lookup (sLower city) = none →
      store.pois_for_city city season = .ok []) := by
  constructor
  · by_cases hc :
      (((store.pois_by_city.lookup (sLower city)).getD []).isEmpty || season.isNone) = true
    · refine ⟨(store.pois_by_city.lookup (sLower city)).getD [], ?_, List.Perm.refl _⟩
      simp only [TravelDataStore.pois_for_city]
      rw [if_pos hc]
    · obtain ⟨s, rfl⟩ : ∃ s, season = some s := by
        cases season
        · simp at hc
        · exact ⟨_, rfl⟩
      have hs : s ∈ SEASONS := hseason s rfl
      refine ⟨(insertionSort (fun a b : Nat × POI => a.1 ≤ b.1)
          (((store.pois_by_city.lookup (sLower city)).getD []).filterMap fun poi =>
            (poi.season_priority (some s)).map fun priority => (priority, poi))).map (·.2) ++
          (((store.pois_by_city.lookup (sLower city)).getD []).filter fun poi =>
            (poi.season_priority (some s)).isNone), ?_, ?_⟩
      · simp only [TravelDataStore.pois_for_city]
        rw [if_neg hc]
        rw [normalize_season_of_mem hs]
        rfl
      · have h1 := (insertionSort_perm (fun a b : Nat × POI => a.1 ≤ b.1)
          (((store.pois_by_city.lookup (sLower city)).getD []).filterMap fun poi =>
            (poi.season_priority (some s)).map fun priority => (priority, poi))).map (·.2)
        have h2 := map_snd_filterMap_priority (fun poi => poi.season_priority (some s))
          ((store.pois_by_city.lookup (sLower city)).getD [])
        have h3 : (((store.pois_by_city.lookup (sLower city)).getD []).filter fun poi =>
              (poi.season_priority (some s)).isNone)
            = ((store.pois_by_city.lookup (sLower city)).getD []).filter fun poi =>
              !(poi.season_priority (some s)).isSome := by
          refine List.filter_congr ?_
          intro x _
          cases x.season_priority (some s) <;> rfl
        refine (h1.append_right _).trans ?_
        rw [h2, h3]
        exact List.filter_append_perm _ _
  · intro hlookup
    simp [TravelDataStore.pois_for_city, hlookup]

/-- C8: with a season specified, `pois_for_city` returns the POIs listing that
season first, sorted by ascending season rank, followed by exactly the POIs
not listing it (in catalog order); a POI with an empty season list is always
among the latter, hence returned and positioned after every season match. -/
theorem pois_for_city_season_ordering (store : TravelDataStore) (city s : String)
    (hs : s ∈ SEASONS) :
    ∃ A B, store.pois_for_city city (some s) = .ok (A ++ B) ∧
      A.Perm (((store.pois_by_city.lookup (sLower city)).getD []).filter
        (fun poi => (poi.season_priority (some s)).isSome)) ∧
      (∀ poi ∈ A, s ∈ poi.seasons) ∧
      (A.map (fun poi => (poi.season_priority (some s)).getD 0)).Pairwise (· ≤ ·) ∧
      B = (((store.pois_by_city.lookup (sLower city)).getD []).filter
        (fun poi => (poi.season_priority (some s)).isNone)) ∧
      (∀ poi ∈ B, ¬ s ∈ poi.seasons) ∧
      (∀ poi ∈ (store.pois_by_city.lookup (sLower city)).getD [],
        poi.seasons = [] → poi ∈ B) := by
  set cands := (store.pois_by_city.lookup (sLower city)).getD [] with hcands
  by_cases hemp : cands.isEmpty = true
  · rw [List.isEmpty_iff] at hemp
    refine ⟨[], [], ?_, by simp [hemp], by simp, by simp, by simp [hemp], by simp,
      by simp [hemp]⟩
    simp only [TravelDataStore.pois_for_city, ← hcands, hemp]
    rfl
  · set prioritized := cands.filterMap (fun poi =>
      (poi.season_priority (some s)).map fun priority => (priority, poi)) with hprio
    set sorted := insertionSort (fun a b : Nat × POI => a.1 ≤ b.1) prioritized with hsorted
    have hmem : ∀ x ∈ sorted, x.2.season_priority (some s) = some x.1 := by
      intro x hx
      have hx' : x ∈ prioritized :=
        ((insertionSort_perm _ _).mem_iff).mp hx
      rw [hprio, List.mem_filterMap] at hx'
      obtain ⟨poi, _, hmap⟩ := hx'
      cases hpr : poi.season_priority (some s) with
      | none => rw [hpr] at hmap; simp at hmap
      | some pr =>
        rw [hpr] at hmap
        simp only [Option.map_some', Option.some.injEq] at hmap
        rw [← hmap]
        exact hpr
    refine ⟨sorted.map (·.2),
      cands.filter (fun poi => (poi.season_priority (some s)).isNone), ?_, ?_, ?_, ?_,
      rfl, ?_, ?_⟩
    · simp only [TravelDataStore.pois_for_city, ← hcands, hemp, Bool.false_or,
        Option.isNone_some, if_false, Bool.false_eq_true, normalize_season_of_mem hs,
        Except.bind]
      rfl
    · have h1 := (insertionSort_perm (fun a b : Nat × POI => a.1 ≤ b.1) prioritized).map (·.2)
      rw [hprio] at h1
      rw [map_snd_filterMap_priority (fun poi => poi.season_priority (some s)) cands] at h1
      exact h1
    · intro poi hpoi
      rw [List.mem_map] at hpoi
      obtain ⟨x, hx, rfl⟩ := hpoi
      have := hmem x hx
      rw [← season_priority_isSome_iff, this]
      rfl
    · have hsort : sorted.Pairwise (fun a b : Nat × POI => (decide (a.1 ≤ b.1)) = true) := by
        refine insertionSort_pairwise _ ?_ ?_ _
        · intro x y z hxy hyz
          simp only [decide_eq_true_iff] at *
          omega
        · intro x y
          rcases le_total x.1 y.1 with h | h
          · exact Or.inl (by simpa using h)
          · exact Or.inr (by simpa using h)
      rw [List.pairwise_map, List.pairwise_map]
      refine hsort.imp_of_mem ?_
      intro a b ha hb hle
      rw [hmem a ha, hmem b hb]
      simpa using hle
    · intro poi hpoi
      rw [List.mem_filter] at hpoi
      rw [← season_priority_isSome_iff]
      cases h : poi.season_priority (some s) with
      | none => simp
      | some pr => rw [h] at hpoi; simp at hpoi
    · intro poi hpoi hseasons
      rw [List.mem_filter]
      refine ⟨hpoi, ?_⟩
      show (poi.seasons.indexOf? s).isNone = true
      rw [hseasons]
      rfl

/-! ### Preference-weight lemmas (C6) -/

theorem lookup_of_mem_nodup {w : List (String × ℚ)} (hnd : (w.map Prod.fst).Nodup)
    {c : String} {v : ℚ} (hmem : (c, v) ∈ w) : w.lookup c = some v := by
  induction w with
  | nil => cases hmem
  | cons kv t ih =>
    rw [List.map_cons] at hnd
    have hnd' := List.nodup_cons.mp hnd
    rcases List.mem_cons.mp hmem with heq | hmem'
    · rw [← heq]
      simp [List.lookup]
    · have hne : (c == kv.1) = false := by
        rw [beq_eq_false_iff_ne]
        intro hceq
        apply hnd'.1
        rw [hceq] at hmem'
        exact List.mem_map.mpr ⟨_, hmem', rfl⟩
      obtain ⟨k, v'⟩ := kv
      rw [List.lookup_cons]
      rw [show (c == k) = false from hne]
      exact ih hnd'.2 hmem'

theorem mem_of_lookup_eq_some {w : List (String × ℚ)} {c : String} {v : ℚ}
    (h : w.lookup c = some v) : (c, v) ∈ w := by
  induction w with
  | nil => cases h
  | cons kv t ih =>
    obtain ⟨k, v'⟩ := kv
    rw [List.lookup_cons] at h
    cases hck : (c == k) with
    | true =>
      rw [hck] at h
      obtain rfl : v' = v := by simpa using h
      obtain rfl : c = k := by simpa using hck
      exact List.mem_cons_self _ _
    | false =>
      rw [hck] at h
      exact List.mem_cons_of_mem _ (ih h)

theorem weight_get_pos_iff {w : List (String × ℚ)} (hnd : (w.map Prod.fst).Nodup)
    (c : String) : 0 < weight_get w c ↔ c ∈ positive_categories w := by
  constructor
  · intro h
    cases hl : w.lookup c with
    | none =>
      rw [weight_get, hl] at h
      exact absurd h (by norm_num)
    | some v =>
      rw [weight_get, hl] at h
      simp only [Option.getD_some] at h
      have hmem := mem_of_lookup_eq_some hl
      unfold positive_categories
      rw [List.mem_map]
      exact ⟨(c, v), List.mem_filter.mpr ⟨hmem, by simpa using h⟩, rfl⟩
  · intro hc
    unfold positive_categories at hc
    rw [List.mem_map] at hc
    obtain ⟨⟨k, v⟩, hkv, heq⟩ := hc
    obtain rfl : k = c := heq
    have h1 := List.mem_filter.mp hkv
    have h2 : (0 : ℚ) < v := by simpa using h1.2
    rw [weight_get, lookup_of_mem_nodup hnd h1.1]
    simpa using h2

theorem positive_categories_eq_nil_iff (w : List (String × ℚ)) :
    positive_categories w = [] ↔ ∀ kv ∈ w, kv.2 ≤ 0 := by
  unfold positive_categories
  rw [List.map_eq_nil_iff, List.filter_eq_nil_iff]
  constructor
  · intro h kv hkv
    have := h kv hkv
    simpa [not_lt] using this
  · intro h kv hkv
    simpa [not_lt] using h kv hkv

/-- C6 (counterexample): a weight vector with a strictly negative vocabulary
entry refutes the claimed eligibility rule: `poiC6` carries a positively
weighted category and none of the zero-or-unmentioned vocabulary categories,
yet the filter rejects it. -/
theorem filter_eligibility_counterexample :
    filter_pois_by_preferences [poiC6] wC6 = .ok [] ∧
    (∃ l, poiC6.has_label l = true ∧ 0 < weight_get wC6 l) ∧
    ¬ ∃ c ∈ CATEGORIES, weight_get wC6 c = 0 ∧ poiC6.has_label c = true := by
  refine ⟨rfl, ⟨"nature", rfl, by decide⟩, by decide⟩

/-- C6 (amended): a POI passes the eligibility filter iff it carries at least
one category with strictly positive preference weight and carries none of the
vocabulary categories whose weight is non-positive (zero, negative) or
unmentioned; a weight vector with no positive entry makes the filter — and
with it `select_pois_for_day` and `has_preferred_pois` — raise an
input-validation error. -/
theorem filter_eligibility_amended (pois : List POI) (w : List (String × ℚ))
    (travel_tu : Nat) (rng : Rng) (season : Option String) :
    ((∃ kv ∈ w, 0 < kv.2) → EligibilityOk pois w) ∧
    ((∀ kv ∈ w, kv.2 ≤ 0) → EligibilityError pois w travel_tu rng season) := by
  unfold EligibilityOk EligibilityError
  constructor
  · intro hpos
    have hne : (positive_categories w).isEmpty = false := by
      obtain ⟨kv, hkv, hkv2⟩ := hpos
      have : kv.1 ∈ positive_categories w := by
        unfold positive_categories
        rw [List.mem_map]
        exact ⟨kv, List.mem_filter.mpr ⟨hkv, by simpa using hkv2⟩, rfl⟩
      cases h : positive_categories w with
      | nil => rw [h] at this; cases this
      | cons a t => rfl
    constructor
    · unfold filter_pois_by_preferences
      rw [hne]
      rfl
    · intro hnd p
      unfold eligibleB
      rw [Bool.and_eq_true, Bool.not_eq_true']
      constructor
      · rintro ⟨hA, hB⟩
        rw [List.any_eq_true] at hA
        obtain ⟨l, hl, hlab⟩ := hA
        refine ⟨⟨l, hlab, (weight_get_pos_iff hnd l).mpr hl⟩, ?_⟩
        rintro ⟨c, hc, hcw, hclab⟩
        rw [List.any_eq_false] at hB
        refine hB c ?_ hclab
        unfold zero_categories
        rw [List.mem_filter]
        refine ⟨hc, ?_⟩
        rw [Bool.not_eq_eq_eq_not, Bool.not_true, ← Bool.not_eq_true, List.elem_iff]
        intro hcpos
        exact absurd ((weight_get_pos_iff hnd c).mpr hcpos) (not_lt.mpr hcw)
      · rintro ⟨⟨l, hlab, hlw⟩, hnone⟩
        constructor
        · rw [List.any_eq_true]
          exact ⟨l, (weight_get_pos_iff hnd l).mp hlw, hlab⟩
        · rw [List.any_eq_false]
          intro c hc
          unfold zero_categories at hc
          rw [List.mem_filter] at hc
          obtain ⟨hcCat, hcnotpos⟩ := hc
          intro hclab
          refine hnone ⟨c, hcCat, ?_, hclab⟩
          rw [← not_lt]
          intro hpos'
          have := (weight_get_pos_iff hnd c).mp hpos'
          rw [Bool.not_eq_eq_eq_not, Bool.not_true, ← Bool.not_eq_true,
            List.elem_iff] at hcnotpos
          exact hcnotpos this
  · intro hz
    have hempty : (positive_categories w).isEmpty = true := by
      rw [List.isEmpty_iff, positive_categories_eq_nil_iff]
      exact hz
    have hfil : filter_pois_by_preferences pois w =
        .error "Preference weights must contain at least one positive entry." := by
      unfold filter_pois_by_preferences
      rw [hempty]
      rfl
    refine ⟨⟨_, hfil⟩,
      ⟨"Preference weights must contain at least one positive entry.", ?_⟩,
      ⟨"Preference weights must contain at least one positive entry.", ?_⟩⟩
    · unfold select_pois_for_day
      rw [hfil]
      rfl
    · unfold has_preferred_pois
      rw [hfil]
      rfl

/-- Witness for C6 (amended): both branches instantiated concretely. -/
theorem filter_eligibility_amended_witness :
    EligibilityOk [poiA] wNat ∧
    EligibilityError [poiA] [("nature", -1)] 0 rng0 none :=
  ⟨(filter_eligibility_amended [poiA] wNat 0 rng0 none).1 (by decide),
    (filter_eligibility_amended [poiA] [("nature", -1)] 0 rng0 none).2 (by decide)⟩

/-- Witness for C10 at a concrete store, city and season. -/
theorem pois_for_city_catalog_multiset_witness :
    (∃ result, storeEx.pois_for_city "Zurich" (some "summer") = .ok result ∧
      result.Perm ((storeEx.pois_by_city.lookup (sLower "Zurich")).getD [])) ∧
    (storeEx.pois_by_city.lookup (sLower "Zurich") = none →
      storeEx.pois_for_city "Zurich" (some "summer") = .ok []) :=
  pois_for_city_catalog_multiset storeEx "Zurich" (some "summer")
    (by
      intro s hs
      simp only [Option.mem_def, Option.some.injEq] at hs
      subst hs
      decide)

/-! ### Day-Selector lemmas (C1) -/

theorem are_similar_comm (a b : POI) : are_similar a b = are_similar b a := by
  simp only [are_similar]
  rw [Finset.inter_comm]
  by_cases h1 : name_tokens a.name = ∅ <;> by_cases h2 : name_tokens b.name = ∅ <;>
    simp [h1, h2]

theorem one_le_activity_time_units (p : POI) : 1 ≤ activity_time_units p := by
  simp only [activity_time_units]
  split_ifs <;> norm_num

theorem one_le_tuSum {S : List POI} (h : S ≠ []) : 1 ≤ tuSum S := by
  cases S with
  | nil => exact absurd rfl h
  | cons a t =>
    have := one_le_activity_time_units a
    simp only [tuSum, List.map_cons, List.sum_cons]
    omega

theorem mem_eligible_info {l : List POI} {i : POI × String × Nat}
    (h : i ∈ eligible_info l) :
    i.1 ∈ l ∧ primary_label i.1 = some i.2.1 ∧ i.2.2 = activity_time_units i.1 := by
  unfold eligible_info at h
  rw [List.mem_filterMap] at h
  obtain ⟨poi, hpoi, hmap⟩ := h
  cases hpl : primary_label poi with
  | none => rw [hpl] at hmap; cases hmap
  | some label =>
    rw [hpl] at hmap
    simp only [Option.map_some', Option.some.injEq] at hmap
    rw [← hmap]
    exact ⟨hpoi, hpl, rfl⟩

theorem mem_narrow_by_season {season : Option String} {raw : List (POI × String × Nat)}
    {i : POI × String × Nat} (h : i ∈ narrow_by_season season raw) : i ∈ raw := by
  simp only [narrow_by_season] at h
  split at h
  · split at h
    · exact h
    · exact List.mem_of_mem_filter h
  · exact h

@[simp] theorem infoTuSum_nil : infoTuSum [] = 0 := rfl

@[simp] theorem infoTuSum_cons (i : POI × String × Nat) (S : List (POI × String × Nat)) :
    infoTuSum (i :: S) = i.2.2 + infoTuSum S := by
  simp [infoTuSum]

@[simp] theorem infoPrefSum_nil (w : List (String × ℚ)) : infoPrefSum w [] = 0 := rfl

@[simp] theorem infoPrefSum_cons (w : List (String × ℚ)) (i : POI × String × Nat)
    (S : List (POI × String × Nat)) :
    infoPrefSum w (i :: S) = weight_get w i.2.1 + infoPrefSum w S := by
  simp [infoPrefSum]

@[simp] theorem infoSeasonSum_nil (season : Option String) : infoSeasonSum season [] = 0 := rfl

@[simp] theorem infoSeasonSum_cons (season : Option String) (i : POI × String × Nat)
    (S : List (POI × String × Nat)) :
    infoSeasonSum season (i :: S) = season_score i.1 season + infoSeasonSum season S := by
  simp [infoSeasonSum]

/-- On annotated POIs whose annotations agree with `primary_label` and
`activity_time_units`, the accumulator sums of the DFS coincide with the
subset sums used in the claim statement. -/
theorem info_sums_eq (w : List (String × ℚ)) (season : Option String)
    {SI : List (POI × String × Nat)}
    (h : ∀ i ∈ SI, primary_label i.1 = some i.2.1 ∧ i.2.2 = activity_time_units i.1) :
    infoTuSum SI = tuSum (SI.map (·.1)) ∧
    infoPrefSum w SI = prefSum w (SI.map (·.1)) ∧
    infoSeasonSum season SI = seasonSumOf season (SI.map (·.1)) := by
  induction SI with
  | nil => exact ⟨rfl, rfl, rfl⟩
  | cons i t ih =>
    obtain ⟨h1, h2⟩ := h i (List.mem_cons_self _ _)
    obtain ⟨e1, e2, e3⟩ := ih (fun j hj => h j (List.mem_cons_of_mem _ hj))
    refine ⟨?_, ?_, ?_⟩
    · calc infoTuSum (i :: t) = activity_time_units i.1 + tuSum (t.map (·.1)) := by
            rw [infoTuSum_cons, h2, e1]
        _ = tuSum ((i :: t).map (·.1)) := by simp [tuSum]
    · calc infoPrefSum w (i :: t) = weight_get w i.2.1 + prefSum w (t.map (·.1)) := by
            rw [infoPrefSum_cons, e2]
        _ = prefSum w ((i :: t).map (·.1)) := by simp [prefSum, h1]
    · calc infoSeasonSum season (i :: t)
          = season_score i.1 season + seasonSumOf season (t.map (·.1)) := by
            rw [infoSeasonSum_cons, e3]
        _ = seasonSumOf season ((i :: t).map (·.1)) := by simp [seasonSumOf]

theorem okWith_append (chosen : List POI) (p x : POI) :
    okWith (chosen ++ [p]) x = (okWith chosen x || are_similar x p) := by
  simp [okWith, List.any_append]

/-- Soundness of the DFS: every emitted combo is the accumulator extended by a
non-empty feasible pairwise-dissimilar sub-selection of the remaining infos. -/
theorem dfs_sound (w : List (String × ℚ)) (season : Option String)
    (travel_tu remaining_tu : Nat) :
    ∀ (infos : List (POI × String × Nat)) (chosen : List POI) (used_tu : Nat)
      (pref_sum season_sum : ℚ) (c : Combo),
      c ∈ dfs w season travel_tu remaining_tu infos chosen used_tu pref_sum season_sum →
      used_tu ≤ remaining_tu →
      ∃ SI : List (POI × String × Nat), SI.Sublist infos ∧ SI ≠ [] ∧
        c.pois = chosen ++ SI.map (·.1) ∧
        c.total = travel_tu + (used_tu + infoTuSum SI) ∧
        c.pref_sum = pref_sum + infoPrefSum w SI ∧
        c.season_sum = season_sum + infoSeasonSum season SI ∧
        used_tu + infoTuSum SI ≤ remaining_tu ∧
        (∀ i ∈ SI, okWith chosen i.1 = false) ∧
        (SI.map (·.1)).Pairwise (fun a b => are_similar b a = false) := by
  intro infos
  induction infos with
  | nil =>
    intro chosen used pref ss c hc _
    cases hc
  | cons info rest ih =>
    obtain ⟨poi, label, tu⟩ := info
    intro chosen used pref ss c hc hle
    rw [dfs] at hc
    by_cases hover : remaining_tu - used < tu
    · rw [if_pos hover] at hc
      obtain ⟨SI, h1, h2, h3, h4, h5, h6, h7, h8, h9⟩ := ih chosen used pref ss c hc hle
      exact ⟨SI, h1.cons _, h2, h3, h4, h5, h6, h7, h8, h9⟩
    · rw [if_neg hover] at hc
      by_cases hsim : (chosen.any fun existing => are_similar poi existing) = true
      · rw [if_pos hsim] at hc
        obtain ⟨SI, h1, h2, h3, h4, h5, h6, h7, h8, h9⟩ := ih chosen used pref ss c hc hle
        exact ⟨SI, h1.cons _, h2, h3, h4, h5, h6, h7, h8, h9⟩
      · rw [if_neg hsim] at hc
        have hokp : okWith chosen poi = false := Bool.eq_false_iff.mpr hsim
        rcases List.mem_cons.mp hc with rfl | hc'
        · refine ⟨[(poi, label, tu)], List.Sublist.cons₂ _ (List.nil_sublist rest),
            by simp, ?_, ?_, ?_, ?_, ?_, ?_, ?_⟩
          · simp
          · simp
          · simp
          · simp
          · simp only [infoTuSum_cons, infoTuSum_nil]
            omega
          · intro i hi
            rcases List.mem_cons.mp hi with rfl | hi'
            · exact hokp
            · cases hi'
          · simp
        · rcases List.mem_append.mp hc' with hc1 | hc2
          · obtain ⟨SI', h1, h2, h3, h4, h5, h6, h7, h8, h9⟩ :=
              ih (chosen ++ [poi]) (used + tu) (pref + weight_get w label)
                (ss + season_score poi season) c hc1 (by omega)
            refine ⟨(poi, label, tu) :: SI', h1.cons₂ _, by simp, ?_, ?_, ?_, ?_, ?_, ?_, ?_⟩
            · rw [h3, List.append_assoc]
              rfl
            · rw [h4]
              simp only [infoTuSum_cons]
              omega
            · rw [h5]
              simp only [infoPrefSum_cons]
              ring
            · rw [h6]
              simp only [infoSeasonSum_cons]
              ring
            · simp only [infoTuSum_cons]
              omega
            · intro i hi
              rcases List.mem_cons.mp hi with rfl | hi'
              · exact hokp
              · have := h8 i hi'
                rw [okWith_append] at this
                exact (Bool.or_eq_false_iff.mp this).1
            · rw [List.map_cons]
              refine List.Pairwise.cons ?_ h9
              intro b hb
              rw [List.mem_map] at hb
              obtain ⟨i, hi, rfl⟩ := hb
              have := h8 i hi
              rw [okWith_append] at this
              exact (Bool.or_eq_false_iff.mp this).2
          · obtain ⟨SI, h1, h2, h3, h4, h5, h6, h7, h8, h9⟩ := ih chosen used pref ss c hc2 hle
            exact ⟨SI, h1.cons _, h2, h3, h4, h5, h6, h7, h8, h9⟩

theorem key_le_of_lt {a b : Key} (h : key_lt a b) : key_le a b := by
  intro hba
  exact key_lt_irrefl a (key_lt_trans h hba)

/-- Completeness of the DFS: every non-empty feasible pairwise-dissimilar
sub-selection of the remaining infos produces its combo in the output. -/
theorem dfs_complete (w : List (String × ℚ)) (season : Option String)
    (travel_tu remaining_tu : Nat) :
    ∀ (infos : List (POI × String × Nat)) (chosen : List POI) (used_tu : Nat)
      (pref_sum season_sum : ℚ) (SI : List (POI × String × Nat)),
      used_tu ≤ remaining_tu →
      SI.Sublist infos → SI ≠ [] →
      used_tu + infoTuSum SI ≤ remaining_tu →
      (∀ i ∈ SI, okWith chosen i.1 = false) →
      (SI.map (·.1)).Pairwise (fun a b => are_similar b a = false) →
      ({ pois := chosen ++ SI.map (·.1), total := travel_tu + (used_tu + infoTuSum SI),
         pref_sum := pref_sum + infoPrefSum w SI,
         season_sum := season_sum + infoSeasonSum season SI } : Combo)
        ∈ dfs w season travel_tu remaining_tu infos chosen used_tu pref_sum season_sum := by
  intro infos
  induction infos with
  | nil =>
    intro chosen used pref ss SI _ hsub hne _ _ _
    exact absurd (List.sublist_nil.mp hsub) hne
  | cons info rest ih =>
    obtain ⟨poi, label, tu⟩ := info
    intro chosen used pref ss SI hle hsub hne hfeas hok hpw
    rcases List.sublist_cons_iff.mp hsub with hsub' | ⟨SI', rfl, hsub'⟩
    · rw [dfs]
      by_cases hover : remaining_tu - used < tu
      · rw [if_pos hover]
        exact ih chosen used pref ss SI hle hsub' hne hfeas hok hpw
      · rw [if_neg hover]
        by_cases hsim : (chosen.any fun existing => are_similar poi existing) = true
        · rw [if_pos hsim]
          exact ih chosen used pref ss SI hle hsub' hne hfeas hok hpw
        · rw [if_neg hsim]
          exact List.mem_cons_of_mem _ (List.mem_append_right _
            (ih chosen used pref ss SI hle hsub' hne hfeas hok hpw))
    · have hfeas' : used + (tu + infoTuSum SI') ≤ remaining_tu := by
        have := hfeas
        simp only [infoTuSum_cons] at this
        omega
      have hguard : ¬ (remaining_tu - used < tu) := by omega
      have hsim : (chosen.any fun existing => are_similar poi existing) = false :=
        hok (poi, label, tu) (List.mem_cons_self _ _)
      rw [dfs, if_neg hguard, if_neg (by rw [hsim]; exact Bool.false_ne_true)]
      rcases eq_or_ne SI' [] with rfl | hne'
      · exact List.mem_cons.mpr (Or.inl (by simp))
      · refine List.mem_cons_of_mem _ (List.mem_append_left _ ?_)
        rw [List.map_cons] at hpw
        have hok' : ∀ i ∈ SI', okWith (chosen ++ [poi]) i.1 = false := by
          intro i hi
          rw [okWith_append, Bool.or_eq_false_iff]
          refine ⟨hok i (List.mem_cons_of_mem _ hi), ?_⟩
          exact List.rel_of_pairwise_cons hpw (List.mem_map_of_mem _ hi)
        have hmem := ih (chosen ++ [poi]) (used + tu) (pref + weight_get w label)
          (ss + season_score poi season) SI' (by omega) hsub' hne'
          (by omega) hok' (List.Pairwise.of_cons hpw)
        have heq :
            Combo.mk (chosen ++ ((poi, label, tu) :: SI').map (·.1))
              (travel_tu + (used + infoTuSum ((poi, label, tu) :: SI')))
              (pref + infoPrefSum w ((poi, label, tu) :: SI'))
              (ss + infoSeasonSum season ((poi, label, tu) :: SI'))
            = Combo.mk ((chosen ++ [poi]) ++ SI'.map (·.1))
              (travel_tu + ((used + tu) + infoTuSum SI'))
              ((pref + weight_get w label) + infoPrefSum w SI')
              ((ss + season_score poi season) + infoSeasonSum season SI') := by
          simp only [List.map_cons, infoTuSum_cons, infoPrefSum_cons, infoSeasonSum_cons,
            Combo.mk.injEq]
          refine ⟨?_, by omega, by ring, by ring⟩
          rw [List.append_assoc]
          rfl
        rw [heq]
        exact hmem

/-- Invariant of the best-key scan: starting from a non-empty tied set with
key `bk`, the scan returns a non-empty set of combos sharing some key `bk'`
that dominates `bk` and every scanned combo, all drawn from the accumulator
or the scanned list. -/
theorem best_combos_spec :
    ∀ (combos : List Combo) (bk : Key) (items : List Combo),
      items ≠ [] → (∀ e ∈ items, combo_key e = bk) →
      ∃ bk', best_combos combos (some (bk, items)) ≠ [] ∧
        (∀ e ∈ best_combos combos (some (bk, items)),
          combo_key e = bk' ∧ (e ∈ items ∨ e ∈ combos)) ∧
        key_le bk bk' ∧
        (∀ c ∈ combos, key_le (combo_key c) bk') := by
  intro combos
  induction combos with
  | nil =>
    intro bk items hne hkeys
    refine ⟨bk, ?_, ?_, key_le_refl bk, by simp⟩
    · simpa [best_combos] using hne
    · intro e he
      rw [show best_combos [] (some (bk, items)) = items from rfl] at he
      exact ⟨hkeys e he, Or.inl he⟩
  | cons c rest ih =>
    intro bk items hne hkeys
    rw [best_combos]
    by_cases hgt : key_gt (combo_key c) bk = true
    · rw [if_pos hgt]
      obtain ⟨bk', hne', hmem, hasc, hdom⟩ := ih (combo_key c) [c] (by simp) (by simp)
      refine ⟨bk', hne', ?_, ?_, ?_⟩
      · intro e he
        obtain ⟨h1, h2⟩ := hmem e he
        refine ⟨h1, Or.inr ?_⟩
        rcases h2 with h | h
        · simp only [List.mem_singleton] at h
          exact h ▸ List.mem_cons_self _ _
        · exact List.mem_cons_of_mem _ h
      · exact key_le_trans (key_le_of_lt (key_gt_iff.mp hgt)) hasc
      · intro d hd
        rcases List.mem_cons.mp hd with rfl | hd'
        · exact hasc
        · exact hdom d hd'
    · rw [if_neg hgt]
      have hle := key_gt_eq_false_iff.mp (Bool.eq_false_iff.mpr hgt)
      by_cases heq : combo_key c = bk
      · rw [if_pos heq]
        obtain ⟨bk', hne', hmem, hasc, hdom⟩ := ih bk (items ++ [c]) (by simp)
          (by
            intro e he
            rcases List.mem_append.mp he with h | h
            · exact hkeys e h
            · simp only [List.mem_singleton] at h
              exact h ▸ heq)
        refine ⟨bk', hne', ?_, hasc, ?_⟩
        · intro e he
          obtain ⟨h1, h2⟩ := hmem e he
          refine ⟨h1, ?_⟩
          rcases h2 with h | h
          · rcases List.mem_append.mp h with h' | h'
            · exact Or.inl h'
            · simp only [List.mem_singleton] at h'
              exact Or.inr (h' ▸ List.mem_cons_self _ _)
          · exact Or.inr (List.mem_cons_of_mem _ h)
        · intro d hd
          rcases List.mem_cons.mp hd with rfl | hd'
          · rw [heq]
            exact hasc
          · exact hdom d hd'
      · rw [if_neg heq]
        obtain ⟨bk', hne', hmem, hasc, hdom⟩ := ih bk items hne hkeys
        refine ⟨bk', hne', ?_, hasc, ?_⟩
        · intro e he
          obtain ⟨h1, h2⟩ := hmem e he
          exact ⟨h1, h2.imp id (List.mem_cons_of_mem _)⟩
        · intro d hd
          rcases List.mem_cons.mp hd with rfl | hd'
          · exact key_le_trans hle hasc
          · exact hdom d hd'

theorem Rng.choice_mem {α : Type} {xs : List α} (hne : xs ≠ []) (rng : Rng) (d : α) :
    (rng.choice xs d).1 ∈ xs := by
  have hlen : 0 < xs.length := List.length_pos.mpr hne
  have hlt : rng.stream rng.pos % xs.length < xs.length := Nat.mod_lt _ hlen
  simp only [Rng.choice]
  rw [List.getD_eq_getElem xs d hlt]
  exact xs.getElem_mem hlt

theorem narrow_by_season_nil (season : Option String) :
    narrow_by_season season [] = [] := by
  simp [narrow_by_season]

theorem positive_isEmpty_false_of_exists {w : List (String × ℚ)}
    (hpos : ∃ kv ∈ w, 0 < kv.2) : (positive_categories w).isEmpty = false := by
  obtain ⟨kv, hkv, hkv2⟩ := hpos
  have hmem : kv.1 ∈ positive_categories w := by
    unfold positive_categories
    rw [List.mem_map]
    exact ⟨kv, List.mem_filter.mpr ⟨hkv, by simpa using hkv2⟩, rfl⟩
  cases h : positive_categories w with
  | nil => rw [h] at hmem; cases hmem
  | cons a t => rfl

theorem filter_ok_of_exists_pos {pois : List POI} {w : List (String × ℚ)}
    (hpos : ∃ kv ∈ w, 0 < kv.2) :
    filter_pois_by_preferences pois w = .ok (pois.filter (eligibleB w)) := by
  unfold filter_pois_by_preferences
  rw [positive_isEmpty_false_of_exists hpos]
  rfl

/-- C1: with a valid preference vector, the Day Selector succeeds and returns
a feasible, pairwise-dissimilar, key-maximal subset of the season-narrowed
annotated pool (`SelectSpec`); under the spec's data model, where every POI
label is drawn from the fixed vocabulary, that pool is exactly the
season-narrowed eligible pool. -/
theorem select_pois_for_day_optimal (pois : List POI) (w : List (String × ℚ))
    (travel_tu : Nat) (rng : Rng) (season : Option String)
    (hpos : ∃ kv ∈ w, 0 < kv.2) :
    SelectSpec pois w travel_tu rng season := by
  have hfil : filter_pois_by_preferences pois w = .ok (pois.filter (eligibleB w)) :=
    filter_ok_of_exists_pos hpos
  have hsel : select_pois_for_day pois w travel_tu rng season
      = .ok (select_core (pois.filter (eligibleB w)) w travel_tu rng season) := by
    unfold select_pois_for_day
    rw [hfil]
    rfl
  set elig := pois.filter (eligibleB w) with helig
  set act := narrow_by_season season (eligible_info elig) with hact
  have hact_facts : ∀ i ∈ act, primary_label i.1 = some i.2.1 ∧
      i.2.2 = activity_time_units i.1 := by
    intro i hi
    have := mem_eligible_info (mem_narrow_by_season (hact ▸ hi))
    exact ⟨this.2.1, this.2.2⟩
  refine ⟨(select_core elig w travel_tu rng season).1,
    (select_core elig w travel_tu rng season).2, by rw [hsel], ?_, ?_⟩
  · -- travel above the ceiling gives the empty selection
    intro hgt
    by_cases h1 : elig.isEmpty = true
    · simp only [select_core, if_pos h1]
    · simp only [select_core, if_neg h1]
      by_cases h2 : act.isEmpty = true
      · rw [← hact, if_pos h2]
      · rw [← hact, if_neg h2, if_pos hgt]
  · intro htle
    by_cases h1 : elig.isEmpty = true
    · have hcore : select_core elig w travel_tu rng season = ([], rng) := by
        simp only [select_core, if_pos h1]
      rw [hcore]
      have hactnil : act = [] := by
        rw [hact, List.isEmpty_iff.mp h1]
        show narrow_by_season season (eligible_info []) = []
        rw [show eligible_info [] = [] from rfl, narrow_by_season_nil]
      refine ⟨by simp, by simpa [tuSum] using htle, List.Pairwise.nil, ?_⟩
      intro S hS _ _
      rw [← helig, ← hact, hactnil] at hS
      simp only [List.map_nil, List.sublist_nil] at hS
      rw [hS]
      exact key_le_refl _
    · by_cases h2 : act.isEmpty = true
      · have hcore : select_core elig w travel_tu rng season = ([], rng) := by
          simp only [select_core, if_neg h1]
          rw [← hact, if_pos h2]
        rw [hcore]
        have hactnil : act = [] := List.isEmpty_iff.mp h2
        refine ⟨by simp, by simpa [tuSum] using htle, List.Pairwise.nil, ?_⟩
        intro S hS _ _
        rw [← helig, ← hact, hactnil] at hS
        simp only [List.map_nil, List.sublist_nil] at hS
        rw [hS]
        exact key_le_refl _
      · have h3 : ¬ (8 < travel_tu) := by omega
        set remaining := 8 - travel_tu with hrem
        set tail : List Combo :=
          (if 0 < remaining then dfs w season travel_tu remaining act [] 0 0 0 else [])
          with htail
        set base : Combo := { pois := [], total := travel_tu, pref_sum := 0, season_sum := 0 }
          with hbase
        have hcore : select_core elig w travel_tu rng season
            = ((rng.choice (best_combos tail (some (combo_key base, [base]))) default).1.pois,
               (rng.choice (best_combos tail (some (combo_key base, [base]))) default).2) := by
          simp only [select_core, if_neg h1]
          rw [← hact, if_neg h2, if_neg h3]
          rfl
        obtain ⟨bk', hbne, hbmem, hasc, hdom⟩ :=
          best_combos_spec tail (combo_key base) [base] (by simp) (by simp)
        set best := best_combos tail (some (combo_key base, [base])) with hbest
        set cc := (rng.choice best default).1 with hcc
        obtain ⟨hkey, horigin⟩ := hbmem cc (Rng.choice_mem hbne rng default)
        -- the chosen combo's key equals the key of its own subset combo
        have hpick : ∀ c ∈ tail, ∃ SI : List (POI × String × Nat),
            SI.Sublist act ∧ c.pois = SI.map (·.1) ∧
            travel_tu + tuSum c.pois ≤ 8 ∧
            c.pois.Pairwise (fun a b => are_similar a b = false) ∧
            combo_key (subset_combo w season travel_tu c.pois) = combo_key c := by
          intro c hc
          rw [htail] at hc
          by_cases hr : 0 < remaining
          · rw [if_pos hr] at hc
            obtain ⟨SI, s1, s2, s3, s4, s5, s6, s7, s8, s9⟩ :=
              dfs_sound w season travel_tu remaining act [] 0 0 0 c hc (by omega)
            obtain ⟨e1, e2, e3⟩ := info_sums_eq w season
              (fun i hi => hact_facts i (s1.subset hi))
            have hpois : c.pois = SI.map (·.1) := by rw [s3]; rfl
            refine ⟨SI, s1, hpois, ?_, ?_, ?_⟩
            · rw [hpois, ← e1]
              omega
            · rw [hpois]
              exact s9.imp (fun {a b} h => by rw [are_similar_comm]; exact h)
            · unfold subset_combo combo_key
              rw [hpois, ← e1, ← e2, ← e3, s4, s5, s6]
              simp
          · rw [if_neg hr] at hc
            cases hc
        have hccfacts : travel_tu + tuSum cc.pois ≤ 8 ∧
            cc.pois.Sublist (act.map (·.1)) ∧
            cc.pois.Pairwise (fun a b => are_similar a b = false) ∧
            combo_key (subset_combo w season travel_tu cc.pois) = bk' := by
          rcases horigin with hb | ht
          · simp only [List.mem_singleton] at hb
            rw [hb] at hkey ⊢
            refine ⟨?_, ?_, ?_, ?_⟩
            · simp only [hbase]
              simpa [tuSum] using htle
            · simp [hbase]
            · simp [hbase]
            · have hsb : subset_combo w season travel_tu base.pois = base := by
                simp [subset_combo, hbase, tuSum, prefSum, seasonSumOf]
              rw [hsb]
              exact hkey
          · obtain ⟨SI, p1, p2, p3, p4, p5⟩ := hpick cc ht
            exact ⟨p3, by rw [p2]; exact p1.map _, p4, by rw [p5, hkey]⟩
        obtain ⟨hfeas, hsub, hpw, hckey⟩ := hccfacts
        rw [hcore]
        refine ⟨hsub, hfeas, hpw, ?_⟩
        intro S hS hSfeas hSpw
        rw [hckey]
        rcases eq_or_ne S [] with rfl | hSne
        · have : subset_combo w season travel_tu [] = base := by
            simp [subset_combo, hbase, tuSum, prefSum, seasonSumOf]
          rw [this]
          exact hasc
        · -- non-empty subsets appear in the DFS output
          have hr : 0 < remaining := by
            have := one_le_tuSum hSne
            omega
          obtain ⟨SI, hSIsub, rfl⟩ := List.sublist_map_iff.mp hS
          have hSIfacts := fun i hi => hact_facts i (hSIsub.subset hi)
          obtain ⟨e1, e2, e3⟩ := info_sums_eq w season hSIfacts
          have hSIne : SI ≠ [] := by
            rintro rfl
            exact hSne rfl
          have hmem := dfs_complete w season travel_tu remaining act [] 0 0 0 SI
            (by omega) hSIsub hSIne (by rw [e1]; omega)
            (by intro i _; rfl)
            (hSpw.imp (fun {a b} h => by rw [are_similar_comm]; exact h))
          have hintail : Combo.mk ([] ++ SI.map (·.1)) (travel_tu + (0 + infoTuSum SI))
              (0 + infoPrefSum w SI) (0 + infoSeasonSum season SI) ∈ tail := by
            rw [htail, if_pos hr]
            exact hmem
          have hkeyeq : combo_key (subset_combo w season travel_tu (SI.map (·.1)))
              = combo_key (Combo.mk ([] ++ SI.map (·.1)) (travel_tu + (0 + infoTuSum SI))
                  (0 + infoPrefSum w SI) (0 + infoSeasonSum season SI)) := by
            unfold subset_combo combo_key
            rw [← e1, ← e2, ← e3]
            simp
          rw [hkeyeq]
          exact hdom _ hintail

/-- Witness for C1 at a concrete pool, weight vector and travel budget. -/
theorem select_pois_for_day_optimal_witness :
    SelectSpec [poiA, poiB] wNat 0 rng0 none :=
  select_pois_for_day_optimal [poiA, poiB] wNat 0 rng0 none (by decide)

/-- Witness for C8 at a concrete store, city and season. -/
theorem pois_for_city_season_ordering_witness :
    ∃ A B, storeEx.pois_for_city "Zurich" (some "winter") = .ok (A ++ B) ∧
      A.Perm (((storeEx.pois_by_city.lookup (sLower "Zurich")).getD []).filter
        (fun poi => (poi.season_priority (some "winter")).isSome)) ∧
      (∀ poi ∈ A, "winter" ∈ poi.seasons) ∧
      (A.map (fun poi => (poi.season_priority (some "winter")).getD 0)).Pairwise (· ≤ ·) ∧
      B = (((storeEx.pois_by_city.lookup (sLower "Zurich")).getD []).filter
        (fun poi => (poi.season_priority (some "winter")).isNone)) ∧
      (∀ poi ∈ B, ¬ "winter" ∈ poi.seasons) ∧
      (∀ poi ∈ (storeEx.pois_by_city.lookup (sLower "Zurich")).getD [],
        poi.seasons = [] → poi ∈ B) :=
  pois_for_city_season_ordering storeEx "Zurich" "winter" (by decide)

/-! ### C9: determinism of plan_route under a fixed random source -/

/-- C9: `plan_route` is deterministic given a fixed random source seed: every
source of randomness in the planner (tie-breaking in the Day Selector and in
next-city choice) draws from the injected source, so two runs with identical
start city, end city, day count, preference weights, season and identically
seeded random sources return identical day-plan sequences. -/
theorem plan_route_deterministic (rp : RoutePlanner) (start_city end_city : String)
    (num_days : Int) (preference_weights : List (String × ℚ)) (season : Option String)
    (rng₁ rng₂ : Rng) (hstream : rng₁.stream = rng₂.stream) (hpos : rng₁.pos = rng₂.pos) :
    rp.plan_route start_city end_city num_days preference_weights season rng₁ =
      rp.plan_route start_city end_city num_days preference_weights season rng₂ := by
  have : rng₁ = rng₂ := by
    cases rng₁; cases rng₂
    simp only [Rng.mk.injEq]
    exact ⟨hstream, hpos⟩
  rw [this]

/-- Witness: the determinism theorem applied to a concrete planner and two
separately constructed but identically seeded sources. -/
theorem plan_route_deterministic_witness :
    rpEx.plan_route "zurich" "bern" 3 wNat none ⟨fun _ => 0, 0⟩ =
      rpEx.plan_route "zurich" "bern" 3 wNat none rng0 :=
  plan_route_deterministic rpEx "zurich" "bern" 3 wNat none
    ⟨fun _ => 0, 0⟩ rng0 rfl rfl

/-! ### C4: upfront feasibility failures of plan_route -/

theorem except_bind_ok {α β : Type} (v : α) (k : α → Except String β) :
    (Except.ok v >>= k) = k v := rfl

theorem except_bind_err {α β : Type} (m : String) (k : α → Except String β) :
    ((Except.error m : Except String α) >>= k) = Except.error m := rfl

/-- C4: `plan_route` raises an itinerary-construction failure, emitting no
day, whenever (1) the requested day count is non-positive, (2) the start city
cannot be resolved, (3) the end city cannot be resolved, (4) no finite
distance-channel path joins the resolved start and end, (5) start and end
differ while fewer than two days are requested, or (6) the minimum number of
240-minute-capped single-day hops from start to end exceeds the day count
minus the required end-city dwell (1 day for loop trips, 3 for trips of 15+
days, 2 for 7-14 days, 1 otherwise — `required_end_stay_days_of`). -/
theorem plan_route_error_conditions (rp : RoutePlanner) (s e : String) (n : Int)
    (w : List (String × ℚ)) (season : Option String) (rng : Rng) :
    (n ≤ 0 → PlanRouteFails rp s e n w season rng) ∧
    ((∃ m, rp.resolve_city s = Except.error m) → PlanRouteFails rp s e n w season rng) ∧
    ((∃ m, rp.resolve_city e = Except.error m) → PlanRouteFails rp s e n w season rng) ∧
    (∀ sd sp sdisp ed ep edisp,
      rp.resolve_city s = Except.ok (sd, sp, sdisp) →
      rp.resolve_city e = Except.ok (ed, ep, edisp) →
      rp.shortest_paths .km sd ed = ⊤ →
      PlanRouteFails rp s e n w season rng) ∧
    (∀ sd sp sdisp ed ep edisp,
      rp.resolve_city s = Except.ok (sd, sp, sdisp) →
      rp.resolve_city e = Except.ok (ed, ep, edisp) →
      sd ≠ ed → n < 2 →
      PlanRouteFails rp s e n w season rng) ∧
    (∀ sd sp sdisp ed ep edisp,
      rp.resolve_city s = Except.ok (sd, sp, sdisp) →
      rp.resolve_city e = Except.ok (ed, ep, edisp) →
      intLtTopNat (max 0 (n - (required_end_stay_days_of (decide (sd = ed)) n : Int)))
        (if rp.distance_cities.contains sd then min_days_to_end_of rp ed sd else ⊤) =
        true →
      PlanRouteFails rp s e n w season rng) := by
  constructor
  · intro h
    refine ⟨"Number of travel days must be positive.", ?_⟩
    simp only [RoutePlanner.plan_route, if_pos h]
    rfl
  by_cases hn : n ≤ 0
  · have herr : PlanRouteFails rp s e n w season rng := by
      refine ⟨"Number of travel days must be positive.", ?_⟩
      simp only [RoutePlanner.plan_route, if_pos hn]
      rfl
    exact ⟨fun _ => herr, fun _ => herr, fun _ _ _ _ _ _ _ _ _ => herr,
      fun _ _ _ _ _ _ _ _ _ _ => herr, fun _ _ _ _ _ _ _ _ _ => herr⟩
  constructor
  · rintro ⟨m, hm⟩
    refine ⟨m, ?_⟩
    simp only [RoutePlanner.plan_route, if_neg hn, pure_bind, hm]
    rfl
  constructor
  · rintro ⟨m, hm⟩
    rcases hres : rp.resolve_city s with m' | v
    · refine ⟨m', ?_⟩
      simp only [RoutePlanner.plan_route, if_neg hn, pure_bind, hres]
      rfl
    · obtain ⟨sd, sp, sdisp⟩ := v
      refine ⟨m, ?_⟩
      simp only [RoutePlanner.plan_route, if_neg hn, pure_bind, hres, except_bind_ok, hm]
      rfl
  constructor
  · intro sd sp sdisp ed ep edisp hs he hinf
    refine ⟨"No travel path between " ++ sdisp ++ " and " ++ edisp ++ ".", ?_⟩
    simp only [RoutePlanner.plan_route, if_neg hn, pure_bind, hs, he, except_bind_ok,
      if_pos hinf]
    rfl
  constructor
  · intro sd sp sdisp ed ep edisp hs he hne hlt
    by_cases hinf : rp.shortest_paths .km sd ed = ⊤
    · refine ⟨"No travel path between " ++ sdisp ++ " and " ++ edisp ++ ".", ?_⟩
      simp only [RoutePlanner.plan_route, if_neg hn, pure_bind, hs, he, except_bind_ok,
        if_pos hinf]
      rfl
    · refine ⟨"At least two days are required to travel between different cities.", ?_⟩
      simp only [RoutePlanner.plan_route, if_neg hn, pure_bind, hs, he, except_bind_ok,
        if_neg hinf, if_pos (And.intro hne hlt)]
      rfl
  · intro sd sp sdisp ed ep edisp hs he hmd
    by_cases hinf : rp.shortest_paths .km sd ed = ⊤
    · refine ⟨"No travel path between " ++ sdisp ++ " and " ++ edisp ++ ".", ?_⟩
      simp only [RoutePlanner.plan_route, if_neg hn, pure_bind, hs, he, except_bind_ok,
        if_pos hinf]
      rfl
    by_cases hlt : sd ≠ ed ∧ n < 2
    · refine ⟨"At least two days are required to travel between different cities.", ?_⟩
      simp only [RoutePlanner.plan_route, if_neg hn, pure_bind, hs, he, except_bind_ok,
        if_neg hinf, if_pos hlt]
      rfl
    · refine ⟨"Not enough days to reach the destination under the travel limit.", ?_⟩
      simp only [RoutePlanner.plan_route, if_neg hn, pure_bind, hs, he, except_bind_ok,
        if_neg hinf, if_neg hlt]
      simp only [if_pos hmd]
      rfl

/-! ### C7: the stay decision on non-final, non-end-city days -/

theorem decide_stay_fst (env : PlanEnv) (current : String)
    (visit_counts : List (String × Nat)) (remaining_days : Nat)
    (extra_stay_used : List String) (contains_sport : Bool)
    (travel_from_distance : Option String) (travel_minutes_prev : ℚ)
    (carried : List String) :
    (decide_stay env current visit_counts remaining_days extra_stay_used contains_sport
        travel_from_distance travel_minutes_prev carried).1 =
      (decide_stay_core env current visit_counts remaining_days extra_stay_used
        contains_sport travel_from_distance travel_minutes_prev carried).1 := by
  simp only [decide_stay]
  split <;> rfl

theorem decide_stay_core_spec (env : PlanEnv) (current : String)
    (visit_counts : List (String × Nat)) (remaining_days : Nat)
    (extra_stay_used : List String) (contains_sport : Bool)
    (travel_from_distance : Option String) (travel_minutes_prev : ℚ)
    (carried : List String)
    (hne : current ≠ env.end_distance) (hrem : 1 < remaining_days) :
    ((decide_stay_core env current visit_counts remaining_days extra_stay_used
        contains_sport travel_from_distance travel_minutes_prev carried).1 = true ↔
      StayTriggerGe env current visit_counts extra_stay_used contains_sport
        travel_from_distance travel_minutes_prev ∧
      StayFeasible env current remaining_days) := by
  simp only [decide_stay_core, if_neg hne, if_neg (by omega : ¬ remaining_days ≤ 1),
    StayTriggerGe, StayFeasible, LONG_TRAVEL_THRESHOLD_MINUTES]
  split_ifs <;> simp_all <;> tauto

/-- C7 (amended): on a non-final day at a city other than the end city with
more than one day remaining, and with the preference filter succeeding on the
city's remaining pool, the planner decides to stay exactly when a stay-trigger
fires — a sport-category POI in the day's selection, or an incoming travel leg
of **at least** 180 minutes (both barred once the city's one-off extra-stay
flag is used), or an unmet multi-day-stay quota on long trips — and staying
still leaves enough remaining days to reach the end city under its dwell
requirement, and the city's pool still has eligible candidates, and the day's
total TU is not under 6. -/
theorem stay_decision_characterization (env : PlanEnv) (current : String)
    (visit_counts : List (String × Nat)) (remaining_days : Nat)
    (extra_stay_used : List String) (contains_sport : Bool)
    (travel_from_distance : Option String) (travel_minutes_prev : ℚ)
    (carried : List String) (pool : List POI) (total_daily_tu : Nat) (hp : Bool)
    (hne : current ≠ env.end_distance) (hrem : 1 < remaining_days)
    (hhp : has_preferred_pois pool env.preference_weights env.season = Except.ok hp) :
    ∃ r, stay_decision env current visit_counts remaining_days extra_stay_used
        contains_sport travel_from_distance travel_minutes_prev carried pool
        total_daily_tu = Except.ok r ∧
      (r.1 = true ↔
        StayTriggerGe env current visit_counts extra_stay_used contains_sport
          travel_from_distance travel_minutes_prev ∧
        StayFeasible env current remaining_days ∧
        hp = true ∧ ¬ total_daily_tu < 6) := by
  have hfst := decide_stay_fst env current visit_counts remaining_days extra_stay_used
    contains_sport travel_from_distance travel_minutes_prev carried
  have hcore := decide_stay_core_spec env current visit_counts remaining_days
    extra_stay_used contains_sport travel_from_distance travel_minutes_prev carried
    hne hrem
  simp only [stay_decision]
  cases hd : (decide_stay env current visit_counts remaining_days extra_stay_used
      contains_sport travel_from_distance travel_minutes_prev carried) with
  | mk ds rest =>
    rw [hd] at hfst
    cases ds
    · refine ⟨_, rfl, ?_⟩
      simp only [Bool.false_and, Bool.false_eq_true, false_iff]
      intro ⟨h1, h2, _, _⟩
      exact absurd (hfst.trans (hcore.mpr ⟨h1, h2⟩)) (by simp)
    · simp only [hhp, except_bind_ok]
      rw [← hfst] at hcore
      rcases hcore' : hp with _ | _
      · refine ⟨_, rfl, ?_⟩
        simp only [Bool.false_and, Bool.false_eq_true, false_iff]
        intro ⟨_, _, h3, _⟩
        simp at h3
      · refine ⟨_, rfl, ?_⟩
        constructor
        · intro h
          simp only [Bool.and_eq_true, Bool.not_eq_eq_eq_not, Bool.not_true,
            decide_eq_false_iff_not] at h
          have := hcore.mp rfl
          refine ⟨this.1, this.2, rfl, ?_⟩
          rcases h.2 with h2
          by_cases h6 : total_daily_tu < 6
          · exfalso
            have : (decide (total_daily_tu < 6) && decide (0 < remaining_days)) = true := by
              simp [h6]; omega
            rw [this] at h2; exact absurd h2 (by simp)
          · exact h6
        · intro ⟨_, _, _, h4⟩
          simp only [Bool.true_and]
          have : (decide (total_daily_tu < 6) && decide (0 < remaining_days)) = false := by
            simp [h4]
          rw [this]
          rfl

/-- The claim as frozen requires the long-travel trigger to fire only when
the incoming leg **exceeded** 180 minutes; the code fires it already at
exactly 180 minutes (`travel_minutes_prev >= LONG_TRAVEL_THRESHOLD_MINUTES`):
with a 180-minute incoming leg, no sport POI and a met quota, the planner
decides to stay although no trigger in the claim's sense fired. -/
theorem stay_decision_strict_counterexample :
    (∃ rest, stay_decision envC7 "Zurich, Switzerland" [("Zurich, Switzerland", 1)] 2 []
        false (some "Bern, Switzerland") 180 [] [poiA] 6 =
      Except.ok (true, rest)) ∧
    ¬ StayTriggerStrict envC7 "Zurich, Switzerland" [("Zurich, Switzerland", 1)] []
        false (some "Bern, Switzerland") 180 := by
  constructor
  · exact ⟨(["long travel day"], ["Zurich, Switzerland"], ["long travel day"]), rfl⟩
  · intro h
    rcases h with ⟨_, h | ⟨_, h⟩⟩ | ⟨h, _⟩
    · simp at h
    · exact absurd h (by norm_num)
    · revert h
      decide

/-- Witness: the amended characterization applied at the 180-minute instance;
the code decides to stay there and the amended trigger (with `≥ 180`) fires. -/
theorem stay_decision_characterization_witness :
    ∃ r, stay_decision envC7 "Zurich, Switzerland" [("Zurich, Switzerland", 1)] 2 []
        false (some "Bern, Switzerland") 180 [] [poiA] 6 = Except.ok r ∧
      (r.1 = true ↔
        StayTriggerGe envC7 "Zurich, Switzerland" [("Zurich, Switzerland", 1)] []
          false (some "Bern, Switzerland") 180 ∧
        StayFeasible envC7 "Zurich, Switzerland" 2 ∧
        true = true ∧ ¬ (6 : Nat) < 6) :=
  stay_decision_characterization envC7 "Zurich, Switzerland"
    [("Zurich, Switzerland", 1)] 2 [] false (some "Bern, Switzerland") 180 [] [poiA] 6
    true (by decide) (by decide) rfl

/-! ### C2: the 8-TU ceiling on every emitted day -/

theorem select_tu_bound {pois : List POI} {w : List (String × ℚ)} {tu : Nat} {rng : Rng}
    {season : Option String} {ps : List POI} {rng' : Rng}
    (h : select_pois_for_day pois w tu rng season = Except.ok (ps, rng')) :
    tu + tuSum ps ≤ max tu 8 := by
  rcases hf : filter_pois_by_preferences pois w with m | elig
  · rw [select_pois_for_day, hf, except_bind_err] at h
    exact Except.noConfusion h
  rw [select_pois_for_day, hf, except_bind_ok] at h
  have hsc : select_core elig w tu rng season = (ps, rng') := by
    injection h
  by_cases he : elig.isEmpty
  · rw [select_core, if_pos he] at hsc
    obtain ⟨h1, _⟩ := Prod.mk.injEq .. ▸ hsc
    rw [← h1]
    simpa [tuSum] using le_max_left tu 8
  rw [select_core, if_neg he] at hsc
  by_cases ha : (narrow_by_season season (eligible_info elig)).isEmpty
  · rw [if_pos ha] at hsc
    obtain ⟨h1, _⟩ := Prod.mk.injEq .. ▸ hsc
    rw [← h1]
    simpa [tuSum] using le_max_left tu 8
  rw [if_neg ha] at hsc
  by_cases htu : 8 < tu
  · rw [if_pos htu] at hsc
    obtain ⟨h1, _⟩ := Prod.mk.injEq .. ▸ hsc
    rw [← h1]
    simpa [tuSum] using le_max_left tu 8
  rw [if_neg htu] at hsc
  simp only [] at hsc
  set infos := narrow_by_season season (eligible_info elig) with hinfos
  set combos : List Combo :=
    { pois := [], total := tu, pref_sum := 0, season_sum := 0 } ::
      (if 0 < 8 - tu then dfs w season tu (8 - tu) infos [] 0 0 0 else []) with hcombos
  have hbc : best_combos combos none =
      best_combos (if 0 < 8 - tu then dfs w season tu (8 - tu) infos [] 0 0 0 else [])
        (some (combo_key { pois := [], total := tu, pref_sum := 0, season_sum := 0 },
          [{ pois := [], total := tu, pref_sum := 0, season_sum := 0 }])) := rfl
  obtain ⟨bk', hne, hmem, _, _⟩ := best_combos_spec
    (if 0 < 8 - tu then dfs w season tu (8 - tu) infos [] 0 0 0 else [])
    (combo_key { pois := [], total := tu, pref_sum := 0, season_sum := 0 })
    [{ pois := [], total := tu, pref_sum := 0, season_sum := 0 }]
    (by simp) (by simp)
  rw [← hbc] at hne hmem
  have hch := Rng.choice_mem hne rng default
  obtain ⟨_, hin⟩ := hmem _ hch
  have hps : ps = ((rng.choice (best_combos combos none) default).1).pois := by
    obtain ⟨h1, _⟩ := Prod.mk.injEq .. ▸ hsc
    exact h1.symm
  rcases hin with hin | hin
  · have : (rng.choice (best_combos combos none) default).1 =
        { pois := [], total := tu, pref_sum := 0, season_sum := 0 } := by
      simpa using hin
    rw [hps, this]
    simpa [tuSum] using le_max_left tu 8
  · by_cases hrem : 0 < 8 - tu
    · rw [if_pos hrem] at hin
      obtain ⟨SI, hsub, _, hpois, _, _, _, hbound, _, _⟩ :=
        dfs_sound w season tu (8 - tu) infos [] 0 0 0 _ hin (Nat.zero_le _)
      have hfacts : ∀ i ∈ SI, primary_label i.1 = some i.2.1 ∧
          i.2.2 = activity_time_units i.1 := by
        intro i hi
        have hmemi := mem_narrow_by_season (hsub.subset hi)
        obtain ⟨_, h2, h3⟩ := mem_eligible_info hmemi
        exact ⟨h2, h3⟩
      have hsum := (info_sums_eq w season hfacts).1
      rw [hps]
      have hchpois : ((rng.choice (best_combos combos none) default).1).pois =
          SI.map (·.1) := by
        rw [hpois]; simp
      rw [hchpois, ← hsum]
      have : tu + infoTuSum SI ≤ 8 := by omega
      exact le_trans this (le_max_right tu 8)
    · rw [if_neg hrem] at hin
      cases hin

theorem ok_none_ne_some {α : Type} {tc : α}
    (h : (Except.ok (none : Option α) : Except String (Option α)) = Except.ok (some tc)) :
    False :=
  Option.noConfusion (Except.ok.inj h)

theorem cand_finish_some {previous : Option String} {rdam : Int}
    {visit_counts : List (String × Nat)} {dte : String → WithTop ℚ}
    {end_city dest : String} {duration : ℚ} {tc : ℚ × Cand}
    (h : cand_finish previous rdam visit_counts dte end_city dest duration = some tc) :
    tc.2.2.1 = dest ∧ tc.2.2.2 = duration := by
  simp only [cand_finish] at h
  split at h
  · exact Option.noConfusion h
  split at h
  · obtain rfl := Option.some.inj h
    exact ⟨rfl, rfl⟩
  · exact Option.noConfusion h

theorem cand_of_edge_duration {rp : RoutePlanner} {current : String}
    {previous : Option String} {day_index num_days : Nat} {end_city : String}
    {rdam : Int} {visit_counts : List (String × Nat)}
    {mdte : String → WithTop Nat} {dte : String → WithTop ℚ} {visited : List String}
    {available_pois : List (String × List POI)} {w : List (String × ℚ)}
    {season : Option String} {required : Nat} {dest : String} {payload : Payload}
    {tc : ℚ × Cand}
    (h : cand_of_edge rp current previous day_index num_days end_city rdam
      visit_counts mdte dte visited available_pois w season required dest payload =
      Except.ok (some tc)) :
    tc.2.2.2 ≤ DAILY_TRAVEL_LIMIT_MINUTES := by
  simp only [cand_of_edge] at h
  split at h
  · exact absurd h ok_none_ne_some
  split at h
  · exact absurd h ok_none_ne_some
  split at h
  · exact absurd h ok_none_ne_some
  next h240 =>
  split at h
  · exact absurd h ok_none_ne_some
  split at h
  · exact absurd h ok_none_ne_some
  split at h
  · exact Except.noConfusion h
  split at h
  · exact absurd h ok_none_ne_some
  split at h
  · split at h
    · exact absurd h ok_none_ne_some
    split at h
    · exact absurd h ok_none_ne_some
    · have := (cand_finish_some (Except.ok.inj h)).2
      rw [this]
      exact not_lt.mp h240
  · split at h
    · exact absurd h ok_none_ne_some
    · have := (cand_finish_some (Except.ok.inj h)).2
      rw [this]
      exact not_lt.mp h240

theorem choice_mem_or_default {α : Type} (rng : Rng) (xs : List α) (d : α) :
    (rng.choice xs d).1 ∈ xs ∨ (rng.choice xs d).1 = d := by
  rcases xs with _ | ⟨a, t⟩
  · right
    rfl
  · left
    exact Rng.choice_mem (by simp) rng d

theorem pick_bucket_duration {tagged : List (ℚ × Cand)}
    (hall : ∀ x ∈ tagged, x.2.2.2 ≤ DAILY_TRAVEL_LIMIT_MINUTES) :
    ∀ (ths : List ℚ) (rng : Rng) (city : String) (dur : ℚ) (rng' : Rng),
      pick_bucket rng tagged ths = (some (city, dur), rng') →
      dur ≤ DAILY_TRAVEL_LIMIT_MINUTES := by
  intro ths
  induction ths with
  | nil =>
    intro rng city dur rng' h
    obtain ⟨h1, _⟩ := Prod.mk.injEq .. ▸ h
    exact Option.noConfusion h1
  | cons th rest ih =>
    intro rng city dur rng' h
    rw [pick_bucket] at h
    split at h
    · exact ih rng city dur rng' h
    · obtain ⟨h1, _⟩ := Prod.mk.injEq .. ▸ h
      obtain ⟨hc, hd⟩ := Prod.mk.injEq .. ▸ Option.some.inj h1.symm
      set bucket := (tagged.filter (fun tc => tc.1 = th)).map (·.2) with hbucket
      set sorted := insertionSort candLe bucket with hsorted
      set best := sorted.filter (fun c => c.1 = (sorted.headD default).1) with hbest
      rcases choice_mem_or_default rng best default with hmem | hdef
      · have hbmem : (rng.choice best default).1 ∈ bucket :=
          (insertionSort_perm candLe bucket).mem_iff.mp (List.mem_of_mem_filter hmem)
        rw [hbucket] at hbmem
        obtain ⟨x, hx, hxeq⟩ := List.mem_map.mp hbmem
        have hb := hall x (List.mem_of_mem_filter hx)
        have hde : dur = x.2.2.2 := by
          simp only [Rng.choice] at hxeq
          rw [hd, ← hxeq]
        rw [hde]
        exact hb
      · have hde : dur = (default : Cand).2.2 := by
          simp only [Rng.choice] at hdef
          rw [hd, hdef]
        rw [hde]
        show (0 : ℚ) ≤ DAILY_TRAVEL_LIMIT_MINUTES
        norm_num [DAILY_TRAVEL_LIMIT_MINUTES]

theorem tagged_cands_duration {rp : RoutePlanner} {current : String}
    {previous : Option String} {day_index num_days : Nat} {end_city : String}
    {rdam : Int} {visit_counts : List (String × Nat)}
    {mdte : String → WithTop Nat} {dte : String → WithTop ℚ} {visited : List String}
    {available_pois : List (String × List POI)} {w : List (String × ℚ)}
    {season : Option String} {required : Nat} :
    ∀ (adj : List (String × Payload)) (acc tagged : List (ℚ × Cand)),
      (∀ x ∈ acc, x.2.2.2 ≤ DAILY_TRAVEL_LIMIT_MINUTES) →
      tagged_cands rp current previous day_index num_days end_city rdam visit_counts
        mdte dte visited available_pois w season required adj acc = Except.ok tagged →
      ∀ x ∈ tagged, x.2.2.2 ≤ DAILY_TRAVEL_LIMIT_MINUTES := by
  intro adj
  induction adj with
  | nil =>
    intro acc tagged hacc h
    obtain rfl := Except.ok.inj h
    exact hacc
  | cons dp rest ih =>
    intro acc tagged hacc h
    rw [tagged_cands] at h
    cases hc : cand_of_edge rp current previous day_index num_days end_city rdam
        visit_counts mdte dte visited available_pois w season required dp.1 dp.2 with
    | error m =>
      rw [hc] at h
      exact Except.noConfusion h
    | ok o =>
      rw [hc] at h
      cases o with
      | none => exact ih acc tagged hacc h
      | some tc =>
        refine ih (acc ++ [tc]) tagged ?_ h
        intro x hx
        rcases List.mem_append.mp hx with hx | hx
        · exact hacc x hx
        · obtain rfl : x = tc := by simpa using hx
          exact cand_of_edge_duration hc

theorem choose_next_city_duration {rp : RoutePlanner} {current : String}
    {previous : Option String} {day_index num_days : Nat} {end_city : String}
    {remaining_days : Nat} {visit_counts : List (String × Nat)}
    {mdte : String → WithTop Nat} {dte : String → WithTop ℚ} {visited : List String}
    {available_pois : List (String × List POI)} {w : List (String × ℚ)}
    {season : Option String} {rng : Rng} {required : Nat}
    {city : String} {dur : ℚ} {rng' : Rng}
    (h : rp.choose_next_city current previous day_index num_days end_city
      remaining_days visit_counts mdte dte visited available_pois w season rng
      required = Except.ok (some (city, dur), rng')) :
    dur ≤ DAILY_TRAVEL_LIMIT_MINUTES := by
  rw [RoutePlanner.choose_next_city] at h
  cases ht : tagged_cands rp current previous day_index num_days end_city
      ((remaining_days : Int) - 1) visit_counts mdte dte visited available_pois w
      season required ((rp.graph.lookup current).getD []) [] with
  | error m =>
    rw [ht] at h
    exact Except.noConfusion h
  | ok tagged =>
    rw [ht] at h
    have hall := tagged_cands_duration _ _ _ (by simp) ht
    exact pick_bucket_duration hall _ rng city dur rng' (Except.ok.inj h)

theorem travel_time_units_le_four {m : ℚ} (h : m ≤ DAILY_TRAVEL_LIMIT_MINUTES) :
    travel_time_units m ≤ 4 := by
  unfold travel_time_units
  split
  · omega
  next h0 =>
    have hceil : ⌈m / 60⌉₊ ≤ 4 := by
      rw [Nat.ceil_le]
      rw [div_le_iff (by norm_num : (0 : ℚ) < 60)]
      calc m ≤ DAILY_TRAVEL_LIMIT_MINUTES := h
        _ = (4 : ℕ) * 60 := by norm_num [DAILY_TRAVEL_LIMIT_MINUTES]
    exact max_le (by norm_num) hceil

theorem select_tu_bound8 {pois : List POI} {w : List (String × ℚ)} {tu : Nat} {rng : Rng}
    {season : Option String} {ps : List POI} {rng' : Rng} (htu : tu ≤ 8)
    (h : select_pois_for_day pois w tu rng season = Except.ok (ps, rng')) :
    tu + tuSum ps ≤ 8 := by
  have := select_tu_bound h
  omega

theorem plan_route_day_tu {env : PlanEnv} {day_index : Nat} {st : PlanState}
    {dp : DayPlan} {ost : Option PlanState}
    (htm : st.travel_minutes_prev ≤ DAILY_TRAVEL_LIMIT_MINUTES)
    (h : plan_route_day env day_index st = Except.ok (dp, ost)) :
    dayTU dp ≤ 8 ∧
      ∀ st', ost = some st' → st'.travel_minutes_prev ≤ DAILY_TRAVEL_LIMIT_MINUTES := by
  have htu4 : travel_time_units st.travel_minutes_prev ≤ 4 :=
    travel_time_units_le_four htm
  simp only [plan_route_day] at h
  split at h
  · exact Except.noConfusion h
  next pois rng hsel =>
  have hbase : travel_time_units st.travel_minutes_prev + tuSum pois ≤ 8 :=
    select_tu_bound8 (by omega) hsel
  split at h
  · -- final day
    split at h
    · exact Except.noConfusion h
    · obtain ⟨h1, h2⟩ := Prod.mk.injEq .. ▸ Except.ok.inj h
      refine ⟨?_, ?_⟩
      · rw [← h1]
        simpa [dayTU, tuSum] using hbase
      · intro st' hst'
        rw [← h2] at hst'
        exact Option.noConfusion hst'
  · -- non-final day
    split at h
    · exact Except.noConfusion h
    next sd hsd =>
    split at h
    · -- stay
      obtain ⟨h1, h2⟩ := Prod.mk.injEq .. ▸ Except.ok.inj h
      refine ⟨?_, ?_⟩
      · rw [← h1]
        simpa [dayTU, tuSum] using hbase
      · intro st' hst'
        rw [← h2] at hst'
        obtain rfl := Option.some.inj hst'
        norm_num [DAILY_TRAVEL_LIMIT_MINUTES]
    · -- move
      split at h
      · exact Except.noConfusion h
      next cr hchoose =>
      split at h
      · exact Except.noConfusion h
      next next_city travel_minutes hcr1 =>
      have hcr : cr = (some (next_city, travel_minutes), cr.2) := by
        rw [← hcr1]
      rw [hcr] at hchoose
      have hdur : travel_minutes ≤ DAILY_TRAVEL_LIMIT_MINUTES :=
        choose_next_city_duration hchoose
      split at h
      · -- low-TU rewrite
        split at h
        · exact Except.noConfusion h
        next dest_pois rng2 hsel2 =>
        obtain ⟨h1, h2⟩ := Prod.mk.injEq .. ▸ Except.ok.inj h
        refine ⟨?_, ?_⟩
        · rw [← h1]
          have hbound2 : travel_time_units travel_minutes + tuSum dest_pois ≤ 8 :=
            select_tu_bound8 (by have := travel_time_units_le_four hdur; omega) hsel2
          simpa [dayTU, tuSum] using hbound2
        · intro st' hst'
          rw [← h2] at hst'
          obtain rfl := Option.some.inj hst'
          norm_num [DAILY_TRAVEL_LIMIT_MINUTES]
      · -- normal move
        obtain ⟨h1, h2⟩ := Prod.mk.injEq .. ▸ Except.ok.inj h
        refine ⟨?_, ?_⟩
        · rw [← h1]
          simpa [dayTU, tuSum] using hbase
        · intro st' hst'
          rw [← h2] at hst'
          obtain rfl := Option.some.inj hst'
          exact hdur

theorem plan_route_days_tu (env : PlanEnv) :
    ∀ (fuel day_index : Nat) (st : PlanState) (plans : List DayPlan),
      st.travel_minutes_prev ≤ DAILY_TRAVEL_LIMIT_MINUTES →
      plan_route_days env fuel day_index st = Except.ok plans →
      ∀ dp ∈ plans, dayTU dp ≤ 8 := by
  intro fuel
  induction fuel with
  | zero =>
    intro day_index st plans _ h
    exact Except.noConfusion h
  | succ fuel ih =>
    intro day_index st plans htm h
    rw [plan_route_days] at h
    split at h
    · exact Except.noConfusion h
    · next dp heq =>
      obtain rfl := (Except.ok.inj h).symm
      intro x hx
      obtain rfl : x = dp := by simpa using hx
      exact (plan_route_day_tu htm heq).1
    · next dp st' heq =>
      split at h
      · exact Except.noConfusion h
      next rest heq2 =>
      obtain rfl := (Except.ok.inj h).symm
      obtain ⟨hday, hnext⟩ := plan_route_day_tu htm heq
      intro x hx
      rcases List.mem_cons.mp hx with rfl | hx
      · exact hday
      · exact ih (day_index + 1) st' rest (hnext st' rfl) heq2 x hx

theorem plan_route_tu_all (rp : RoutePlanner) (s e : String) (n : Int)
    (w : List (String × ℚ)) (season : Option String) (rng : Rng)
    (plans : List DayPlan)
    (h : rp.plan_route s e n w season rng = Except.ok plans) :
    ∀ dp ∈ plans, dayTU dp ≤ 8 := by
  simp only [RoutePlanner.plan_route] at h
  by_cases hn : n ≤ 0
  · rw [if_pos hn] at h
    exact Except.noConfusion h
  rw [if_neg hn, pure_bind] at h
  rcases hres : rp.resolve_city s with m | ⟨sd, sp, sdisp⟩ <;> rw [hres] at h
  · exact Except.noConfusion h
  rw [except_bind_ok] at h
  rcases hrese : rp.resolve_city e with m | ⟨ed, ep, edisp⟩ <;> rw [hrese] at h
  · exact Except.noConfusion h
  rw [except_bind_ok] at h
  by_cases hinf : rp.shortest_paths .km sd ed = ⊤
  · rw [if_pos hinf] at h
    exact Except.noConfusion h
  rw [if_neg hinf] at h
  by_cases hlt : sd ≠ ed ∧ n < 2
  · rw [if_pos hlt] at h
    exact Except.noConfusion h
  rw [if_neg hlt] at h
  by_cases hmd : intLtTopNat (max 0 (n - (required_end_stay_days_of (decide (sd = ed)) n : Int)))
      (if rp.distance_cities.contains sd then min_days_to_end_of rp ed sd else ⊤) = true
  · rw [if_pos hmd] at h
    exact Except.noConfusion h
  rw [if_neg hmd] at h
  cases hmap : CITY_DISTANCE_TO_POI.mapM
      (fun dp => do
        let ps ← rp.datastore.pois_for_city dp.2 season
        pure (dp.2, ps)) with
  | error m =>
    rw [hmap, except_bind_err] at h
    exact Except.noConfusion h
  | ok aps =>
    rw [hmap, except_bind_ok] at h
    exact plan_route_days_tu _ n.toNat 1 _ plans
      (by norm_num [DAILY_TRAVEL_LIMIT_MINUTES]) h

/-- C2: the 8-TU daily ceiling holds for every day record the planner emits.
First conjunct (the loop step): any day the day loop emits from a state whose
incoming travel leg respects the 240-minute limit — in particular every day
the low-utilization override rewrites into a "move with arrival", whose
record carries the consumed travel leg and the POIs newly selected at the
arrival city — has travel TU plus summed activity TUs at most 8.  Second
conjunct: every day of every successful `plan_route` itinerary satisfies the
same bound. -/
theorem plan_route_rewrite_tu_ceiling (env : PlanEnv) (day_index : Nat)
    (st : PlanState) (dp : DayPlan) (ost : Option PlanState) (rp : RoutePlanner)
    (s e : String) (n : Int) (w : List (String × ℚ)) (season : Option String)
    (rng : Rng) (plans : List DayPlan) :
    (st.travel_minutes_prev ≤ DAILY_TRAVEL_LIMIT_MINUTES →
      plan_route_day env day_index st = Except.ok (dp, ost) → dayTU dp ≤ 8) ∧
    (rp.plan_route s e n w season rng = Except.ok plans →
      ∀ x ∈ plans, dayTU x ≤ 8) :=
  ⟨fun htm h => (plan_route_day_tu htm h).1,
   fun h => plan_route_tu_all rp s e n w season rng plans h⟩

/-! ### C5: shortest-path tables -/

theorem lookup_of_mem_nodup2 {β : Type} {l : List (String × β)}
    (hnd : (l.map Prod.fst).Nodup) {c : String} {v : β} (hmem : (c, v) ∈ l) :
    l.lookup c = some v := by
  induction l with
  | nil => cases hmem
  | cons kv t ih =>
    rw [List.map_cons] at hnd
    have hnd' := List.nodup_cons.mp hnd
    rcases List.mem_cons.mp hmem with heq | hmem'
    · rw [← heq]
      simp [List.lookup]
    · have hne : (c == kv.1) = false := by
        rw [beq_eq_false_iff_ne]
        intro hceq
        apply hnd'.1
        rw [hceq] at hmem'
        exact List.mem_map.mpr ⟨_, hmem', rfl⟩
      obtain ⟨k, v'⟩ := kv
      rw [List.lookup_cons]
      rw [show (c == k) = false from hne]
      exact ih hnd'.2 hmem'

theorem mem_of_lookup_eq_some2 {β : Type} {l : List (String × β)} {c : String} {v : β}
    (h : l.lookup c = some v) : (c, v) ∈ l := by
  induction l with
  | nil => cases h
  | cons kv t ih =>
    obtain ⟨k, v'⟩ := kv
    rw [List.lookup_cons] at h
    cases hck : (c == k) with
    | true =>
      rw [hck] at h
      obtain rfl : v' = v := by simpa using h
      obtain rfl : c = k := by simpa using hck
      exact List.mem_cons_self _ _
    | false =>
      rw [hck] at h
      exact List.mem_cons_of_mem _ (ih h)

theorem adjOf_mem {g : List (String × List (String × WithTop ℚ))} {u : String}
    {ed : String × WithTop ℚ} (h : ed ∈ adjOf g u) :
    ∃ l, (u, l) ∈ g ∧ ed ∈ l := by
  unfold adjOf at h
  cases hl : g.lookup u with
  | none => rw [hl] at h; cases h
  | some l =>
    rw [hl] at h
    exact ⟨l, mem_of_lookup_eq_some2 hl, h⟩

theorem adjOf_nonneg {g : List (String × List (String × WithTop ℚ))}
    (hnn : NonnegGraph g) {u : String} {ed : String × WithTop ℚ}
    (h : ed ∈ adjOf g u) {q : ℚ} (hq : ed.2 = (q : WithTop ℚ)) : 0 ≤ q := by
  obtain ⟨l, hmem, hed⟩ := adjOf_mem h
  exact hnn (u, l) hmem ed hed q hq

theorem adjOf_eq_nil_of_not_key {g : List (String × List (String × WithTop ℚ))}
    {u : String} (h : ¬ u ∈ g.map (·.1)) : adjOf g u = [] := by
  unfold adjOf
  cases hl : g.lookup u with
  | none => rfl
  | some l =>
    exact absurd (List.mem_map.mpr ⟨_, mem_of_lookup_eq_some2 hl, rfl⟩) h

theorem adjOf_lookup_eq {g : List (String × List (String × WithTop ℚ))}
    (hadj : NodupAdj g) {u v : String} {w : WithTop ℚ}
    (h : (v, w) ∈ adjOf g u) : edgeWeight g u v = w := by
  obtain ⟨l, hmem, hed⟩ := adjOf_mem h
  have hl : adjOf g u = (g.lookup u).getD [] := rfl
  unfold edgeWeight
  have := lookup_of_mem_nodup2 (l := adjOf g u) ?_ h
  · rw [this]
    rfl
  · unfold adjOf
    cases hlk : g.lookup u with
    | none => simp
    | some l' => exact hadj (u, l') (mem_of_lookup_eq_some2 hlk)

theorem walkEnd_append (a : String) (xs : List String) (y : String) :
    walkEnd a (xs ++ [y]) = y := by
  induction xs generalizing a with
  | nil => rfl
  | cons b l ih => exact ih b

theorem walkCost_append (g : List (String × List (String × WithTop ℚ)))
    (a : String) (xs : List String) (y : String) :
    walkCost g a (xs ++ [y]) = walkCost g a xs + edgeWeight g (walkEnd a xs) y := by
  induction xs generalizing a with
  | nil =>
    simp [walkCost, walkEnd]
  | cons b l ih =>
    show edgeWeight g a b + walkCost g b (l ++ [y]) =
      edgeWeight g a b + walkCost g b l + edgeWeight g (walkEnd b l) y
    rw [ih b, add_assoc]

theorem minEntry_mem : ∀ (heap : List DijEntry) (m : DijEntry),
    minEntry heap = some m → m ∈ heap := by
  have aux : ∀ (l : List DijEntry) (e : DijEntry),
      l.foldl (fun m x => if entryLtB x m then x else m) e = e ∨
        l.foldl (fun m x => if entryLtB x m then x else m) e ∈ l := by
    intro l
    induction l with
    | nil => intro e; exact Or.inl rfl
    | cons a t ih =>
      intro e
      rw [List.foldl_cons]
      rcases ih (if entryLtB a e then a else e) with h | h
      · rw [h]
        split
        · exact Or.inr (List.mem_cons_self _ _)
        · exact Or.inl rfl
      · exact Or.inr (List.mem_cons_of_mem _ h)
  intro heap m h
  cases heap with
  | nil => cases h
  | cons e t =>
    obtain rfl : t.foldl (fun m x => if entryLtB x m then x else m) e = m := by
      simpa [minEntry] using h
    rcases aux t e with h | h
    · rw [h]
      exact List.mem_cons_self _ _
    · exact List.mem_cons_of_mem _ h

theorem entry_le_of_not_ltB {a b : DijEntry} (h : entryLtB a b = false) : b.1 ≤ a.1 := by
  simp only [entryLtB, Bool.or_eq_false_iff, decide_eq_false_iff_not] at h
  exact not_lt.mp h.1

theorem entry_le_of_ltB {a b : DijEntry} (h : entryLtB a b = true) : a.1 ≤ b.1 := by
  simp only [entryLtB, Bool.or_eq_true, Bool.and_eq_true, decide_eq_true_iff] at h
  rcases h with h | ⟨h, _⟩
  · exact le_of_lt h
  · exact le_of_eq h

theorem minEntry_le : ∀ (heap : List DijEntry) (m : DijEntry),
    minEntry heap = some m → ∀ e ∈ heap, m.1 ≤ e.1 := by
  have aux : ∀ (l : List DijEntry) (e : DijEntry),
      (l.foldl (fun m x => if entryLtB x m then x else m) e).1 ≤ e.1 ∧
        ∀ x ∈ l, (l.foldl (fun m x => if entryLtB x m then x else m) e).1 ≤ x.1 := by
    intro l
    induction l with
    | nil => intro e; exact ⟨le_refl _, by simp⟩
    | cons a t ih =>
      intro e
      rw [List.foldl_cons]
      obtain ⟨ih1, ih2⟩ := ih (if entryLtB a e then a else e)
      have hacc : (if entryLtB a e then a else e).1 ≤ e.1 ∧
          (if entryLtB a e then a else e).1 ≤ a.1 := by
        cases hae : entryLtB a e with
        | true => exact ⟨by rw [if_pos rfl]; exact entry_le_of_ltB hae, by simp⟩
        | false => exact ⟨by simp, by rw [if_neg (by simp)]; exact entry_le_of_not_ltB hae⟩
      refine ⟨le_trans ih1 hacc.1, ?_⟩
      intro x hx
      rcases List.mem_cons.mp hx with rfl | hx
      · exact le_trans ih1 hacc.2
      · exact ih2 x hx
  intro heap m h
  cases heap with
  | nil => cases h
  | cons e t =>
    obtain rfl : t.foldl (fun m x => if entryLtB x m then x else m) e = m := by
      simpa [minEntry] using h
    intro x hx
    obtain ⟨h1, h2⟩ := aux t e
    rcases List.mem_cons.mp hx with rfl | hx
    · exact h1
    · exact h2 x hx

theorem popMin_spec {heap : List DijEntry} {m : DijEntry} {rest : List DijEntry}
    (h : popMin heap = some (m, rest)) :
    m ∈ heap ∧ rest = heap.erase m ∧ ∀ e ∈ heap, m.1 ≤ e.1 := by
  unfold popMin at h
  cases hm : minEntry heap with
  | none => rw [hm] at h; cases h
  | some m' =>
    rw [hm] at h
    obtain ⟨h1, h2⟩ := Prod.mk.injEq .. ▸ Option.some.inj h
    subst h1
    exact ⟨minEntry_mem heap m' hm, h2.symm, minEntry_le heap m' hm⟩

theorem popMin_none {heap : List DijEntry} (h : popMin heap = none) : heap = [] := by
  cases heap with
  | nil => rfl
  | cons e t =>
    exfalso
    unfold popMin at h
    cases hm : minEntry (e :: t) with
    | none => unfold minEntry at hm; cases hm
    | some m => rw [hm] at h; cases h

theorem relaxEdges_spec (d : ℚ) :
    ∀ (edges : List (String × WithTop ℚ)) (dist : String → WithTop ℚ)
      (h : List DijEntry),
      (∀ v, (relaxEdges d edges (dist, h)).1 v ≤ dist v) ∧
      (∀ v, (relaxEdges d edges (dist, h)).1 v = dist v ∨
        ((relaxEdges d edges (dist, h)).1 v < dist v ∧
          (∃ e ∈ (relaxEdges d edges (dist, h)).2, e.2 = v ∧
            ((e.1 : ℚ) : WithTop ℚ) = (relaxEdges d edges (dist, h)).1 v) ∧
          ∃ wq : ℚ, (v, ((wq : ℚ) : WithTop ℚ)) ∈ edges ∧
            (relaxEdges d edges (dist, h)).1 v = (((d + wq : ℚ) : WithTop ℚ)))) ∧
      (∀ ed ∈ edges, ∀ wq : ℚ, ed.2 = ((wq : ℚ) : WithTop ℚ) →
        (relaxEdges d edges (dist, h)).1 ed.1 ≤ ((d + wq : ℚ) : WithTop ℚ)) ∧
      (∃ pushed, (relaxEdges d edges (dist, h)).2 = pushed ++ h ∧
        pushed.length ≤ edges.length ∧
        ∀ e ∈ pushed, ∃ wq : ℚ, (e.2, ((wq : ℚ) : WithTop ℚ)) ∈ edges ∧
          e.1 = d + wq) := by
  intro edges
  induction edges with
  | nil =>
    intro dist h
    refine ⟨fun v => le_refl _, fun v => Or.inl rfl, by simp, [], rfl, by simp, by simp⟩
  | cons ed rest ih =>
    obtain ⟨v0, w0⟩ := ed
    intro dist h
    rcases w0 with _ | wq0
    · -- infinite edge weight: skipped
      have hstep : relaxEdges d ((v0, (none : WithTop ℚ)) :: rest) (dist, h) =
          relaxEdges d rest (dist, h) := by
        simp only [relaxEdges]
      rw [hstep]
      obtain ⟨r0, r1, r2, pushed, hp, hplen, hpmem⟩ := ih dist h
      refine ⟨r0, ?_, ?_, pushed, hp, by simpa using Nat.le_succ_of_le hplen, ?_⟩
      · intro v
        rcases r1 v with h' | ⟨h1, h2, wq, h3, h4⟩
        · exact Or.inl h'
        · exact Or.inr ⟨h1, h2, wq, List.mem_cons_of_mem _ h3, h4⟩
      · intro e he wq hwq
        rcases List.mem_cons.mp he with rfl | he'
        · cases hwq
        · exact r2 e he' wq hwq
      · intro e he
        obtain ⟨wq, hwq1, hwq2⟩ := hpmem e he
        exact ⟨wq, List.mem_cons_of_mem _ hwq1, hwq2⟩
    · by_cases hlt : (((d + wq0 : ℚ)) : WithTop ℚ) < dist v0
      · have hstep : relaxEdges d ((v0, (some wq0 : WithTop ℚ)) :: rest) (dist, h) =
            relaxEdges d rest
              ((fun c => if c = v0 then ((d + wq0 : ℚ) : WithTop ℚ) else dist c),
                (d + wq0, v0) :: h) := by
          simp only [relaxEdges]
          rw [if_pos hlt]
        rw [hstep]
        set dist' : String → WithTop ℚ :=
          fun c => if c = v0 then ((d + wq0 : ℚ) : WithTop ℚ) else dist c with hdist'
        obtain ⟨r0, r1, r2, pushed, hp, hplen, hpmem⟩ :=
          ih dist' ((d + wq0, v0) :: h)
        have hd'le : ∀ v, dist' v ≤ dist v := by
          intro v
          show (if v = v0 then ((d + wq0 : ℚ) : WithTop ℚ) else dist v) ≤ dist v
          by_cases hv : v = v0
          · rw [if_pos hv, hv]
            exact le_of_lt hlt
          · rw [if_neg hv]
        have hd'v0 : dist' v0 = ((d + wq0 : ℚ) : WithTop ℚ) := by
          show (if v0 = v0 then ((d + wq0 : ℚ) : WithTop ℚ) else dist v0) = _
          rw [if_pos rfl]
        have hheadmem : ((d + wq0, v0) : DijEntry) ∈
            (relaxEdges d rest (dist', (d + wq0, v0) :: h)).2 := by
          rw [hp]
          exact List.mem_append.mpr (Or.inr (List.mem_cons_self _ _))
        refine ⟨fun v => le_trans (r0 v) (hd'le v), ?_, ?_,
          pushed ++ [(d + wq0, v0)], ?_, ?_, ?_⟩
        · intro v
          rcases r1 v with h' | ⟨h1, h2, wq, h3, h4⟩
          · by_cases hv : v = v0
            · subst hv
              refine Or.inr ⟨?_, ⟨(d + wq0, v), hheadmem, rfl, ?_⟩,
                wq0, List.mem_cons_self _ _, ?_⟩
              · rw [h', hd'v0]
                exact hlt
              · rw [h', hd'v0]
              · rw [h', hd'v0]
            · refine Or.inl ?_
              rw [h']
              show (if v = v0 then ((d + wq0 : ℚ) : WithTop ℚ) else dist v) = dist v
              rw [if_neg hv]
          · refine Or.inr ⟨lt_of_lt_of_le h1 (hd'le v), h2, wq,
              List.mem_cons_of_mem _ h3, h4⟩
        · intro e he wq hwq
          rcases List.mem_cons.mp he with rfl | he'
          · obtain rfl : wq0 = wq := Option.some.inj hwq
            calc (relaxEdges d rest (dist', (d + wq0, v0) :: h)).1 v0
                ≤ dist' v0 := r0 v0
              _ ≤ ((d + wq0 : ℚ) : WithTop ℚ) := le_of_eq hd'v0
          · exact r2 e he' wq hwq
        · rw [hp]
          simp
        · simpa using Nat.succ_le_succ hplen
        · intro e he
          rcases List.mem_append.mp he with he' | he'
          · obtain ⟨wq, hwq1, hwq2⟩ := hpmem e he'
            exact ⟨wq, List.mem_cons_of_mem _ hwq1, hwq2⟩
          · obtain rfl : e = (d + wq0, v0) := by simpa using he'
            exact ⟨wq0, List.mem_cons_self _ _, rfl⟩
      · have hstep : relaxEdges d ((v0, (some wq0 : WithTop ℚ)) :: rest) (dist, h) =
            relaxEdges d rest (dist, h) := by
          simp only [relaxEdges]
          rw [if_neg hlt]
        rw [hstep]
        obtain ⟨r0, r1, r2, pushed, hp, hplen, hpmem⟩ := ih dist h
        refine ⟨r0, ?_, ?_, pushed, hp, by simpa using Nat.le_succ_of_le hplen, ?_⟩
        · intro v
          rcases r1 v with h' | ⟨h1, h2, wq, h3, h4⟩
          · exact Or.inl h'
          · exact Or.inr ⟨h1, h2, wq, List.mem_cons_of_mem _ h3, h4⟩
        · intro e he wq hwq
          rcases List.mem_cons.mp he with rfl | he'
          · obtain rfl : wq0 = wq := Option.some.inj hwq
            exact le_trans (r0 v0) (not_lt.mp hlt)
          · exact r2 e he' wq hwq
        · intro e he
          obtain ⟨wq, hwq1, hwq2⟩ := hpmem e he
          exact ⟨wq, List.mem_cons_of_mem _ hwq1, hwq2⟩

theorem relaxEdges_noop (d : ℚ) :
    ∀ (edges : List (String × WithTop ℚ)) (dist : String → WithTop ℚ)
      (h : List DijEntry),
      (∀ ed ∈ edges, ∀ wq : ℚ, ed.2 = ((wq : ℚ) : WithTop ℚ) →
        ¬ ((((d + wq : ℚ)) : WithTop ℚ) < dist ed.1)) →
      relaxEdges d edges (dist, h) = (dist, h) := by
  intro edges
  induction edges with
  | nil => intro dist h _; rfl
  | cons ed rest ih =>
    obtain ⟨v0, w0⟩ := ed
    intro dist h hno
    rcases w0 with _ | wq0
    · have hstep : relaxEdges d ((v0, (none : WithTop ℚ)) :: rest) (dist, h) =
          relaxEdges d rest (dist, h) := by
        simp only [relaxEdges]
      rw [hstep]
      exact ih dist h (fun e he wq hwq => hno e (List.mem_cons_of_mem _ he) wq hwq)
    · have hlt := hno (v0, (some wq0 : WithTop ℚ)) (List.mem_cons_self _ _) wq0 rfl
      have hstep : relaxEdges d ((v0, (some wq0 : WithTop ℚ)) :: rest) (dist, h) =
          relaxEdges d rest (dist, h) := by
        simp only [relaxEdges]
        rw [if_neg hlt]
      rw [hstep]
      exact ih dist h (fun e he wq hwq => hno e (List.mem_cons_of_mem _ he) wq hwq)

theorem sum_over_filter_rm (f : String → Nat) :
    ∀ (l : List String), l.Nodup → ∀ (u : String) (P : List String), u ∈ l →
      P.contains u = false →
      ((l.filter (fun v => !(P.contains v))).map f).sum =
        ((l.filter (fun v => !((u :: P).contains v))).map f).sum + f u := by
  intro l
  induction l with
  | nil => intro _ u P hu; cases hu
  | cons a t ih =>
    intro hnd u P hu huP
    obtain ⟨hat, hndt⟩ := List.nodup_cons.mp hnd
    by_cases hua : u = a
    · subst hua
      have h1 : (P.contains u) = false := huP
      have h2 : ((u :: P).contains u) = true := by simp
      rw [List.filter_cons, List.filter_cons]
      rw [show (!(P.contains u)) = true by rw [h1]; rfl]
      rw [show (!((u :: P).contains u)) = false by rw [h2]; rfl]
      simp only [if_pos, if_neg, List.map_cons, List.sum_cons, Bool.false_eq_true,
        if_false, if_true]
      have hcong : t.filter (fun v => !((u :: P).contains v)) =
          t.filter (fun v => !(P.contains v)) := by
        apply List.filter_congr
        intro v hv
        have hvu : (v == u) = false :=
          beq_eq_false_iff_ne.mpr (fun hveq => hat (hveq ▸ hv))
        rw [List.contains_cons, hvu, Bool.false_or]
      rw [hcong]
      omega
    · have hcontains : ((u :: P).contains a) = (P.contains a) := by
        have hau : (a == u) = false := beq_eq_false_iff_ne.mpr (fun h => hua h.symm)
        rw [List.contains_cons, hau, Bool.false_or]
      rw [List.filter_cons, List.filter_cons, hcontains]
      rcases List.mem_cons.mp hu with rfl | hut
      · exact absurd rfl hua
      cases hpa : P.contains a with
      | true =>
        simp only [hpa, Bool.not_true, Bool.false_eq_true, if_false]
        exact ih hndt u P hut huP
      | false =>
        simp only [hpa, Bool.not_false, if_true, List.map_cons, List.sum_cons]
        rw [ih hndt u P hut huP]
        omega

theorem edgesOut_shrink {g : List (String × List (String × WithTop ℚ))}
    {P : List String} {u : String} (hu : u ∈ g.map (·.1))
    (huP : P.contains u = false) :
    edgesOutOf g P = edgesOutOf g (u :: P) + (adjOf g u).length := by
  unfold edgesOutOf
  exact sum_over_filter_rm _ _ (List.nodup_dedup _) u P (List.mem_dedup.mpr hu) huP

theorem edgesOut_skip {g : List (String × List (String × WithTop ℚ))}
    {P : List String} {u : String} (hu : ¬ u ∈ g.map (·.1)) :
    edgesOutOf g (u :: P) = edgesOutOf g P := by
  unfold edgesOutOf
  congr 1
  congr 1
  apply List.filter_congr
  intro v hv
  have hvu : (v == u) = false := by
    rw [beq_eq_false_iff_ne]
    intro rfl'
    exact hu (List.mem_dedup.mp (rfl' ▸ hv))
  rw [List.contains_cons, hvu, Bool.false_or]

theorem dijkstraLoop_inv (g : List (String × List (String × WithTop ℚ)))
    (origin : String) (hnn : NonnegGraph g) (hadj : NodupAdj g) :
    ∀ (fuel : Nat) (dist : String → WithTop ℚ) (heap : List DijEntry) (P : List String),
      DijInv g origin dist heap P →
      heap.length + edgesOutOf g P < fuel →
      ∃ P', DijInv g origin (dijkstraLoop g fuel dist heap) [] P' := by
  intro fuel
  induction fuel with
  | zero =>
    intro dist heap P _ hm
    omega
  | succ fuel ih =>
    intro dist heap P hinv hm
    obtain ⟨B1, B2, B3, B4, B5, B6⟩ := hinv
    rw [dijkstraLoop]
    cases hpop : popMin heap with
    | none =>
      obtain rfl := popMin_none hpop
      exact ⟨P, B1, B2, B3, B4, B5, B6⟩
    | some md =>
      obtain ⟨⟨d, u⟩, rest⟩ := md
      show ∃ P', DijInv g origin
        (if dist u < (d : WithTop ℚ) then dijkstraLoop g fuel dist rest
         else (let st := relaxEdges d (adjOf g u) (dist, rest);
           dijkstraLoop g fuel st.1 st.2)) [] P'
      obtain ⟨hmem, hrest, hminle⟩ := popMin_spec hpop
      have hrsub : ∀ e, e ∈ rest → e ∈ heap := by
        intro e he
        rw [hrest] at he
        exact (heap.erase_sublist _).subset he
      have hrlen : rest.length + 1 = heap.length := by
        rw [hrest]
        have := List.length_erase_of_mem hmem
        have hpos : 0 < heap.length := List.length_pos.mpr (by
          intro hnil
          rw [hnil] at hmem
          cases hmem)
        omega
      by_cases hskip : dist u < (d : WithTop ℚ)
      · rw [if_pos hskip]
        refine ih dist rest P ⟨B1, fun e he => B2 e (hrsub e he), ?_, B4,
          fun x hx e he => B5 x hx e (hrsub e he), B6⟩ (by omega)
        intro v hv
        rcases B3 v hv with hP | ⟨e, he, he2, he3⟩
        · exact Or.inl hP
        · refine Or.inr ⟨e, ?_, he2, he3⟩
          rw [hrest]
          refine (List.mem_erase_of_ne ?_).mpr he
          intro heq
          rw [heq] at he2 he3
          have hv2 : u = v := he2
          have hd2 : (d : WithTop ℚ) = dist v := he3
          rw [← hv2] at hd2
          exact absurd hd2.symm (ne_of_lt hskip)
      · rw [if_neg hskip]
        have hdu : dist u = (d : WithTop ℚ) :=
          le_antisymm (B2 (d, u) hmem) (not_lt.mp hskip)
        have hedge : ∀ ed ∈ adjOf g u, ∀ q : ℚ, ed.2 = (q : WithTop ℚ) → 0 ≤ q :=
          fun ed hed q hq => adjOf_nonneg hnn hed hq
        by_cases hP : u ∈ P
        · have hnoop : relaxEdges d (adjOf g u) (dist, rest) = (dist, rest) := by
            apply relaxEdges_noop
            intro ed hed wq hwq
            have hrel := B4 u hP ed hed
            rw [hdu, hwq, ← WithTop.coe_add] at hrel
            exact fun hlt => absurd (lt_of_lt_of_le hlt hrel) (lt_irrefl _)
          have hgoal : (let st := relaxEdges d (adjOf g u) (dist, rest);
              dijkstraLoop g fuel st.1 st.2) = dijkstraLoop g fuel dist rest := by
            rw [hnoop]
          rw [hgoal]
          refine ih dist rest P ⟨B1, fun e he => B2 e (hrsub e he), ?_, B4,
            fun x hx e he => B5 x hx e (hrsub e he), B6⟩ (by omega)
          intro v hv
          rcases B3 v hv with hPm | ⟨e, he, he2, he3⟩
          · exact Or.inl hPm
          · by_cases heq : e = (d, u)
            · rw [heq] at he2
              rw [← he2]
              exact Or.inl hP
            · refine Or.inr ⟨e, ?_, he2, he3⟩
              rw [hrest]
              exact (List.mem_erase_of_ne heq).mpr he
        · obtain ⟨r0, r1, r2, pushed, hp, hplen, hpmem⟩ :=
            relaxEdges_spec d (adjOf g u) dist rest
          have hru : (relaxEdges d (adjOf g u) (dist, rest)).1 u = (d : WithTop ℚ) := by
            rcases r1 u with h' | ⟨hlt', _, wq, hmemw, heq⟩
            · rw [h', hdu]
            · exfalso
              have hwq0 : 0 ≤ wq := hedge (u, (wq : WithTop ℚ)) hmemw wq rfl
              rw [heq, hdu] at hlt'
              rw [WithTop.coe_lt_coe] at hlt'
              linarith
          have hrP : ∀ x ∈ P, (relaxEdges d (adjOf g u) (dist, rest)).1 x = dist x := by
            intro x hx
            rcases r1 x with h' | ⟨hlt', _, wq, hmemw, heq⟩
            · exact h'
            · exfalso
              have hwq0 : 0 ≤ wq := hedge (x, (wq : WithTop ℚ)) hmemw wq rfl
              have hxd : dist x ≤ (d : WithTop ℚ) := B5 x hx (d, u) hmem
              have hdd : ((d : ℚ) : WithTop ℚ) ≤ (((d + wq : ℚ)) : WithTop ℚ) := by
                rw [WithTop.coe_le_coe]
                linarith
              rw [heq] at hlt'
              exact absurd hlt' (not_lt.mpr (le_trans hxd hdd))
          have hgoal : (let st := relaxEdges d (adjOf g u) (dist, rest);
              dijkstraLoop g fuel st.1 st.2) =
              dijkstraLoop g fuel (relaxEdges d (adjOf g u) (dist, rest)).1
                (relaxEdges d (adjOf g u) (dist, rest)).2 := rfl
          rw [hgoal]
          refine ih _ _ (u :: P) ⟨?_, ?_, ?_, ?_, ?_, ?_⟩ ?_
          · intro v q hq
            rcases r1 v with h' | ⟨_, _, wq, hmemw, heq⟩
            · exact B1 v q (h'.symm.trans hq)
            · have hq' : q = d + wq := (Option.some.inj (heq.symm.trans hq)).symm
              obtain ⟨steps, hend, hcost⟩ := B1 u d hdu
              refine ⟨steps ++ [v], walkEnd_append origin steps v, ?_⟩
              rw [walkCost_append, hend, hcost, adjOf_lookup_eq hadj hmemw, hq']
              rw [← WithTop.coe_add]
          · intro e he
            rw [hp] at he
            rcases List.mem_append.mp he with hpu | hre
            · obtain ⟨wq, hw1, hw2⟩ := hpmem e hpu
              have hr2 := r2 (e.2, ((wq : ℚ) : WithTop ℚ)) hw1 wq rfl
              rw [← hw2] at hr2
              exact hr2
            · exact le_trans (r0 e.2) (B2 e (hrsub e hre))
          · intro v hv
            rcases r1 v with h' | ⟨_, hcov, _⟩
            · rw [h'] at hv
              rcases B3 v hv with hPm | ⟨e, he, he2, he3⟩
              · exact Or.inl (List.mem_cons_of_mem _ hPm)
              · by_cases heq : e = (d, u)
                · rw [heq] at he2
                  rw [← he2]
                  exact Or.inl (List.mem_cons_self _ _)
                · refine Or.inr ⟨e, ?_, he2, he3.trans h'.symm⟩
                  rw [hp]
                  refine List.mem_append.mpr (Or.inr ?_)
                  rw [hrest]
                  exact (List.mem_erase_of_ne heq).mpr he
            · obtain ⟨e, he, he2, he3⟩ := hcov
              exact Or.inr ⟨e, he, he2, he3⟩
          · intro x hx ed hed
            rcases List.mem_cons.mp hx with rfl | hxP
            · rcases hw2 : ed.2 with _ | wq
              · rw [hru]
                exact le_top
              · have hr2 := r2 ed hed wq hw2
                rw [hru]
                exact le_trans hr2 (le_of_eq (WithTop.coe_add d wq))
            · have hke := hrP x hxP
              calc (relaxEdges d (adjOf g u) (dist, rest)).1 ed.1
                  ≤ dist ed.1 := r0 ed.1
                _ ≤ dist x + ed.2 := B4 x hxP ed hed
                _ = (relaxEdges d (adjOf g u) (dist, rest)).1 x + ed.2 := by rw [hke]
          · intro x hx e he
            rw [hp] at he
            have hxle : (relaxEdges d (adjOf g u) (dist, rest)).1 x ≤ (d : WithTop ℚ) := by
              rcases List.mem_cons.mp hx with rfl | hxP
              · rw [hru]
              · rw [hrP x hxP]
                exact B5 x hxP (d, u) hmem
            rcases List.mem_append.mp he with hpu | hre
            · obtain ⟨wq, hw1, hw2⟩ := hpmem e hpu
              have hwq0 : 0 ≤ wq := hedge (e.2, ((wq : ℚ) : WithTop ℚ)) hw1 wq rfl
              refine le_trans hxle ?_
              rw [hw2]
              exact WithTop.coe_le_coe.mpr (by linarith)
            · exact le_trans hxle (WithTop.coe_le_coe.mpr (hminle e (hrsub e hre)))
          · exact le_trans (r0 origin) B6
          · have hlen2 : (relaxEdges d (adjOf g u) (dist, rest)).2.length =
                pushed.length + rest.length := by
              rw [hp, List.length_append]
            by_cases hukey : u ∈ g.map (·.1)
            · have hPc : P.contains u = false := by
                cases hc : P.contains u with
                | false => rfl
                | true => exact absurd (List.elem_iff.mp hc) hP
              have hshr := edgesOut_shrink (P := P) hukey hPc
              omega
            · have hadjnil := adjOf_eq_nil_of_not_key hukey
              have hskip2 := edgesOut_skip (P := P) (g := g) hukey
              rw [hadjnil] at hplen
              simp only [List.length_nil, Nat.le_zero] at hplen
              omega

theorem dist_le_walkCost {g : List (String × List (String × WithTop ℚ))}
    {origin : String} {dist : String → WithTop ℚ} {P : List String}
    (hinv : DijInv g origin dist [] P) :
    ∀ steps, dist (walkEnd origin steps) ≤ walkCost g origin steps := by
  obtain ⟨B1, _, B3, B4, _, B6⟩ := hinv
  intro steps
  induction steps using List.reverseRecOn with
  | nil => exact B6
  | append_singleton xs y ihs =>
    rw [walkEnd_append, walkCost_append]
    rcases hcost : walkCost g origin xs with _ | q
    · exact le_top
    · rw [hcost] at ihs
      have hne : dist (walkEnd origin xs) ≠ ⊤ := by
        intro htop
        rw [htop] at ihs
        exact absurd (top_le_iff.mp ihs) (WithTop.coe_ne_top)
      rcases B3 _ hne with hPm | ⟨e, he, _⟩
      · rcases hew : edgeWeight g (walkEnd origin xs) y with _ | w
        · exact le_top
        · have hlk : (adjOf g (walkEnd origin xs)).lookup y =
              some ((w : ℚ) : WithTop ℚ) := by
            unfold edgeWeight at hew
            cases hl : (adjOf g (walkEnd origin xs)).lookup y with
            | none =>
              rw [hl] at hew
              exact absurd hew.symm WithTop.coe_ne_top
            | some z =>
              rw [hl] at hew
              rw [show z = ((w : ℚ) : WithTop ℚ) from hew]
          have hmem := mem_of_lookup_eq_some2 hlk
          have hrel := B4 _ hPm (y, ((w : ℚ) : WithTop ℚ)) hmem
          exact le_trans hrel (add_le_add_right ihs _)
      · cases he

theorem adjOf_cons_ne {kv : String × List (String × WithTop ℚ)}
    {t : List (String × List (String × WithTop ℚ))} {v : String} (h : v ≠ kv.1) :
    adjOf (kv :: t) v = adjOf t v := by
  unfold adjOf
  obtain ⟨k, l⟩ := kv
  rw [List.lookup_cons]
  rw [show (v == k) = false from beq_eq_false_iff_ne.mpr h]

theorem adj_sum_eq : ∀ (g : List (String × List (String × WithTop ℚ))),
    NodupKeys g →
    ((g.map (·.1)).map (fun v => (adjOf g v).length)).sum = graphEdgeCount g := by
  intro g
  induction g with
  | nil => intro _; rfl
  | cons kv t ih =>
    intro hkeys
    have hnd := hkeys
    unfold NodupKeys at hnd
    rw [List.map_cons] at hnd
    obtain ⟨hkv, hndt⟩ := List.nodup_cons.mp hnd
    rw [List.map_cons, List.map_cons, List.sum_cons]
    have hhead : adjOf (kv :: t) kv.1 = kv.2 := by
      unfold adjOf
      obtain ⟨k, l⟩ := kv
      rw [List.lookup_cons]
      simp
    have hcong : (t.map (·.1)).map (fun v => (adjOf (kv :: t) v).length) =
        (t.map (·.1)).map (fun v => (adjOf t v).length) := by
      apply List.map_congr_left
      intro v hv
      rw [adjOf_cons_ne (fun hveq => hkv (hveq ▸ hv))]
    rw [hhead, hcong, ih hndt]
    rfl

theorem edgesOut_nil (g : List (String × List (String × WithTop ℚ)))
    (hkeys : NodupKeys g) : edgesOutOf g [] = graphEdgeCount g := by
  unfold edgesOutOf
  rw [List.dedup_eq_self.mpr hkeys]
  have hfilter : (g.map (·.1)).filter (fun v => !(([] : List String).contains v)) =
      g.map (·.1) := by
    apply List.filter_eq_self.mpr
    intro v _
    rfl
  rw [hfilter]
  exact adj_sum_eq g hkeys

/-- Full correctness of the embedded `_dijkstra` on any single-channel graph
with dict-shaped rows and non-negative finite weights: the returned table is
bounded above by every walk's cost, every finite table entry is attained by a
walk, and a city's entry is infinite exactly when every walk reaching it has
infinite cost. -/
theorem dijkstra_correct (g : List (String × List (String × WithTop ℚ)))
    (origin : String) (hnn : NonnegGraph g) (hadj : NodupAdj g)
    (hkeys : NodupKeys g) :
    (∀ steps, dijkstra g origin (walkEnd origin steps) ≤ walkCost g origin steps) ∧
    (∀ v (q : ℚ), dijkstra g origin v = (q : WithTop ℚ) →
      ∃ steps, walkEnd origin steps = v ∧ walkCost g origin steps = (q : WithTop ℚ)) ∧
    (∀ v, dijkstra g origin v = ⊤ ↔
      ∀ steps, walkEnd origin steps = v → walkCost g origin steps = ⊤) := by
  have hinv0 : DijInv g origin
      (fun c => if c = origin then (0 : WithTop ℚ) else ⊤) [(0, origin)] [] := by
    refine ⟨?_, ?_, ?_, by simp, by simp, by simp⟩
    · intro v q hq
      have hq' : (if v = origin then (0 : WithTop ℚ) else ⊤) = ((q : ℚ) : WithTop ℚ) := hq
      by_cases hv : v = origin
      · rw [if_pos hv] at hq'
        refine ⟨[], hv.symm, ?_⟩
        rw [← hq']
        rfl
      · rw [if_neg hv] at hq'
        exact absurd hq'.symm WithTop.coe_ne_top
    · intro e he
      obtain rfl : e = ((0 : ℚ), origin) := by simpa using he
      show (if origin = origin then (0 : WithTop ℚ) else ⊤) ≤ (((0 : ℚ)) : WithTop ℚ)
      rw [if_pos rfl]
      exact le_of_eq rfl
    · intro v hv
      have hv' : (if v = origin then (0 : WithTop ℚ) else ⊤) ≠ ⊤ := hv
      by_cases hvo : v = origin
      · refine Or.inr ⟨((0 : ℚ), origin), List.mem_cons_self _ _, hvo.symm, ?_⟩
        show (((0 : ℚ)) : WithTop ℚ) = if v = origin then (0 : WithTop ℚ) else ⊤
        rw [if_pos hvo]
        rfl
      · rw [if_neg hvo] at hv'
        exact absurd rfl hv' 
  have hmeas : ([((0 : ℚ), origin)] : List DijEntry).length + edgesOutOf g [] <
      graphEdgeCount g + 2 := by
    rw [edgesOut_nil g hkeys]
    simp only [List.length_cons, List.length_nil]
    omega
  obtain ⟨P', hfin⟩ := dijkstraLoop_inv g origin hnn hadj (graphEdgeCount g + 2)
    _ _ [] hinv0 hmeas
  have hlower : ∀ steps, dijkstra g origin (walkEnd origin steps) ≤
      walkCost g origin steps := dist_le_walkCost hfin
  obtain ⟨B1, _, _, _, _, _⟩ := hfin
  refine ⟨hlower, B1, ?_⟩
  intro v
  constructor
  · intro htop steps hend
    have := hlower steps
    rw [hend, htop] at this
    exact top_le_iff.mp this
  · intro hall
    cases hd : dijkstra g origin v with
    | top => rfl
    | coe q =>
      obtain ⟨steps, hend, hcost⟩ := B1 v q hd
      have := hall steps hend
      rw [this] at hcost
      exact absurd hcost.symm WithTop.coe_ne_top

theorem channel_load_eq (raw : RawGraph) (wk : WeightKey) :
    channelGraph (load_distance_graph raw) wk =
      raw.map (fun kv =>
        (kv.1, kv.2.map (fun dp => (dp.1, orInf (rawVal wk dp.2))))) := by
  cases wk <;>
    simp [channelGraph, load_distance_graph, getWeight, rawVal, List.map_map,
      Function.comp]

/-- C5 (amended): for every origin and each weight channel, the table the
planner precomputes is the shortest-walk table of the loaded graph, in which
an edge's weight is `orInf` of the stored value — infinite exactly when the
stored value is absent or zero, with the record's status flag never
consulted.  Conjuncts: (1) the loaded edge weights are `orInf` of the raw
channel values; (2) the table is a lower bound on every walk's cost; (3)
every finite table entry is attained by a walk; (4) a city's entry is
infinite exactly when every walk reaching it costs infinity. -/
theorem shortest_paths_correct (ds : TravelDataStore) (raw : RawGraph)
    (wk : WeightKey) (origin : String)
    (horigin : origin ∈ raw.map (·.1))
    (hkeys : (raw.map (·.1)).Nodup)
    (hadj : ∀ kv ∈ raw, (kv.2.map (·.1)).Nodup)
    (hnn : ∀ kv ∈ raw, ∀ dp ∈ kv.2, ∀ q : ℚ, rawVal wk dp.2 = some q → 0 ≤ q) :
    (∀ kv ∈ raw, ∀ dp ∈ kv.2,
      edgeWeight (channelGraph (load_distance_graph raw) wk) kv.1 dp.1 =
        orInf (rawVal wk dp.2)) ∧
    (∀ steps,
      (RoutePlanner.mk ds (load_distance_graph raw)).shortest_paths wk origin
          (walkEnd origin steps) ≤
        walkCost (channelGraph (load_distance_graph raw) wk) origin steps) ∧
    (∀ v (q : ℚ),
      (RoutePlanner.mk ds (load_distance_graph raw)).shortest_paths wk origin v =
        (q : WithTop ℚ) →
      ∃ steps, walkEnd origin steps = v ∧
        walkCost (channelGraph (load_distance_graph raw) wk) origin steps =
          (q : WithTop ℚ)) ∧
    (∀ v,
      (RoutePlanner.mk ds (load_distance_graph raw)).shortest_paths wk origin v = ⊤ ↔
      ∀ steps, walkEnd origin steps = v →
        walkCost (channelGraph (load_distance_graph raw) wk) origin steps = ⊤) := by
  set G := channelGraph (load_distance_graph raw) wk with hG
  have hGeq := channel_load_eq raw wk
  have hGkeys : G.map (·.1) = raw.map (·.1) := by
    rw [hG, hGeq, List.map_map]
    rfl
  have hGnodupkeys : NodupKeys G := by
    unfold NodupKeys
    rw [hGkeys]
    exact hkeys
  have hGadj : NodupAdj G := by
    intro kv' hkv'
    rw [hG, hGeq] at hkv'
    obtain ⟨kv, hkv, rfl⟩ := List.mem_map.mp hkv'
    rw [List.map_map]
    exact hadj kv hkv
  have hGnn : NonnegGraph G := by
    intro kv' hkv' e he q hq
    rw [hG, hGeq] at hkv'
    obtain ⟨kv, hkv, rfl⟩ := List.mem_map.mp hkv'
    obtain ⟨dp, hdp, rfl⟩ := List.mem_map.mp he
    cases hv : rawVal wk dp.2 with
    | none =>
      rw [hv] at hq
      simp only [orInf] at hq
      exact absurd hq.symm WithTop.coe_ne_top
    | some q0 =>
      rw [hv] at hq
      simp only [orInf] at hq
      by_cases h0 : q0 = 0
      · rw [if_pos h0] at hq
        exact absurd hq.symm WithTop.coe_ne_top
      · rw [if_neg h0] at hq
        obtain rfl : q0 = q := Option.some.inj hq
        exact hnn kv hkv dp hdp q0 hv
  have hedgechar : ∀ kv ∈ raw, ∀ dp ∈ kv.2,
      edgeWeight G kv.1 dp.1 = orInf (rawVal wk dp.2) := by
    intro kv hkv dp hdp
    have hrow : (kv.1, kv.2.map (fun dp => (dp.1, orInf (rawVal wk dp.2)))) ∈ G := by
      rw [hG, hGeq]
      exact List.mem_map.mpr ⟨kv, hkv, rfl⟩
    have hlkrow := lookup_of_mem_nodup2 (by rw [hGkeys]; exact hkeys) hrow
    have hadjrow : adjOf G kv.1 = kv.2.map (fun dp => (dp.1, orInf (rawVal wk dp.2))) := by
      unfold adjOf
      rw [hlkrow]
      rfl
    have hmem2 : (dp.1, orInf (rawVal wk dp.2)) ∈ adjOf G kv.1 := by
      rw [hadjrow]
      exact List.mem_map.mpr ⟨dp, hdp, rfl⟩
    exact adjOf_lookup_eq hGadj hmem2
  have hcorrect := dijkstra_correct G origin hGnn hGadj hGnodupkeys
  exact ⟨hedgechar, hcorrect.1, hcorrect.2.1, hcorrect.2.2⟩

theorem rawEx_nonneg_km :
    ∀ kv ∈ rawEx, ∀ dp ∈ kv.2, ∀ q : ℚ, rawVal .km dp.2 = some q → 0 ≤ q := by
  intro kv hkv dp hdp q hq
  simp only [rawEx, List.mem_cons, List.not_mem_nil, or_false] at hkv
  rcases hkv with rfl | rfl <;>
    · simp only [List.mem_cons, List.not_mem_nil, or_false] at hdp
      subst hdp
      simp only [rawVal] at hq
      obtain rfl : (100 : ℚ) = q := Option.some.inj hq
      norm_num

theorem shortest_paths_correct_witness :
    ("Zurich, Switzerland" ∈ rawEx.map (·.1)) ∧
    (rawEx.map (·.1)).Nodup ∧
    (∀ kv ∈ rawEx, (kv.2.map (·.1)).Nodup) ∧
    (∀ kv ∈ rawEx, ∀ dp ∈ kv.2, ∀ q : ℚ, rawVal .km dp.2 = some q → 0 ≤ q) ∧
    ((∀ kv ∈ rawEx, ∀ dp ∈ kv.2,
      edgeWeight (channelGraph (load_distance_graph rawEx) .km) kv.1 dp.1 =
        orInf (rawVal .km dp.2)) ∧
    (∀ steps,
      (RoutePlanner.mk storeEx (load_distance_graph rawEx)).shortest_paths .km
          "Zurich, Switzerland" (walkEnd "Zurich, Switzerland" steps) ≤
        walkCost (channelGraph (load_distance_graph rawEx) .km)
          "Zurich, Switzerland" steps) ∧
    (∀ v (q : ℚ),
      (RoutePlanner.mk storeEx (load_distance_graph rawEx)).shortest_paths .km
          "Zurich, Switzerland" v = (q : WithTop ℚ) →
      ∃ steps, walkEnd "Zurich, Switzerland" steps = v ∧
        walkCost (channelGraph (load_distance_graph rawEx) .km)
          "Zurich, Switzerland" steps = (q : WithTop ℚ)) ∧
    (∀ v,
      (RoutePlanner.mk storeEx (load_distance_graph rawEx)).shortest_paths .km
          "Zurich, Switzerland" v = ⊤ ↔
      ∀ steps, walkEnd "Zurich, Switzerland" steps = v →
        walkCost (channelGraph (load_distance_graph rawEx) .km)
          "Zurich, Switzerland" steps = ⊤)) :=
  ⟨by decide, by decide, by decide, rawEx_nonneg_km,
    shortest_paths_correct storeEx rawEx .km "Zurich, Switzerland"
      (by decide) (by decide) (by decide) rawEx_nonneg_km⟩

theorem channel_rawC5_eq :
    channelGraph (load_distance_graph rawC5) .km = graphC5 := by
  simp only [channelGraph, load_distance_graph, rawC5, getWeight, orInf,
    List.map, graphC5]
  norm_num

theorem channel_rawC5removed_eq :
    channelGraph (load_distance_graph rawC5removed) .km = graphC5removed := by
  simp only [channelGraph, load_distance_graph, rawC5removed, getWeight, orInf,
    List.map, graphC5removed]

theorem graphC5_nonneg : NonnegGraph graphC5 := by
  intro kv hkv e he q hq
  simp only [graphC5, List.mem_cons, List.not_mem_nil, or_false] at hkv
  rcases hkv with rfl | rfl
  · simp only [List.mem_cons, List.not_mem_nil, or_false] at he
    subst he
    have : (5 : ℚ) = q := WithTop.coe_injective hq
    rw [← this]
    norm_num
  · simp at he

theorem graphC5removed_nonneg : NonnegGraph graphC5removed := by
  intro kv hkv e he q hq
  simp only [graphC5removed, List.mem_cons, List.not_mem_nil, or_false] at hkv
  rcases hkv with rfl | rfl
  · simp only [List.mem_cons, List.not_mem_nil, or_false] at he
    subst he
    exact absurd hq.symm WithTop.coe_ne_top
  · simp at he

theorem walkCost_C5_classify (steps : List String)
    (h : walkEnd "Zurich, Switzerland" steps = "Bern, Switzerland") :
    walkCost graphC5 "Zurich, Switzerland" steps = ⊤ ∨
    walkCost graphC5 "Zurich, Switzerland" steps = ((5 : ℚ) : WithTop ℚ) := by
  cases steps with
  | nil => exact absurd h (by decide)
  | cons b rest =>
    by_cases hb : b = "Bern, Switzerland"
    · subst hb
      cases rest with
      | nil =>
        right
        show edgeWeight graphC5 "Zurich, Switzerland" "Bern, Switzerland" +
          walkCost graphC5 "Bern, Switzerland" [] = ((5 : ℚ) : WithTop ℚ)
        have he : edgeWeight graphC5 "Zurich, Switzerland" "Bern, Switzerland" =
            ((5 : ℚ) : WithTop ℚ) := rfl
        rw [he]
        show ((5 : ℚ) : WithTop ℚ) + 0 = ((5 : ℚ) : WithTop ℚ)
        exact add_zero _
      | cons c rest2 =>
        left
        show edgeWeight graphC5 "Zurich, Switzerland" "Bern, Switzerland" +
          walkCost graphC5 "Bern, Switzerland" (c :: rest2) = ⊤
        have he : edgeWeight graphC5 "Bern, Switzerland" c = ⊤ := rfl
        show edgeWeight graphC5 "Zurich, Switzerland" "Bern, Switzerland" +
          (edgeWeight graphC5 "Bern, Switzerland" c +
            walkCost graphC5 c rest2) = ⊤
        rw [he, top_add, add_top]
    · left
      show edgeWeight graphC5 "Zurich, Switzerland" b +
        walkCost graphC5 b rest = ⊤
      have he : edgeWeight graphC5 "Zurich, Switzerland" b = ⊤ := by
        simp only [edgeWeight, adjOf, graphC5, List.lookup]
        rw [show (b == "Bern, Switzerland") = false from beq_eq_false_iff_ne.mpr hb]
        rfl
      rw [he, top_add]

theorem walkCost_C5removed_top (steps : List String)
    (h : walkEnd "Zurich, Switzerland" steps = "Bern, Switzerland") :
    walkCost graphC5removed "Zurich, Switzerland" steps = ⊤ := by
  cases steps with
  | nil => exact absurd h (by decide)
  | cons b rest =>
    show edgeWeight graphC5removed "Zurich, Switzerland" b +
      walkCost graphC5removed b rest = ⊤
    have he : edgeWeight graphC5removed "Zurich, Switzerland" b = ⊤ := by
      by_cases hb : b = "Bern, Switzerland"
      · subst hb; rfl
      · simp only [edgeWeight, adjOf, graphC5removed, List.lookup]
        rw [show (b == "Bern, Switzerland") = false from beq_eq_false_iff_ne.mpr hb]
        rfl
    rw [he, top_add]

/-- C5 counterexample: in `rawC5` the only edge's record has status
`"FAILED"`, yet the precomputed km table still reports the finite shortest
distance 5 between the two cities, because the loader never consults the
status flag; if the failed record's values really were treated as absent
(`rawC5removed`), the table would report infinity.  So a non-OK edge does
contribute to shortest paths, refuting the claim's status clause. -/
theorem shortest_paths_status_counterexample :
    (∀ rec : RawRecord,
      ("Bern, Switzerland", rec) ∈ (rawC5.lookup "Zurich, Switzerland").getD [] →
        rec.status ≠ "OK" ∧ rec.distance_km = some 5) ∧
    (RoutePlanner.mk storeEx (load_distance_graph rawC5)).shortest_paths .km
      "Zurich, Switzerland" "Bern, Switzerland" = ((5 : ℚ) : WithTop ℚ) ∧
    (RoutePlanner.mk storeEx (load_distance_graph rawC5removed)).shortest_paths .km
      "Zurich, Switzerland" "Bern, Switzerland" = ⊤ := by
  refine ⟨?_, ?_, ?_⟩
  · intro rec hrec
    simp only [rawC5, List.lookup, beq_self_eq_true, Option.getD_some,
      List.mem_cons, List.not_mem_nil, or_false] at hrec
    have : rec = ⟨some 5, some 7, "FAILED"⟩ := congrArg Prod.snd hrec
    subst this
    exact ⟨by decide, rfl⟩
  · show dijkstra (channelGraph (load_distance_graph rawC5) .km)
      "Zurich, Switzerland" "Bern, Switzerland" = ((5 : ℚ) : WithTop ℚ)
    rw [channel_rawC5_eq]
    have hc := dijkstra_correct graphC5 "Zurich, Switzerland" graphC5_nonneg
      (by intro kv hkv; fin_cases hkv <;> decide)
      (by unfold NodupKeys; decide)
    have hub : dijkstra graphC5 "Zurich, Switzerland" "Bern, Switzerland" ≤
        ((5 : ℚ) : WithTop ℚ) := by
      have h1 := hc.1 ["Bern, Switzerland"]
      have hw : walkCost graphC5 "Zurich, Switzerland" ["Bern, Switzerland"] =
          ((5 : ℚ) : WithTop ℚ) :=
        (walkCost_C5_classify ["Bern, Switzerland"] rfl).resolve_left
          (by rw [show walkCost graphC5 "Zurich, Switzerland" ["Bern, Switzerland"] =
            edgeWeight graphC5 "Zurich, Switzerland" "Bern, Switzerland" + 0 from rfl]
              ; rw [show edgeWeight graphC5 "Zurich, Switzerland" "Bern, Switzerland" =
                ((5 : ℚ) : WithTop ℚ) from rfl, add_zero]
              ; exact WithTop.coe_ne_top)
      rw [← hw]
      exact h1
    cases hd : dijkstra graphC5 "Zurich, Switzerland" "Bern, Switzerland" with
    | top =>
      rw [hd] at hub
      exact absurd (top_le_iff.mp hub) WithTop.coe_ne_top
    | coe q =>
      obtain ⟨steps, hend, hcost⟩ := hc.2.1 "Bern, Switzerland" q hd
      rcases walkCost_C5_classify steps hend with htop | h5
      · rw [htop] at hcost
        exact absurd hcost.symm WithTop.coe_ne_top
      · rw [h5] at hcost
        rw [← hcost]
  · show dijkstra (channelGraph (load_distance_graph rawC5removed) .km)
      "Zurich, Switzerland" "Bern, Switzerland" = ⊤
    rw [channel_rawC5removed_eq]
    have hc := dijkstra_correct graphC5removed "Zurich, Switzerland"
      graphC5removed_nonneg (by intro kv hkv; fin_cases hkv <;> decide)
      (by unfold NodupKeys; decide)
    exact (hc.2.2 "Bern, Switzerland").mpr (fun steps h => walkCost_C5removed_top steps h)

theorem lookup_append {α : Type} (l1 l2 : List (String × α)) (k : String) :
    (l1 ++ l2).lookup k =
      match l1.lookup k with
      | some v => some v
      | none => l2.lookup k := by
  induction l1 with
  | nil => rfl
  | cons a t ih =>
    simp only [List.cons_append, List.lookup]
    cases h : (k == a.1) with
    | true => rfl
    | false => exact ih

theorem lookup_none_iff {α : Type} (l : List (String × α)) (k : String) :
    l.lookup k = none ↔ k ∉ l.map (·.1) := by
  induction l with
  | nil => simp [List.lookup]
  | cons a t ih =>
    simp only [List.lookup, List.map, List.mem_cons]
    cases h : (k == a.1) with
    | true =>
      simp only [reduceCtorEq, false_iff, not_or]
      intro hcon
      exact hcon.1 (beq_iff_eq.mp h)
    | false =>
      rw [ih]
      constructor
      · intro hn
        exact fun hor => hor.elim (fun he => absurd he (beq_eq_false_iff_ne.mp h)) hn
      · intro hn
        exact fun hm => hn (Or.inr hm)

theorem lookup_map_update {α : Type} (l : List (String × α)) (c : String) (f : α → α) :
    (l.map (fun kv => if kv.1 = c then (kv.1, f kv.2) else kv)).lookup c =
      (l.lookup c).map f := by
  induction l with
  | nil => rfl
  | cons a t ih =>
    simp only [List.map]
    by_cases hac : a.1 = c
    · rw [if_pos hac]
      simp only [List.lookup]
      rw [show (c == a.1) = true from beq_iff_eq.mpr hac.symm]
      rfl
    · rw [if_neg hac]
      simp only [List.lookup]
      cases hq : (c == a.1) with
      | true => exact absurd (beq_iff_eq.mp hq).symm hac
      | false => exact ih

theorem lookup_map_update_ne {α : Type} (l : List (String × α)) (c c' : String)
    (f : α → α) (h : c' ≠ c) :
    (l.map (fun kv => if kv.1 = c then (kv.1, f kv.2) else kv)).lookup c' =
      l.lookup c' := by
  induction l with
  | nil => rfl
  | cons a t ih =>
    simp only [List.map]
    by_cases hac : a.1 = c
    · rw [if_pos hac]
      simp only [List.lookup]
      rw [show (c' == a.1) = false from
        beq_eq_false_iff_ne.mpr (by rw [hac]; exact h)]
      exact ih
    · rw [if_neg hac]
      simp only [List.lookup]
      cases hq : (c' == a.1) with
      | true => rfl
      | false => exact ih

theorem addBlock_lookup_self (blocks : List (String × List (Nat × Nat)))
    (c : String) (b : Nat × Nat) :
    (addBlock blocks c b).lookup c = some ((blocks.lookup c).getD [] ++ [b]) := by
  unfold addBlock
  cases h : blocks.lookup c with
  | none =>
    show (blocks ++ [(c, [b])]).lookup c = some ((none : Option (List (Nat × Nat))).getD [] ++ [b])
    rw [lookup_append, h]
    simp [List.lookup]
  | some l =>
    show (blocks.map (fun kv => if kv.1 = c then (kv.1, kv.2 ++ [b]) else kv)).lookup c =
      some ((some l).getD [] ++ [b])
    have hu := lookup_map_update blocks c (fun x => x ++ [b])
    rw [h] at hu
    exact hu

theorem addBlock_lookup_ne (blocks : List (String × List (Nat × Nat)))
    (c c' : String) (b : Nat × Nat) (h : c' ≠ c) :
    (addBlock blocks c b).lookup c' = blocks.lookup c' := by
  unfold addBlock
  cases hc : blocks.lookup c with
  | none =>
    rw [lookup_append]
    cases h' : blocks.lookup c' with
    | some l => rfl
    | none =>
      simp only [List.lookup]
      rw [show (c' == c) = false from beq_eq_false_iff_ne.mpr h]
  | some l =>
    exact lookup_map_update_ne blocks c c' (fun x => x ++ [b]) h

theorem addBlock_keys_nodup (blocks : List (String × List (Nat × Nat)))
    (c : String) (b : Nat × Nat) (h : (blocks.map (·.1)).Nodup) :
    ((addBlock blocks c b).map (·.1)).Nodup := by
  unfold addBlock
  cases hc : blocks.lookup c with
  | none =>
    rw [List.map_append]
    refine List.Nodup.append h (by simp) ?_
    intro x hx hx2
    simp only [List.map, List.mem_singleton] at hx2
    subst hx2
    exact (lookup_none_iff blocks x).mp hc hx
  | some l =>
    have : (blocks.map (fun kv => if kv.1 = c then (kv.1, kv.2 ++ [b]) else kv)).map (·.1) =
        blocks.map (·.1) := by
      rw [List.map_map]
      refine List.map_congr_left ?_
      intro kv _
      by_cases hkv : kv.1 = c
      · simp [hkv]
      · simp [hkv]
    rw [this]
    exact h

theorem blocksFold_lookup (rs : List (String × (Nat × Nat))) :
    ∀ (acc : List (String × List (Nat × Nat))) (city : String),
      (rs.foldl (fun a r => addBlock a r.1 r.2) acc).lookup city =
        match acc.lookup city with
        | some l => some (l ++ (rs.filter (fun r => r.1 = city)).map (·.2))
        | none =>
          if (rs.filter (fun r => r.1 = city)) = [] then none
          else some ((rs.filter (fun r => r.1 = city)).map (·.2)) := by
  induction rs with
  | nil =>
    intro acc city
    rw [List.foldl_nil]
    cases h : acc.lookup city with
    | none => simp
    | some l => simp
  | cons r rs ih =>
    intro acc city
    rw [List.foldl_cons, ih]
    by_cases hc : r.1 = city
    · subst hc
      rw [List.filter_cons_of_pos (by simp)]
      rw [addBlock_lookup_self]
      cases h : acc.lookup r.1 with
      | none => simp
      | some l => simp
    · rw [List.filter_cons_of_neg (by simpa using hc)]
      rw [addBlock_lookup_ne _ _ _ _ (fun he => hc he.symm)]

theorem blocksFold_keys_nodup (rs : List (String × (Nat × Nat))) :
    ∀ (acc : List (String × List (Nat × Nat))), (acc.map (·.1)).Nodup →
      ((rs.foldl (fun a r => addBlock a r.1 r.2) acc).map (·.1)).Nodup := by
  induction rs with
  | nil => intro acc h; exact h
  | cons r rs ih =>
    intro acc h
    rw [List.foldl_cons]
    exact ih _ (addBlock_keys_nodup acc r.1 r.2 h)

theorem blocksLoop_eq_runsFold (n : Nat) :
    ∀ (dps : List DayPlan) (blocks : List (String × List (Nat × Nat)))
      (c : String) (s idx : Nat), idx + dps.length = n + 1 →
      blocksLoop n blocks (some c) s idx dps =
        (runsAux c s idx (dps.map (·.distance_city))).foldl
          (fun a r => addBlock a r.1 r.2) blocks := by
  intro dps
  induction dps with
  | nil =>
    intro blocks c s idx hn
    simp only [List.length_nil, Nat.add_zero] at hn
    show addBlock blocks c (s, n) =
      (runsAux c s idx []).foldl (fun a r => addBlock a r.1 r.2) blocks
    simp only [runsAux, List.foldl_cons, List.foldl_nil]
    rw [show idx - 1 = n from by omega]
  | cons dp rest ih =>
    intro blocks c s idx hn
    simp only [List.length_cons] at hn
    show (if dp.distance_city ≠ c then
        blocksLoop n (addBlock blocks c (s, idx - 1)) (some dp.distance_city) idx
          (idx + 1) rest
      else blocksLoop n blocks (some c) s (idx + 1) rest) =
      (runsAux c s idx ((dp :: rest).map (·.distance_city))).foldl
        (fun a r => addBlock a r.1 r.2) blocks
    simp only [List.map, runsAux]
    by_cases hne : dp.distance_city = c
    · rw [if_neg (by simpa using hne), if_pos hne]
      exact ih blocks c s (idx + 1) (by omega)
    · rw [if_pos hne, if_neg hne, List.foldl_cons]
      exact ih (addBlock blocks c (s, idx - 1)) dp.distance_city idx (idx + 1) (by omega)

theorem blocksLoop_eq_runsOf (dps : List DayPlan) (hne : dps ≠ []) :
    blocksLoop dps.length [] none 1 1 dps =
      (runsOf (dps.map (·.distance_city))).foldl
        (fun a r => addBlock a r.1 r.2) [] := by
  cases dps with
  | nil => exact absurd rfl hne
  | cons d rest =>
    show blocksLoop (d :: rest).length [] (some d.distance_city) 1 2 rest =
      (runsOf ((d :: rest).map (·.distance_city))).foldl
        (fun a r => addBlock a r.1 r.2) []
    simp only [List.map, runsOf]
    exact blocksLoop_eq_runsFold (d :: rest).length rest [] d.distance_city 1 2
      (by simp [List.length_cons]; omega)

theorem foldl_violations_empty {α : Type} (p q : α → Prop)
    [DecidablePred p] [DecidablePred q] (g : α → String) :
    ∀ (l : List α) (acc : List String),
      l.foldl (fun v cb => if p cb then v else if q cb then v else v ++ [g cb]) acc = [] ↔
      acc = [] ∧ ∀ cb ∈ l, p cb ∨ q cb := by
  intro l
  induction l with
  | nil => intro acc; simp
  | cons x xs ih =>
    intro acc
    rw [List.foldl_cons]
    by_cases hp : p x
    · rw [if_pos hp, ih]
      simp only [List.mem_cons]
      constructor
      · rintro ⟨ha, hall⟩
        exact ⟨ha, fun cb hcb => hcb.elim (fun he => he ▸ Or.inl hp) (hall cb)⟩
      · rintro ⟨ha, hall⟩
        exact ⟨ha, fun cb hcb => hall cb (Or.inr hcb)⟩
    · rw [if_neg hp]
      by_cases hq : q x
      · rw [if_pos hq, ih]
        simp only [List.mem_cons]
        constructor
        · rintro ⟨ha, hall⟩
          exact ⟨ha, fun cb hcb => hcb.elim (fun he => he ▸ Or.inr hq) (hall cb)⟩
        · rintro ⟨ha, hall⟩
          exact ⟨ha, fun cb hcb => hall cb (Or.inr hcb)⟩
      · rw [if_neg hq, ih]
        constructor
        · rintro ⟨ha, _⟩
          exact absurd ha (by simp)
        · rintro ⟨ha, hall⟩
          exact absurd (hall x (List.mem_cons_self x xs)) (by
            intro hor
            exact hor.elim hp hq)

theorem foldl_append2_empty {α β : Type} (f g : α → List β) :
    ∀ (l : List α) (acc : List β),
      l.foldl (fun acc x => acc ++ f x ++ g x) acc = [] ↔
      acc = [] ∧ ∀ x ∈ l, f x = [] ∧ g x = [] := by
  intro l
  induction l with
  | nil => intro acc; simp
  | cons x xs ih =>
    intro acc
    rw [List.foldl_cons, ih]
    rw [List.append_assoc, List.append_eq_nil]
    simp only [List.append_eq_nil, List.mem_cons]
    constructor
    · rintro ⟨⟨ha, hf, hg⟩, hall⟩
      exact ⟨ha, fun y hy => hy.elim (fun he => he ▸ ⟨hf, hg⟩) (hall y)⟩
    · rintro ⟨ha, hall⟩
      obtain ⟨hf, hg⟩ := hall x (Or.inl rfl)
      exact ⟨⟨ha, hf, hg⟩, fun y hy => hall y (Or.inr hy)⟩

theorem block_head_translate (F : List (String × (Nat × Nat))) (hF : F ≠ []) :
    ((F.map (·.2)).headD (0, 0)).1 = (F.headD ("", (0, 0))).2.1 := by
  cases F with
  | nil => exact absurd rfl hF
  | cons f t => rfl

theorem block_last_translate (F : List (String × (Nat × Nat))) :
    (((F.map (·.2)).getLast?).getD (0, 0)).2 =
      ((F.getLast?).getD ("", (0, 0))).2.2 := by
  rw [List.getLast?_map]
  cases h : F.getLast? with
  | none => rfl
  | some g => rfl

theorem check_no_revisit_empty_iff (dps : List DayPlan) (s e : String)
    (hne : dps ≠ []) :
    check_no_revisit dps s e = [] ↔ noRevisitSpec dps s e := by
  have hblocks := blocksLoop_eq_runsOf dps hne
  have hnodup := blocksFold_keys_nodup (runsOf (dps.map (·.distance_city))) []
    (by simp)
  have hlook : ∀ city,
      ((runsOf (dps.map (·.distance_city))).foldl
        (fun a r => addBlock a r.1 r.2) []).lookup city =
      if ((runsOf (dps.map (·.distance_city))).filter
            (fun r => r.1 = city)) = [] then none
        else some (((runsOf (dps.map (·.distance_city))).filter
            (fun r => r.1 = city)).map (·.2)) :=
    fun city => blocksFold_lookup (runsOf (dps.map (·.distance_city))) [] city
  simp only [check_no_revisit]
  rw [hblocks]
  rw [foldl_violations_empty
    (fun cb : String × List (Nat × Nat) => cb.2.length ≤ 1)
    (fun cb : String × List (Nat × Nat) =>
      normalize_city_name s = normalize_city_name e ∧
      normalize_city_name cb.1 = normalize_city_name s ∧ cb.2.length = 2 ∧
      (cb.2.headD (0, 0)).1 = 1 ∧
      ((cb.2.getLast?).getD (0, 0)).2 = dps.length)
    (fun cb => cb.1)]
  simp only [true_and]
  constructor
  · intro hall city hlen
    set F := (runsOf (dps.map (·.distance_city))).filter (fun r => r.1 = city) with hFdef
    have hFne : F ≠ [] := by
      intro hcon
      rw [hcon] at hlen
      simp at hlen
    have hlk := hlook city
    rw [if_neg hFne] at hlk
    have hmem := mem_of_lookup_eq_some2 hlk
    have hP := hall (city, F.map (·.2)) hmem
    rcases hP with hsmall | hcond
    · exact absurd hsmall (by simp only [List.length_map]; omega)
    · refine ⟨hcond.1, hcond.2.1, ?_, ?_, ?_⟩
      · have := hcond.2.2.1
        simpa using this
      · have := hcond.2.2.2.1
        rw [block_head_translate F hFne] at this
        exact this
      · have := hcond.2.2.2.2
        rw [block_last_translate F] at this
        exact this
  · intro hspec cb hcb
    have hlkcb := lookup_of_mem_nodup2 hnodup hcb
    have hlk := hlook cb.1
    rw [hlkcb] at hlk
    set F := (runsOf (dps.map (·.distance_city))).filter (fun r => r.1 = cb.1) with hFdef
    have hFne : F ≠ [] := by
      intro hcon
      rw [if_pos hcon] at hlk
      cases hlk
    rw [if_neg hFne] at hlk
    have hcb2 : cb.2 = F.map (·.2) := Option.some.inj hlk
    by_cases hsmall : cb.2.length ≤ 1
    · exact Or.inl hsmall
    · have hlen : 1 < F.length := by
        rw [hcb2] at hsmall
        simp only [List.length_map] at hsmall
        omega
      obtain ⟨h1, h2, h3, h4, h5⟩ := hspec cb.1 hlen
      refine Or.inr ⟨h1, h2, ?_, ?_, ?_⟩
      · rw [hcb2]
        simpa using h3
      · rw [hcb2, block_head_translate F hFne]
        exact h4
      · rw [hcb2, block_last_translate F]
        exact h5

theorem evaluate_itinerary_eq (sqrtFn expFn : ℚ → ℚ)
    (graph : List (String × List (String × WithTop ℚ)))
    (dps : List DayPlan) (s e : String) (interests : List (String × ℚ))
    (mtu : Int) (season : String) :
    evaluate_itinerary sqrtFn expFn graph dps s e interests mtu season =
      if dps.isEmpty then ⟨0, [], ["empty itinerary"]⟩
      else if ¬ (hardViolations dps s e mtu season).isEmpty then
        ⟨0, [], hardViolations dps s e mtu season⟩
      else evalValid sqrtFn expFn graph dps s interests mtu := rfl

theorem eval_proj_violating (sqrtFn expFn : ℚ → ℚ)
    (graph : List (String × List (String × WithTop ℚ)))
    (dps : List DayPlan) (s e : String) (interests : List (String × ℚ))
    (mtu : Int) (season : String) (hdps : dps.isEmpty = false)
    (hv : hardViolations dps s e mtu season ≠ []) :
    evaluate_itinerary sqrtFn expFn graph dps s e interests mtu season =
      ⟨0, [], hardViolations dps s e mtu season⟩ := by
  rw [evaluate_itinerary_eq, if_neg (by simp [hdps]),
    if_pos (by simp [List.isEmpty_iff, hv])]

theorem eval_proj_valid (sqrtFn expFn : ℚ → ℚ)
    (graph : List (String × List (String × WithTop ℚ)))
    (dps : List DayPlan) (s e : String) (interests : List (String × ℚ))
    (mtu : Int) (season : String) (hdps : dps.isEmpty = false)
    (hv : hardViolations dps s e mtu season = []) :
    (evaluate_itinerary sqrtFn expFn graph dps s e interests mtu season).hard_violations =
      [] := by
  rw [evaluate_itinerary_eq, if_neg (by simp [hdps]),
    if_neg (by simp [List.isEmpty_iff, hv])]
  rfl

theorem filterMap_eq_nil_iff2 {α β : Type} (f : α → Option β) (l : List α) :
    l.filterMap f = [] ↔ ∀ a ∈ l, f a = none := by
  induction l with
  | nil => simp
  | cons x xs ih => cases h : f x <;> simp [List.filterMap_cons, h, ih]

theorem hardViolations_empty_iff (dps : List DayPlan) (s e : String) (mtu : Int)
    (season : String) (hne : dps ≠ []) :
    hardViolations dps s e mtu season = [] ↔
      (normalize_city_name (dps.headD default).distance_city =
        normalize_city_name s ∧
       normalize_city_name ((dps.getLast?).getD default).distance_city =
        normalize_city_name e ∧
       noRevisitSpec dps s e ∧
       (∀ dp ∈ dps, ∀ poi ∈ dp.pois, is_in_season poi (some season) = true) ∧
       (∀ dp ∈ dps, (dayTU dp : Int) ≤ mtu)) := by
  have h1 : ((if normalize_city_name (dps.headD default).distance_city ≠
        normalize_city_name s then ["day 1 not in start city"] else []) = []) ↔
      normalize_city_name (dps.headD default).distance_city =
        normalize_city_name s := by
    by_cases h : normalize_city_name (dps.headD default).distance_city =
        normalize_city_name s
    · simp [h]
    · simp [h]
  have h2 : ((if normalize_city_name ((dps.getLast?).getD default).distance_city ≠
        normalize_city_name e then ["last day not in end city"] else []) = []) ↔
      normalize_city_name ((dps.getLast?).getD default).distance_city =
        normalize_city_name e := by
    by_cases h : normalize_city_name ((dps.getLast?).getD default).distance_city =
        normalize_city_name e
    · simp [h]
    · simp [h]
  have h3 : ((if ¬ (check_no_revisit dps s e).isEmpty then
        ["revisited cities: " ++
          joinSep ", " (insertionSort strLeB
            (check_no_revisit dps s e).eraseDups)] else []) = []) ↔
      noRevisitSpec dps s e := by
    by_cases h : (check_no_revisit dps s e).isEmpty
    · exact iff_of_true (by simp [h])
        ((check_no_revisit_empty_iff dps s e hne).mp (List.isEmpty_iff.mp h))
    · exact iff_of_false (by simp [h])
        (fun hs => h (by
          rw [List.isEmpty_iff]
          exact (check_no_revisit_empty_iff dps s e hne).mpr hs))
  have h4 : ∀ dp : DayPlan,
      ((dp.pois.filterMap (fun poi =>
        if ¬ is_in_season poi (some season) then
          some ("POI out of season: " ++ poi.name)
        else none)) = []) ↔
      ∀ poi ∈ dp.pois, is_in_season poi (some season) = true := by
    intro dp
    rw [filterMap_eq_nil_iff2]
    constructor
    · intro hall poi hpoi
      have hx := hall poi hpoi
      by_contra hb
      rw [if_pos (by simpa using hb)] at hx
      cases hx
    · intro hall poi hpoi
      rw [if_neg (by simpa using hall poi hpoi)]
  have h5 : ∀ dp : DayPlan,
      ((if mtu < (dayTU dp : Int) then
        ["day TU exceeds MTU: " ++ dp.display_city ++ " TU=" ++ toString (dayTU dp) ++
          " MTU=" ++ toString mtu]
      else []) = []) ↔ (dayTU dp : Int) ≤ mtu := by
    intro dp
    by_cases h : mtu < (dayTU dp : Int)
    · exact iff_of_false (by simp [h]) (by omega)
    · exact iff_of_true (by simp [h]) (by omega)
  unfold hardViolations
  rw [List.append_eq_nil, List.append_eq_nil, List.append_eq_nil]
  rw [foldl_append2_empty]
  rw [h1, h2, h3]
  constructor
  · rintro ⟨⟨⟨ha, hb⟩, hc⟩, -, hd⟩
    exact ⟨ha, hb, hc, fun dp hdp => (h4 dp).mp (hd dp hdp).1,
      fun dp hdp => (h5 dp).mp (hd dp hdp).2⟩
  · rintro ⟨ha, hb, hc, hd, he2⟩
    exact ⟨⟨⟨ha, hb⟩, hc⟩, rfl,
      fun dp hdp => ⟨(h4 dp).mpr (hd dp hdp), (h5 dp).mpr (he2 dp hdp)⟩⟩

/-- C3: on a non-empty itinerary (with a positive per-day ceiling, the
caller-side guarantee that keeps Python clear of the `ZeroDivisionError` in
the soft branch), `evaluate_itinerary` reports no hard violation exactly when
day 1's city matches the declared start city and the last day's city the
declared end city (city names compared after normalisation), no city owns
more than one contiguous run of days — except the start city of a loop trip,
allowed exactly two runs, one beginning on day 1 and one ending on the last
day —, every selected POI is in season, and no day's travel-plus-activity TU
total exceeds the caller's MTU; and whenever the violation list is non-empty
(also on the empty itinerary), the total is 0 and the component map is
empty. -/
theorem evaluate_itinerary_hard_constraints (sqrtFn expFn : ℚ → ℚ)
    (graph : List (String × List (String × WithTop ℚ)))
    (dps : List DayPlan) (s e : String) (interests : List (String × ℚ))
    (mtu : Int) (season : String) (hne : dps ≠ []) (hmtu : 0 < mtu) :
    ((evaluate_itinerary sqrtFn expFn graph dps s e interests mtu season).hard_violations
        = [] ↔
      (normalize_city_name (dps.headD default).distance_city =
        normalize_city_name s ∧
       normalize_city_name ((dps.getLast?).getD default).distance_city =
        normalize_city_name e ∧
       noRevisitSpec dps s e ∧
       (∀ dp ∈ dps, ∀ poi ∈ dp.pois, is_in_season poi (some season) = true) ∧
       (∀ dp ∈ dps, (dayTU dp : Int) ≤ mtu))) ∧
    ((evaluate_itinerary sqrtFn expFn graph dps s e interests mtu season).hard_violations
        ≠ [] →
      (evaluate_itinerary sqrtFn expFn graph dps s e interests mtu season).total = 0 ∧
      (evaluate_itinerary sqrtFn expFn graph dps s e interests mtu season).components
        = []) := by
  have hdps : dps.isEmpty = false := by
    cases dps with
    | nil => exact absurd rfl hne
    | cons a t => rfl
  constructor
  · by_cases hv : hardViolations dps s e mtu season = []
    · exact iff_of_true
        (eval_proj_valid sqrtFn expFn graph dps s e interests mtu season hdps hv)
        ((hardViolations_empty_iff dps s e mtu season hne).mp hv)
    · refine iff_of_false ?_ ?_
      · rw [eval_proj_violating sqrtFn expFn graph dps s e interests mtu season
          hdps hv]
        exact hv
      · intro hcond
        exact hv ((hardViolations_empty_iff dps s e mtu season hne).mpr hcond)
  · intro hEne
    by_cases hv : hardViolations dps s e mtu season = []
    · exact absurd
        (eval_proj_valid sqrtFn expFn graph dps s e interests mtu season hdps hv)
        hEne
    · rw [eval_proj_violating sqrtFn expFn graph dps s e interests mtu season
        hdps hv]
      exact ⟨rfl, rfl⟩

theorem evaluate_itinerary_hard_constraints_witness :
    (([dayC3] : List DayPlan) ≠ []) ∧ (0 < (8 : Int)) ∧
    (((evaluate_itinerary id id [] [dayC3] "Zurich" "Zurich" [] 8 "summer").hard_violations
        = [] ↔
      (normalize_city_name (([dayC3] : List DayPlan).headD default).distance_city =
        normalize_city_name "Zurich" ∧
       normalize_city_name ((([dayC3] : List DayPlan).getLast?).getD default).distance_city =
        normalize_city_name "Zurich" ∧
       noRevisitSpec [dayC3] "Zurich" "Zurich" ∧
       (∀ dp ∈ ([dayC3] : List DayPlan), ∀ poi ∈ dp.pois,
         is_in_season poi (some "summer") = true) ∧
       (∀ dp ∈ ([dayC3] : List DayPlan), (dayTU dp : Int) ≤ 8))) ∧
    ((evaluate_itinerary id id [] [dayC3] "Zurich" "Zurich" [] 8 "summer").hard_violations
        ≠ [] →
      (evaluate_itinerary id id [] [dayC3] "Zurich" "Zurich" [] 8 "summer").total = 0 ∧
      (evaluate_itinerary id id [] [dayC3] "Zurich" "Zurich" [] 8 "summer").components
        = [])) :=
  ⟨List.cons_ne_nil _ _, by decide,
    evaluate_itinerary_hard_constraints id id [] [dayC3] "Zurich" "Zurich" [] 8
      "summer" (List.cons_ne_nil _ _) (by decide)⟩

end SwissTravel
